import Mathlib

set_option maxRecDepth 100000

/-!
Verification of the `phant` dump-event decoder (`internal/dump`):
`DecodeNDJSONLine`, `validateRequiredKeys` and `validateEvent`, together with
the data model of `types.go`.  The Go standard-library pieces the decoder
relies on (`encoding/json` unmarshalling into `map[string]json.RawMessage`
and into the typed `Event` struct, `strings.TrimSpace`, and
`time.Parse`/`Format` with the `RFC3339Nano` layout) are embedded as
executable Lean functions over character lists.
-/

namespace Phant

/-! ## JSON syntax trees

A parsed JSON value.  Numbers keep their source token (as `encoding/json`
does until a typed field forces a conversion) and object members keep, next
to the parsed value, the exact source text of that value — the bytes a
`json.RawMessage` field would capture. -/

inductive Json where
  | null
  | bool (b : Bool)
  | num (tok : String)
  | str (s : String)
  | arr (elems : List Json)
  | obj (members : List (String × Json × String))

/-- JSON insignificant whitespace (RFC 8259: space, tab, line feed, carriage
return) — the characters `encoding/json` skips between tokens. -/
def isJsonWs (c : Char) : Bool := c == ' ' || c == '\t' || c == '\n' || c == '\r'

def skipWs (cs : List Char) : List Char := cs.dropWhile isJsonWs

def hexVal (c : Char) : Option Nat :=
  let n := c.toNat
  if 48 ≤ n ∧ n ≤ 57 then some (n - 48)
  else if 97 ≤ n ∧ n ≤ 102 then some (n - 87)
  else if 65 ≤ n ∧ n ≤ 70 then some (n - 55)
  else none

def hex4 (a b c d : Char) : Option Nat := do
  let x0 ← hexVal a
  let x1 ← hexVal b
  let x2 ← hexVal c
  let x3 ← hexVal d
  return x3 + 16 * (x2 + 16 * (x1 + 16 * x0))

/-- Decode one simple escape character (after a backslash). -/
def unescape : Char → Option Char
  | 'n' => some '\n'
  | 't' => some '\t'
  | 'r' => some '\r'
  | '"' => some '"'
  | '\\' => some '\\'
  | '/' => some '/'
  | 'b' => some (Char.ofNat 0x08)
  | 'f' => some (Char.ofNat 0x0c)
  | _ => none

/-- Is `n` a UTF-16 high surrogate? -/
def isHighSur (n : Nat) : Bool := 0xD800 ≤ n && n < 0xDC00

/-- Is `n` a UTF-16 low surrogate? -/
def isLowSur (n : Nat) : Bool := 0xDC00 ≤ n && n < 0xE000

/-- The scalar for a `\uXXXX` escape outside the surrogate ranges (lone
surrogates become U+FFFD, as in Go's `unquote`). -/
def scalarOfHex (n : Nat) : Char :=
  if isHighSur n || isLowSur n then '�' else Char.ofNat n

/-- Parse a JSON string body after the opening quote.  Returns
`(content, consumed, rest)` where `consumed` includes the closing quote.
Mirrors Go's string scanning for acceptance: raw control characters are
rejected, simple escapes and `\uXXXX` escapes are decoded.  (Each `\uXXXX`
escape is decoded independently; surrogate values become U+FFFD.  Go
additionally combines adjacent high/low surrogate escapes into one scalar —
a content-level difference that never changes whether a string, or the
line, is accepted.) -/
def parseStrAux : List Char → Option (List Char × List Char × List Char)
  | '"' :: r => some ([], ['"'], r)
  | '\\' :: 'u' :: a :: b :: c :: d :: r =>
    (hex4 a b c d).bind fun n =>
      (parseStrAux r).map fun (content, consumed, rest) =>
        (scalarOfHex n :: content, '\\' :: 'u' :: a :: b :: c :: d :: consumed, rest)
  | '\\' :: e :: r =>
    (unescape e).bind fun ch =>
      (parseStrAux r).map fun (content, consumed, rest) =>
        (ch :: content, '\\' :: e :: consumed, rest)
  | c :: r =>
    if c.toNat < 0x20 then none
    else
      (parseStrAux r).map fun (content, consumed, rest) =>
        (c :: content, c :: consumed, rest)
  | [] => none

/-- Optional fraction part of a number: `('.' digits)` or nothing. -/
def parseFrac : List Char → Option (List Char × List Char)
  | '.' :: r =>
    match r.span Char.isDigit with
    | ([], _) => none
    | (fds, r2) => some ('.' :: fds, r2)
  | cs => some ([], cs)

/-- The digit run of an exponent, after the optional sign. -/
def parseExpDigits (ec : Char) (sg t : List Char) : Option (List Char × List Char) :=
  match t.span Char.isDigit with
  | ([], _) => none
  | (eds, r2) => some (ec :: (sg ++ eds), r2)

def parseExpAt (ec : Char) : List Char → Option (List Char × List Char)
  | '+' :: t => parseExpDigits ec ['+'] t
  | '-' :: t => parseExpDigits ec ['-'] t
  | t => parseExpDigits ec [] t

/-- Optional exponent part of a number. -/
def parseExp : List Char → Option (List Char × List Char)
  | 'e' :: r => parseExpAt 'e' r
  | 'E' :: r => parseExpAt 'E' r
  | cs => some ([], cs)

/-- A number token after the optional minus sign: integer part (without
leading zeros), optional fraction, optional exponent. -/
def parseNumBody (sgn cs1 : List Char) : Option (List Char × List Char) :=
  match cs1.span Char.isDigit with
  | ([], _) => none
  | (ds, cs2) =>
    if ds.head? = some '0' && ds.length != 1 then none
    else
      match parseFrac cs2 with
      | none => none
      | some (fr, cs3) =>
        match parseExp cs3 with
        | none => none
        | some (ex, cs4) => some (sgn ++ ds ++ fr ++ ex, cs4)

/-- Parse one JSON number token (RFC 8259 grammar).  Returns
`(token, rest)`. -/
def parseNumTok : List Char → Option (List Char × List Char)
  | '-' :: r => parseNumBody ['-'] r
  | cs => parseNumBody [] cs

/-- A tail that cannot extend a completed number token: empty, or headed by
a character that is neither a digit nor `.`, `e`, `E`.  Every JSON
delimiter (whitespace, `,`, `]`, the closing brace, end of input)
qualifies. -/
def numDelim : List Char → Bool
  | [] => true
  | d :: _ => !(d.isDigit || d == '.' || d == 'e' || d == 'E')

mutual

/-- Parse one JSON value.  The input must start at the value (callers skip
whitespace); returns `(value, consumed, rest)` with the input equal to
`consumed ++ rest`, so `consumed` is exactly the text a `json.RawMessage`
would capture for this value. -/
def parseVal : Nat → List Char → Option (Json × List Char × List Char)
  | 0, _ => none
  | fuel + 1, cs =>
    match cs with
    | 'n' :: 'u' :: 'l' :: 'l' :: r => some (.null, ['n', 'u', 'l', 'l'], r)
    | 't' :: 'r' :: 'u' :: 'e' :: r => some (.bool true, ['t', 'r', 'u', 'e'], r)
    | 'f' :: 'a' :: 'l' :: 's' :: 'e' :: r => some (.bool false, ['f', 'a', 'l', 's', 'e'], r)
    | '"' :: r =>
      match parseStrAux r with
      | some (content, consumed, rest) => some (.str (String.mk content), '"' :: consumed, rest)
      | none => none
    | '\x7b' :: r =>
      match (r.span isJsonWs).2, (r.span isJsonWs).1 with
      | '\x7d' :: r2, w => some (.obj [], '\x7b' :: (w ++ ['\x7d']), r2)
      | r1, w =>
        match parseMembers fuel r1 with
        | some (ms, c, rest) => some (.obj ms, '\x7b' :: (w ++ c), rest)
        | none => none
    | '[' :: r =>
      match (r.span isJsonWs).2, (r.span isJsonWs).1 with
      | ']' :: r2, w => some (.arr [], '[' :: (w ++ [']']), r2)
      | r1, w =>
        match parseElems fuel r1 with
        | some (vs, c, rest) => some (.arr vs, '[' :: (w ++ c), rest)
        | none => none
    | c :: r =>
      if c == '-' || c.isDigit then
        match parseNumTok (c :: r) with
        | some (tok, rest) => some (.num (String.mk tok), tok, rest)
        | none => none
      else none
    | [] => none

/-- Parse `value (ws ',' ws value)* ws ']'` — the elements of a non-empty
array, starting at the first element. -/
def parseElems : Nat → List Char → Option (List Json × List Char × List Char)
  | 0, _ => none
  | fuel + 1, cs =>
    match parseVal fuel cs with
    | none => none
    | some (v, c, r) =>
      match (r.span isJsonWs).2, (r.span isJsonWs).1 with
      | ',' :: r2, w =>
        match parseElems fuel ((r2.span isJsonWs).2) with
        | some (vs, c2, rest) =>
          some (v :: vs, c ++ w ++ ',' :: ((r2.span isJsonWs).1 ++ c2), rest)
        | none => none
      | ']' :: r2, w => some ([v], c ++ w ++ [']'], r2)
      | _, _ => none

/-- Parse `key ws ':' ws value (ws ',' ws …)* ws end-brace` — the members of
a non-empty object, starting at the first key's opening quote. -/
def parseMembers : Nat → List Char → Option (List (String × Json × String) × List Char × List Char)
  | 0, _ => none
  | fuel + 1, cs =>
    match cs with
    | '"' :: r =>
      match parseStrAux r with
      | none => none
      | some (kcontent, kconsumed, r1) =>
        match (r1.span isJsonWs).2, (r1.span isJsonWs).1 with
        | ':' :: r3, w1 =>
          match parseVal fuel ((r3.span isJsonWs).2) with
          | none => none
          | some (v, vc, r5) =>
            match (r5.span isJsonWs).2, (r5.span isJsonWs).1 with
            | ',' :: r7, w3 =>
              match parseMembers fuel ((r7.span isJsonWs).2) with
              | some (ms, c2, rest) =>
                some ((String.mk kcontent, v, String.mk vc) :: ms,
                  '"' :: kconsumed ++ w1 ++ ':' :: ((r3.span isJsonWs).1 ++ vc ++ w3 ++
                    ',' :: ((r7.span isJsonWs).1 ++ c2)), rest)
              | none => none
            | '\x7d' :: r7, w3 =>
              some ([(String.mk kcontent, v, String.mk vc)],
                '"' :: kconsumed ++ w1 ++ ':' :: ((r3.span isJsonWs).1 ++ vc ++ w3 ++ ['\x7d']), r7)
            | _, _ => none
        | _, _ => none
    | _ => none

end

/-- Parse a complete JSON document: optional whitespace, one value, optional
whitespace — exactly what `json.Unmarshal` accepts as one top-level value. -/
def parseTop (cs : List Char) : Option Json :=
  match parseVal ((skipWs cs).length + 1) (skipWs cs) with
  | some (v, _, r) => if skipWs r = [] then some v else none
  | none => none

/-- Go's `json.Valid`: the bytes are one syntactically valid JSON value. -/
def jsonValid (s : String) : Bool := (parseTop s.data).isSome

/-! ## The dump event data model (`internal/dump/types.go`) -/

/-- The single supported schema version (`dump.SchemaVersion`). -/
def SchemaVersion : Int := 1

structure HTTPMeta where
  method : String
  scheme : String
  host : String
  path : String
  query : String
  statusCode : Option Int
  clientIp : String
  userAgent : String
deriving DecidableEq

structure CommandMeta where
  name : String
  args : List String
  cwd : String
deriving DecidableEq

structure TraceFrame where
  file : String
  line : Int
  func : String
deriving DecidableEq

structure HostMeta where
  hostname : String
  pid : Int
deriving DecidableEq

/-- The decoded dump event.  `payload` holds the raw bytes a
`json.RawMessage` captures; pointer-typed Go fields become `Option`s. -/
structure Event where
  schemaVersion : Int
  id : String
  timestamp : String
  sourceType : String
  projectRoot : String
  phpSapi : String
  requestId : Option String
  http : Option HTTPMeta
  command : Option CommandMeta
  isDd : Bool
  payloadFormat : String
  payload : String
  trace : List TraceFrame
  host : HostMeta
deriving DecidableEq

def zeroHTTP : HTTPMeta := ⟨"", "", "", "", "", none, "", ""⟩
def zeroCommand : CommandMeta := ⟨"", [], ""⟩
def zeroFrame : TraceFrame := ⟨"", 0, ""⟩
def zeroHost : HostMeta := ⟨"", 0⟩
def zeroEvent : Event :=
  ⟨0, "", "", "", "", "", none, none, none, false, "", "", [], zeroHost⟩

/-! ## Typed unmarshalling (the relevant slice of `encoding/json`)

Object members are applied in source order, so a later duplicate key
overwrites an earlier one, exactly as the Go decoder fills a struct. -/

def digitsToNat (ds : List Char) : Nat :=
  ds.foldl (fun acc c => acc * 10 + (c.toNat - '0'.toNat)) 0

/-- `strconv.ParseInt` (base 10) as used for a JSON number token aimed at an
integer field: an optional minus sign then decimal digits only. -/
def parseIntLit (tok : String) : Option Int :=
  match tok.data with
  | '-' :: ds => if ds ≠ [] ∧ ds.all Char.isDigit then some (-(digitsToNat ds : Int)) else none
  | ds => if ds ≠ [] ∧ ds.all Char.isDigit then some ((digitsToNat ds : Int)) else none

def int64Min : Int := -(2 ^ 63)
def int64Max : Int := 2 ^ 63 - 1

/-- Decode a JSON value into a Go `int` (64-bit), with `cur` the field's
current value (JSON `null` leaves it untouched). -/
def decInt (v : Json) (cur : Int) : Except String Int :=
  match v with
  | .num tok =>
    match parseIntLit tok with
    | some n => if int64Min ≤ n ∧ n ≤ int64Max then .ok n
                else .error "cannot unmarshal number into int field: overflow"
    | none => .error "cannot unmarshal number into int field"
  | .null => .ok cur
  | _ => .error "cannot unmarshal value into int field"

def decStr (v : Json) (cur : String) : Except String String :=
  match v with
  | .str s => .ok s
  | .null => .ok cur
  | _ => .error "cannot unmarshal value into string field"

/-- Decode into a `*string` (JSON `null` resets the pointer to nil). -/
def decOptStr (v : Json) : Except String (Option String) :=
  match v with
  | .str s => .ok (some s)
  | .null => .ok none
  | _ => .error "cannot unmarshal value into string pointer field"

/-- Decode into a `*int`. -/
def decOptInt (v : Json) : Except String (Option Int) :=
  match v with
  | .null => .ok none
  | _ => (decInt v 0).map some

def decBool (v : Json) (cur : Bool) : Except String Bool :=
  match v with
  | .bool b => .ok b
  | .null => .ok cur
  | _ => .error "cannot unmarshal value into bool field"

/-- Effectful map over a list in the `Except` monad, returning the first
error (`json` array element decoding). -/
def mapE {α β : Type} (f : α → Except String β) : List α → Except String (List β)
  | [] => .ok []
  | a :: as =>
    match f a with
    | .error e => .error e
    | .ok b => (mapE f as).map (b :: ·)

/-- A string element inside a slice (`null` leaves the zero value). -/
def decStrElem (v : Json) : Except String String :=
  match v with
  | .str s => .ok s
  | .null => .ok ""
  | _ => .error "cannot unmarshal value into string element"

/-- Decode into a `[]string` (`null` gives the nil slice). -/
def decArgs (v : Json) : Except String (List String) :=
  match v with
  | .null => .ok []
  | .arr es => mapE decStrElem es
  | _ => .error "cannot unmarshal value into string slice field"

/-! ## `encoding/json` member-name matching

A member key selects a struct field up to Unicode simple folding
(`foldName` / `bytes.EqualFold`): the decoder first looks for an exact tag
match and otherwise takes the field whose folded name matches.  The field
names of every struct here fold apart, so exact and folded lookup always
pick the same field and matching reduces to fold-equality. -/

/-- One rune of `foldName`: the smallest rune of the Unicode simple-fold
orbit.  ASCII lower-case letters map to upper case; the only non-ASCII
runes whose orbit reaches ASCII are `ſ` (U+017F, folds with `s`) and the
Kelvin sign (U+212A, folds with `k`).  Runes in purely non-ASCII orbits
are left in place, which gives the same match verdict against the ASCII
field names used here. -/
def foldChar (c : Char) : Char :=
  if 'a' ≤ c ∧ c ≤ 'z' then Char.ofNat (c.toNat - 32)
  else if c.toNat = 0x17F then 'S'
  else if c.toNat = 0x212A then 'K'
  else c

def keyFold (s : String) : String := String.mk (s.data.map foldChar)

/-- The member key `k` binds to the struct field tagged `tag`. -/
def nameMatch (k tag : String) : Prop := keyFold k = keyFold tag

instance (k tag : String) : Decidable (nameMatch k tag) := by
  unfold nameMatch
  infer_instance

def applyHTTPMember (m : HTTPMeta) (kv : String × Json × String) : Except String HTTPMeta :=
  if nameMatch kv.1 "method" then (decStr kv.2.1 m.method).map fun s => { m with method := s }
  else if nameMatch kv.1 "scheme" then (decStr kv.2.1 m.scheme).map fun s => { m with scheme := s }
  else if nameMatch kv.1 "host" then (decStr kv.2.1 m.host).map fun s => { m with host := s }
  else if nameMatch kv.1 "path" then (decStr kv.2.1 m.path).map fun s => { m with path := s }
  else if nameMatch kv.1 "query" then (decStr kv.2.1 m.query).map fun s => { m with query := s }
  else if nameMatch kv.1 "statusCode" then (decOptInt kv.2.1).map fun s => { m with statusCode := s }
  else if nameMatch kv.1 "clientIp" then (decStr kv.2.1 m.clientIp).map fun s => { m with clientIp := s }
  else if nameMatch kv.1 "userAgent" then (decStr kv.2.1 m.userAgent).map fun s => { m with userAgent := s }
  else .ok m

def decodeHTTPMembers : HTTPMeta → List (String × Json × String) → Except String HTTPMeta
  | m, [] => .ok m
  | m, kv :: ms =>
    match applyHTTPMember m kv with
    | .ok m2 => decodeHTTPMembers m2 ms
    | .error e => .error e

/-- Decode into a `*HTTPMeta`. -/
def decHTTP (v : Json) : Except String (Option HTTPMeta) :=
  match v with
  | .null => .ok none
  | .obj ms => (decodeHTTPMembers zeroHTTP ms).map some
  | _ => .error "cannot unmarshal value into http metadata field"

def applyCommandMember (m : CommandMeta) (kv : String × Json × String) : Except String CommandMeta :=
  if nameMatch kv.1 "name" then (decStr kv.2.1 m.name).map fun s => { m with name := s }
  else if nameMatch kv.1 "args" then (decArgs kv.2.1).map fun a => { m with args := a }
  else if nameMatch kv.1 "cwd" then (decStr kv.2.1 m.cwd).map fun s => { m with cwd := s }
  else .ok m

def decodeCommandMembers : CommandMeta → List (String × Json × String) → Except String CommandMeta
  | m, [] => .ok m
  | m, kv :: ms =>
    match applyCommandMember m kv with
    | .ok m2 => decodeCommandMembers m2 ms
    | .error e => .error e

/-- Decode into a `*CommandMeta`. -/
def decCommand (v : Json) : Except String (Option CommandMeta) :=
  match v with
  | .null => .ok none
  | .obj ms => (decodeCommandMembers zeroCommand ms).map some
  | _ => .error "cannot unmarshal value into command metadata field"

def applyFrameMember (m : TraceFrame) (kv : String × Json × String) : Except String TraceFrame :=
  if nameMatch kv.1 "file" then (decStr kv.2.1 m.file).map fun s => { m with file := s }
  else if nameMatch kv.1 "line" then (decInt kv.2.1 m.line).map fun n => { m with line := n }
  else if nameMatch kv.1 "func" then (decStr kv.2.1 m.func).map fun s => { m with func := s }
  else .ok m

def decodeFrameMembers : TraceFrame → List (String × Json × String) → Except String TraceFrame
  | m, [] => .ok m
  | m, kv :: ms =>
    match applyFrameMember m kv with
    | .ok m2 => decodeFrameMembers m2 ms
    | .error e => .error e

/-- Decode one `TraceFrame` slice element. -/
def decFrame (v : Json) : Except String TraceFrame :=
  match v with
  | .null => .ok zeroFrame
  | .obj ms => decodeFrameMembers zeroFrame ms
  | _ => .error "cannot unmarshal value into trace frame element"

/-- Decode into a `[]TraceFrame` (`null` gives the nil slice). -/
def decTrace (v : Json) : Except String (List TraceFrame) :=
  match v with
  | .null => .ok []
  | .arr es => mapE decFrame es
  | _ => .error "cannot unmarshal value into trace field"

def applyHostMember (m : HostMeta) (kv : String × Json × String) : Except String HostMeta :=
  if nameMatch kv.1 "hostname" then (decStr kv.2.1 m.hostname).map fun s => { m with hostname := s }
  else if nameMatch kv.1 "pid" then (decInt kv.2.1 m.pid).map fun n => { m with pid := n }
  else .ok m

def decodeHostMembers : HostMeta → List (String × Json × String) → Except String HostMeta
  | m, [] => .ok m
  | m, kv :: ms =>
    match applyHostMember m kv with
    | .ok m2 => decodeHostMembers m2 ms
    | .error e => .error e

/-- Decode into the embedded `HostMeta` struct field. -/
def decHost (v : Json) (cur : HostMeta) : Except String HostMeta :=
  match v with
  | .null => .ok cur
  | .obj ms => decodeHostMembers cur ms
  | _ => .error "cannot unmarshal value into host field"

/-- Apply one top-level object member to the typed `Event`, matching the
struct tags of `types.go` up to `encoding/json`'s case-insensitive
`foldName` fallback; keys matching no field are ignored.  The `payload`
field is a `json.RawMessage`, so it captures the member's exact source
text. -/
def applyMember (e : Event) (kv : String × Json × String) : Except String Event :=
  if nameMatch kv.1 "schemaVersion" then (decInt kv.2.1 e.schemaVersion).map fun n => { e with schemaVersion := n }
  else if nameMatch kv.1 "id" then (decStr kv.2.1 e.id).map fun s => { e with id := s }
  else if nameMatch kv.1 "timestamp" then (decStr kv.2.1 e.timestamp).map fun s => { e with timestamp := s }
  else if nameMatch kv.1 "sourceType" then (decStr kv.2.1 e.sourceType).map fun s => { e with sourceType := s }
  else if nameMatch kv.1 "projectRoot" then (decStr kv.2.1 e.projectRoot).map fun s => { e with projectRoot := s }
  else if nameMatch kv.1 "phpSapi" then (decStr kv.2.1 e.phpSapi).map fun s => { e with phpSapi := s }
  else if nameMatch kv.1 "requestId" then (decOptStr kv.2.1).map fun s => { e with requestId := s }
  else if nameMatch kv.1 "http" then (decHTTP kv.2.1).map fun h => { e with http := h }
  else if nameMatch kv.1 "command" then (decCommand kv.2.1).map fun c => { e with command := c }
  else if nameMatch kv.1 "isDd" then (decBool kv.2.1 e.isDd).map fun b => { e with isDd := b }
  else if nameMatch kv.1 "payloadFormat" then (decStr kv.2.1 e.payloadFormat).map fun s => { e with payloadFormat := s }
  else if nameMatch kv.1 "payload" then .ok { e with payload := kv.2.2 }
  else if nameMatch kv.1 "trace" then (decTrace kv.2.1).map fun t => { e with trace := t }
  else if nameMatch kv.1 "host" then (decHost kv.2.1 e.host).map fun h => { e with host := h }
  else .ok e

def decodeMembers : Event → List (String × Json × String) → Except String Event
  | e, [] => .ok e
  | e, kv :: ms =>
    match applyMember e kv with
    | .ok e2 => decodeMembers e2 ms
    | .error e => .error e

/-- `json.Unmarshal(line, &event)` for the typed `Event` struct. -/
def unmarshalEvent (j : Json) : Except String Event :=
  match j with
  | .obj ms => decodeMembers zeroEvent ms
  | .null => .ok zeroEvent
  | _ => .error "cannot unmarshal value into Go value of type Event"

/-- `json.Unmarshal(line, &raw)` for `raw : map[string]json.RawMessage`:
the object's members (with their raw value text); `null` leaves a nil map. -/
def rawMembers (j : Json) : Except String (List (String × Json × String)) :=
  match j with
  | .obj ms => .ok ms
  | .null => .ok []
  | _ => .error "cannot unmarshal value into Go value of type map of RawMessage"

/-- Map lookup on the member list: a later duplicate key wins, as in a Go
map built by the decoder. -/
def lookupLast (ms : List (String × Json × String)) (k : String) : Option (Json × String) :=
  match ms with
  | [] => none
  | (k2, v, raw) :: rest =>
    match lookupLast rest k with
    | some x => some x
    | none => if k2 = k then some (v, raw) else none

/-- `raw[k]` with Go's zero-value-on-absence: an absent key yields a nil
`RawMessage`, which no later unmarshal accepts (this path is unreachable
after the presence check). -/
def getRaw (ms : List (String × Json × String)) (k : String) : Json × String :=
  (lookupLast ms k).getD (.num "", "")

def hasKey (ms : List (String × Json × String)) (k : String) : Bool :=
  ms.any (fun m => m.1 == k)

/-- Some member's key folds onto the field tag: the typed decoder's member
matching, as opposed to the raw map's exact `hasKey`. -/
def hasKeyFold (ms : List (String × Json × String)) (tag : String) : Bool :=
  ms.any (fun m => decide (nameMatch m.1 tag))

/-! ## The decoder proper (`internal/dump` codec file) -/

/-- Decode errors: the distinguished `ErrUnsupportedSchemaVersion` sentinel
(identifiable by identity, not by message text) versus ordinary message
errors. -/
inductive DecodeErr where
  | unsupportedSchemaVersion
  | msg (s : String)
deriving DecidableEq

/-- `requiredEventKeys`, in declaration order. -/
def requiredEventKeys : List String :=
  ["schemaVersion", "id", "timestamp", "sourceType", "projectRoot", "phpSapi",
   "requestId", "isDd", "payloadFormat", "payload", "trace", "host"]

/-- The first key of `ks` missing from `ms` (the loop in
`validateRequiredKeys`). -/
def firstMissing (ks : List String) (ms : List (String × Json × String)) : Option String :=
  match ks with
  | [] => none
  | k :: rest => if hasKey ms k then firstMissing rest ms else some k

/-- The `requestId` coarse-type check: skip if the raw bytes are the literal
`null`, otherwise the value must unmarshal into a Go string. -/
def checkRequestId (vr : Json × String) : Except DecodeErr Unit :=
  if vr.2 = "null" then .ok ()
  else
    match vr.1 with
    | .str _ => .ok ()
    | _ => .error (.msg "requestId must be null or string")

/-- The `isDd` coarse-type check: unmarshalling into a Go bool succeeds for
a JSON boolean and (as a no-op) for JSON `null`. -/
def checkIsDd (v : Json) : Except DecodeErr Unit :=
  match v with
  | .bool _ => .ok ()
  | .null => .ok ()
  | _ => .error (.msg "isDd must be a boolean")

/-- The `trace` coarse-type check: raw literal `null` is rejected outright;
otherwise the value must unmarshal into a slice. -/
def checkTrace (vr : Json × String) : Except DecodeErr Unit :=
  if vr.2 = "null" then .error (.msg "trace must be an array")
  else
    match vr.1 with
    | .arr _ => .ok ()
    | .null => .ok ()
    | _ => .error (.msg "trace must be an array")

/-- `validateRequiredKeys` from the codec file. -/
def validateRequiredKeys (ms : List (String × Json × String)) : Except DecodeErr Unit :=
  match firstMissing requiredEventKeys ms with
  | some k => .error (.msg ("missing required dump event field: " ++ k))
  | none =>
    match checkRequestId (getRaw ms "requestId") with
    | .error e => .error e
    | .ok _ =>
      match checkIsDd (getRaw ms "isDd").1 with
      | .error e => .error e
      | .ok _ => checkTrace (getRaw ms "trace")

/-! ## `time.Parse(time.RFC3339Nano, ·)` and UTC re-rendering

A civil time with a numeric zone offset, as Go's strict RFC 3339 parser
produces it, plus Howard Hinnant's proleptic-Gregorian day conversions for
the UTC re-rendering. -/

structure GoTime where
  year : Int
  month : Nat
  day : Nat
  hour : Nat
  minute : Nat
  second : Nat
  nanos : Nat
  offset : Int
deriving DecidableEq

def digitVal (c : Char) : Nat := c.toNat - '0'.toNat

def digit2 (a b : Char) : Option Nat :=
  if a.isDigit && b.isDigit then some (digitVal a * 10 + digitVal b) else none

def digit4 (a b c d : Char) : Option Nat :=
  if a.isDigit && b.isDigit && c.isDigit && d.isDigit then
    some (((digitVal a * 10 + digitVal b) * 10 + digitVal c) * 10 + digitVal d)
  else none

def isLeap (y : Int) : Bool := y % 4 = 0 && (y % 100 ≠ 0 || y % 400 = 0)

def daysIn (y : Int) (m : Nat) : Nat :=
  if m = 2 then (if isLeap y then 29 else 28)
  else if m = 4 ∨ m = 6 ∨ m = 9 ∨ m = 11 then 30
  else 31

/-- Nanoseconds from a fractional-digit run: the first nine digits,
right-padded with zeros (extra digits are consumed but ignored). -/
def fracNanos (ds : List Char) : Nat :=
  (digitsToNat (ds.take 9)) * 10 ^ (9 - min 9 ds.length)

/-- The optional fractional-seconds part of the strict fast path: a
decimal point must be followed by at least one digit; all following digits
are consumed. -/
def parseFracPart : List Char → Option (Nat × List Char)
  | '.' :: fr =>
    (match fr.span Char.isDigit with
     | ([], _) => none
     | (ds, r) => some (fracNanos ds, r))
  | cs => some (0, cs)

/-- The zone offset of the strict fast path: `Z` or `±hh:mm` with
`hh ≤ 23`, `mm ≤ 59`. -/
def parseOffset : List Char → Option Int
  | ['Z'] => some 0
  | [sg, h1, h2, ':', m1, m2] =>
    if sg = '+' ∨ sg = '-' then
      (digit2 h1 h2).bind fun hh =>
        (digit2 m1 m2).bind fun mm =>
          if hh ≤ 23 ∧ mm ≤ 59 then
            some (if sg = '-' then -((hh * 3600 + mm * 60 : Nat) : Int)
                  else ((hh * 3600 + mm * 60 : Nat) : Int))
          else none
    else none
  | _ => none

/-- The strict RFC 3339 fast path of `time.Parse` (`parseRFC3339`):
`YYYY-MM-DDThh:mm:ss[.fff…](Z|±hh:mm)`, with calendar range checks. -/
def timeParseStrict (s : String) : Option GoTime :=
  match s.data with
  | y1 :: y2 :: y3 :: y4 :: '-' :: m1 :: m2 :: '-' :: d1 :: d2 :: 'T' ::
    h1 :: h2 :: ':' :: mi1 :: mi2 :: ':' :: s1 :: s2 :: rest =>
    (digit4 y1 y2 y3 y4).bind fun y =>
      (digit2 m1 m2).bind fun mo =>
        (digit2 d1 d2).bind fun d =>
          (digit2 h1 h2).bind fun h =>
            (digit2 mi1 mi2).bind fun mi =>
              (digit2 s1 s2).bind fun sec =>
                (parseFracPart rest).bind fun (ns, rest2) =>
                  (parseOffset rest2).bind fun off =>
                    if 1 ≤ mo ∧ mo ≤ 12 ∧ 1 ≤ d ∧ d ≤ daysIn y mo ∧
                        h ≤ 23 ∧ mi ≤ 59 ∧ sec ≤ 59 then
                      some ⟨y, mo, d, h, mi, sec, ns, off⟩
                    else none
  | _ => none

/-- `getnum` of the layout parser with `fixed = false` (the `stdHour`
chunk of the RFC3339Nano layout): one decimal digit, or two when a second
digit follows. -/
def getnum1or2 : List Char → Option (Nat × List Char)
  | a :: b :: r =>
    if a.isDigit then
      (if b.isDigit then some (digitVal a * 10 + digitVal b, r)
       else some (digitVal a, b :: r))
    else none
  | [a] => if a.isDigit then some (digitVal a, []) else none
  | [] => none

/-- The fractional-seconds chunk of the lenient layout parser
(`stdFracSecond9` with `commaOrPeriod`): a `.` or `,` separator followed
by at least one digit; all following digits are consumed, the first nine
count.  A separator not followed by a digit leaves the fraction omitted,
after which the zone chunk can never match, so `none` is returned
directly. -/
def parseFracPartLenient : List Char → Option (Nat × List Char)
  | '.' :: fr =>
    (match fr.span Char.isDigit with
     | ([], _) => none
     | (ds, r) => some (fracNanos ds, r))
  | ',' :: fr =>
    (match fr.span Char.isDigit with
     | ([], _) => none
     | (ds, r) => some (fracNanos ds, r))
  | cs => some (0, cs)

/-- The zone chunk of the lenient layout parser (`stdISO8601ColonTZ`):
`Z`, or `±hh:mm` with the permissive written-offset bounds `hh ≤ 24`,
`mm ≤ 60` that the layout parser applies. -/
def parseOffsetLenient : List Char → Option Int
  | ['Z'] => some 0
  | [sg, h1, h2, ':', m1, m2] =>
    if sg = '+' ∨ sg = '-' then
      (digit2 h1 h2).bind fun hh =>
        (digit2 m1 m2).bind fun mm =>
          if hh ≤ 24 ∧ mm ≤ 60 then
            some (if sg = '-' then -((hh * 3600 + mm * 60 : Nat) : Int)
                  else ((hh * 3600 + mm * 60 : Nat) : Int))
          else none
    else none
  | _ => none

/-- The lenient general layout parse of `time.RFC3339Nano`, which
`time.Parse` falls back to when the strict fast path rejects.  Relative to
the fast path it accepts a one-digit hour, a `,` fractional-seconds
separator, and zone offsets up to `+24:00` / `±hh:60`. -/
def timeParseLenient (s : String) : Option GoTime :=
  match s.data with
  | y1 :: y2 :: y3 :: y4 :: '-' :: m1 :: m2 :: '-' :: d1 :: d2 :: 'T' :: rest =>
    (digit4 y1 y2 y3 y4).bind fun y =>
      (digit2 m1 m2).bind fun mo =>
        (digit2 d1 d2).bind fun d =>
          (getnum1or2 rest).bind fun (h, rest1) =>
            (match rest1 with
             | ':' :: mi1 :: mi2 :: ':' :: s1 :: s2 :: rest3 =>
               (digit2 mi1 mi2).bind fun mi =>
                 (digit2 s1 s2).bind fun sec =>
                   (parseFracPartLenient rest3).bind fun (ns, rest4) =>
                     (parseOffsetLenient rest4).bind fun off =>
                       if 1 ≤ mo ∧ mo ≤ 12 ∧ 1 ≤ d ∧ d ≤ daysIn y mo ∧
                           h ≤ 23 ∧ mi ≤ 59 ∧ sec ≤ 59 then
                         some ⟨y, mo, d, h, mi, sec, ns, off⟩
                       else none
             | _ => none)
  | _ => none

/-- `time.Parse(time.RFC3339Nano, s)`: the strict RFC 3339 fast path,
falling back to the lenient general layout parse when the fast path
rejects, exactly as `Parse` does for the RFC 3339 layouts. -/
def timeParseRFC3339Nano (s : String) : Option GoTime :=
  match timeParseStrict s with
  | some t => some t
  | none => timeParseLenient s

/-- Days since 1970-01-01 of a civil date (Hinnant's `days_from_civil`). -/
def daysFromCivil (y : Int) (m d : Nat) : Int :=
  let y2 : Int := if m ≤ 2 then y - 1 else y
  let era : Int := Int.fdiv y2 400
  let yoe : Nat := (y2 - era * 400).toNat
  let doy : Nat := (153 * (if m > 2 then m - 3 else m + 9) + 2) / 5 + d - 1
  let doe : Nat := yoe * 365 + yoe / 4 - yoe / 100 + doy
  era * 146097 + (doe : Int) - 719468

/-- Civil date of a days-since-epoch count (Hinnant's `civil_from_days`). -/
def civilFromDays (z0 : Int) : Int × Nat × Nat :=
  let z : Int := z0 + 719468
  let era : Int := Int.fdiv z 146097
  let doe : Nat := (z - era * 146097).toNat
  let yoe : Nat := (doe - doe / 1460 + doe / 36524 - doe / 146096) / 365
  let y : Int := (yoe : Int) + era * 400
  let doy : Nat := doe - (365 * yoe + yoe / 4 - yoe / 100)
  let mp : Nat := (5 * doy + 2) / 153
  let d : Nat := doy - (153 * mp + 2) / 5 + 1
  let m : Nat := if mp < 10 then mp + 3 else mp - 9
  (if m ≤ 2 then y + 1 else y, m, d)

/-- The civil UTC instant of a parsed time (apply the offset, convert
through days-since-epoch and back). -/
def toUTCCivil (t : GoTime) : Int × Nat × Nat × Nat × Nat × Nat :=
  let total : Int :=
    daysFromCivil t.year t.month t.day * 86400 +
      ((t.hour * 3600 + t.minute * 60 + t.second : Nat) : Int) - t.offset
  let days : Int := Int.fdiv total 86400
  let secs : Nat := (total - days * 86400).toNat
  let (y, m, d) := civilFromDays days
  (y, m, d, secs / 3600, secs % 3600 / 60, secs % 60)

def digitChar (n : Nat) : Char := Char.ofNat ('0'.toNat + n)

/-- Decimal digit characters of `n`, most significant first, prepended to
`acc` (fuel-recursive so that it reduces definitionally; `n + 1` units of
fuel always suffice). -/
def natDigitsAux : Nat → Nat → List Char → List Char
  | 0, _, acc => acc
  | f + 1, n, acc =>
    if n < 10 then digitChar n :: acc
    else natDigitsAux f (n / 10) (digitChar (n % 10) :: acc)

/-- Decimal digit characters of `n`, most significant first. -/
def natDigits (n : Nat) : List Char := natDigitsAux (n + 1) n []

/-- Zero-pad the decimal digits of `n` on the left to width `w`. -/
def padNat (w : Nat) (n : Nat) : List Char :=
  let ds := natDigits n
  List.replicate (w - ds.length) '0' ++ ds

/-- Go's `appendInt` with a width, as `Format` uses for the year field. -/
def padInt (w : Nat) (i : Int) : List Char :=
  if i < 0 then '-' :: padNat w i.natAbs else padNat w i.natAbs

/-- The fractional-seconds part of `Format(time.RFC3339Nano)`: nine
zero-padded digits with trailing zeros removed, or nothing when zero. -/
def fracChars (n : Nat) : List Char :=
  if n = 0 then []
  else '.' :: ((padNat 9 n).reverse.dropWhile (· == '0')).reverse

/-- `t.UTC().Format(time.RFC3339Nano)`. -/
def formatRFC3339NanoUTC (t : GoTime) : String :=
  match toUTCCivil t with
  | (y, mo, d, h, mi, s) =>
    String.mk (padInt 4 y ++ '-' :: padNat 2 mo ++ '-' :: padNat 2 d ++ 'T' ::
      padNat 2 h ++ ':' :: padNat 2 mi ++ ':' :: padNat 2 s ++ fracChars t.nanos ++ ['Z'])

/-! ## `validateEvent` and `DecodeNDJSONLine` -/

/-- `validateEvent` from the codec file: the ordered semantic checks. -/
def validateEvent (e : Event) : Except DecodeErr Unit :=
  if e.schemaVersion ≠ SchemaVersion then .error .unsupportedSchemaVersion
  else if e.id = "" ∨ e.timestamp = "" ∨ e.sourceType = "" ∨ e.projectRoot = "" ∨
      e.phpSapi = "" ∨ e.payloadFormat = "" ∨ e.payload.length = 0 then
    .error (.msg "missing required dump event fields")
  else if e.host.hostname = "" ∨ e.host.pid ≤ 0 then
    .error (.msg "invalid host metadata")
  else
    match timeParseRFC3339Nano e.timestamp with
    | none => .error (.msg "timestamp must be RFC3339Nano")
    | some t =>
      if formatRFC3339NanoUTC t ≠ e.timestamp then .error (.msg "timestamp must be UTC (Z)")
      else if ¬(e.sourceType = "http" ∨ e.sourceType = "cli" ∨ e.sourceType = "worker" ∨
          e.sourceType = "cron") then
        .error (.msg "sourceType must be one of: http, cli, worker, cron")
      else if e.payloadFormat ≠ "json" then
        .error (.msg "payloadFormat must be json for schemaVersion 1")
      else if e.sourceType = "http" then
        match e.http with
        | none => .error (.msg "http metadata is required when sourceType is http")
        | some h =>
          if h.method = "" ∨ h.scheme = "" ∨ h.host = "" ∨ h.path = "" then
            .error (.msg "http metadata is missing required fields")
          else if ¬jsonValid e.payload then .error (.msg "payload must be valid JSON")
          else .ok ()
      else
        match e.command with
        | none => .error (.msg "command metadata is required when sourceType is cli, worker, or cron")
        | some c =>
          if c.name = "" then .error (.msg "command metadata is missing required field: name")
          else if ¬jsonValid e.payload then .error (.msg "payload must be valid JSON")
          else .ok ()

/-- The Unicode whitespace set of `strings.TrimSpace`
(`unicode.White_Space`). -/
def isGoSpace (c : Char) : Bool :=
  c == ' ' || c == '\t' || c == '\n' || c == '\x0b' || c == '\x0c' || c == '\r' ||
  c == '\x85' || c == '\xa0' || c.toNat = 0x1680 ||
  (0x2000 ≤ c.toNat && c.toNat ≤ 0x200A) || c.toNat = 0x2028 || c.toNat = 0x2029 ||
  c.toNat = 0x202F || c.toNat = 0x205F || c.toNat = 0x3000

/-- `strings.TrimSpace`, as a character list. -/
def trimSpace (s : String) : List Char :=
  ((s.data.dropWhile isGoSpace).reverse.dropWhile isGoSpace).reverse

/-- `DecodeNDJSONLine`: trim, blank-check, raw-map parse, presence
validation, typed decode, semantic validation.  Errors surfaced verbatim
from `encoding/json` are wrapped as message errors. -/
def DecodeNDJSONLine (line : String) : Except DecodeErr (Option Event) :=
  if trimSpace line = [] then .ok none
  else
    match parseTop (trimSpace line) with
    | none => .error (.msg "invalid character: line is not a single valid JSON value")
    | some j =>
      match rawMembers j with
      | .error e => .error (.msg e)
      | .ok ms =>
        match validateRequiredKeys ms with
        | .error e => .error e
        | .ok _ =>
          match unmarshalEvent j with
          | .error e => .error (.msg e)
          | .ok event =>
            match validateEvent event with
            | .error e => .error e
            | .ok _ => .ok (some event)

/-! ## Derived field predicates -/

/-- The timestamp is already in normalized UTC RFC3339Nano form: it parses
and re-rendering the parsed instant in UTC reproduces it byte-for-byte. -/
def tsNormalized (s : String) : Bool :=
  match timeParseRFC3339Nano s with
  | some t => formatRFC3339NanoUTC t == s
  | none => false

/-- The bytes are exactly one JSON value with no surrounding whitespace:
parsing consumes all of them. -/
def jsonExact (s : String) : Bool :=
  match parseVal (s.data.length + 1) s.data with
  | some (_, c, r) => c == s.data && r == []
  | none => false

def inInt64 (n : Int) : Prop := int64Min ≤ n ∧ n ≤ int64Max

instance (n : Int) : Decidable (inInt64 n) := by unfold inInt64; infer_instance

/-! ## The wire serializer

Modelled from the spec: the repository contains no serializer (producers
are external PHP processes), but §6 fixes the wire format — "each event is
one JSON object per line, UTF-8, … with the field layout in §3" — and §8's
round-trip property quantifies over serialized Events.  `encodeEvent`
renders an `Event` as one JSON object in the §3 field layout, omitting
absent optional fields and embedding the opaque `payload` blob verbatim. -/

def hexDigitLower (n : Nat) : Char :=
  if n < 10 then Char.ofNat ('0'.toNat + n) else Char.ofNat ('a'.toNat + (n - 10))

/-- One character of JSON string content: quote, backslash and control
characters are escaped, everything else is emitted verbatim. -/
def escChar (c : Char) : List Char :=
  if c = '"' then ['\\', '"']
  else if c = '\\' then ['\\', '\\']
  else if c.toNat < 0x20 then
    ['\\', 'u', '0', '0', hexDigitLower (c.toNat / 16), hexDigitLower (c.toNat % 16)]
  else [c]

def encStr (s : String) : List Char := '"' :: (s.data.flatMap escChar ++ ['"'])

/-- An integer literal: optional minus sign, then decimal digits. -/
def intChars (i : Int) : List Char :=
  (if i < 0 then ['-'] else []) ++ natDigits i.natAbs

/-- One object member: encoded key, colon, encoded value. -/
def encMember (k : String) (v : List Char) : List Char := encStr k ++ ':' :: v

def encBool (b : Bool) : List Char :=
  if b then ['t', 'r', 'u', 'e'] else ['f', 'a', 'l', 's', 'e']

def encStrListAux : List String → List Char
  | [] => []
  | x :: xs => ',' :: (encStr x ++ encStrListAux xs)

def encStrList : List String → List Char
  | [] => ['[', ']']
  | x :: xs => '[' :: (encStr x ++ encStrListAux xs ++ [']'])

def joinComma : List (List Char) → List Char
  | [] => []
  | [x] => x
  | x :: xs => x ++ ',' :: joinComma xs

def encHTTP (h : HTTPMeta) : List Char :=
  '\x7b' :: (encMember "method" (encStr h.method) ++
    ',' :: encMember "scheme" (encStr h.scheme) ++
    ',' :: encMember "host" (encStr h.host) ++
    ',' :: encMember "path" (encStr h.path) ++
    (if h.query = "" then [] else ',' :: encMember "query" (encStr h.query)) ++
    (match h.statusCode with
     | none => []
     | some sc => ',' :: encMember "statusCode" (intChars sc)) ++
    (if h.clientIp = "" then [] else ',' :: encMember "clientIp" (encStr h.clientIp)) ++
    (if h.userAgent = "" then [] else ',' :: encMember "userAgent" (encStr h.userAgent)) ++
    ['\x7d'])

def encCommand (c : CommandMeta) : List Char :=
  '\x7b' :: (encMember "name" (encStr c.name) ++
    (if c.args = [] then [] else ',' :: encMember "args" (encStrList c.args)) ++
    (if c.cwd = "" then [] else ',' :: encMember "cwd" (encStr c.cwd)) ++
    ['\x7d'])

def encFrame (f : TraceFrame) : List Char :=
  '\x7b' :: (joinComma
    ((if f.file = "" then [] else [encMember "file" (encStr f.file)]) ++
     (if f.line = 0 then [] else [encMember "line" (intChars f.line)]) ++
     (if f.func = "" then [] else [encMember "func" (encStr f.func)])) ++ ['\x7d'])

def encFramesAux : List TraceFrame → List Char
  | [] => []
  | f :: fs => ',' :: (encFrame f ++ encFramesAux fs)

def encFrames : List TraceFrame → List Char
  | [] => ['[', ']']
  | f :: fs => '[' :: (encFrame f ++ encFramesAux fs ++ [']'])

def encHost (h : HostMeta) : List Char :=
  '\x7b' :: (encMember "hostname" (encStr h.hostname) ++
    ',' :: encMember "pid" (intChars h.pid) ++ ['\x7d'])

/-- Modelled from the spec: serialize an `Event` to one wire line (§3 field
layout, §6 framing).  Optional sub-objects and empty optional fields are
omitted; `requestId` is `null` when absent; `payload` is embedded
verbatim. -/
def encodeEvent (e : Event) : String :=
  String.mk ('\x7b' :: (encMember "schemaVersion" (intChars e.schemaVersion) ++
    ',' :: encMember "id" (encStr e.id) ++
    ',' :: encMember "timestamp" (encStr e.timestamp) ++
    ',' :: encMember "sourceType" (encStr e.sourceType) ++
    ',' :: encMember "projectRoot" (encStr e.projectRoot) ++
    ',' :: encMember "phpSapi" (encStr e.phpSapi) ++
    ',' :: encMember "requestId"
      (match e.requestId with
       | none => ['n', 'u', 'l', 'l']
       | some s => encStr s) ++
    (match e.http with
     | none => []
     | some h => ',' :: encMember "http" (encHTTP h)) ++
    (match e.command with
     | none => []
     | some c => ',' :: encMember "command" (encCommand c)) ++
    ',' :: encMember "isDd" (encBool e.isDd) ++
    ',' :: encMember "payloadFormat" (encStr e.payloadFormat) ++
    ',' :: encMember "payload" e.payload.data ++
    ',' :: encMember "trace" (encFrames e.trace) ++
    ',' :: encMember "host" (encHost e.host) ++ ['\x7d']))

/-! ## Validity of an in-memory Event (§3 field rules) -/

/-- The populated `http` sub-object has its four required members
non-empty. -/
def validHTTPSub (o : Option HTTPMeta) : Bool :=
  match o with
  | some h => h.method != "" && h.scheme != "" && h.host != "" && h.path != ""
  | none => false

/-- The populated `command` sub-object has a non-empty name. -/
def validCommandSub (o : Option CommandMeta) : Bool :=
  match o with
  | some c => c.name != ""
  | none => false

/-- A present `statusCode` fits a Go `int`. -/
def statusCodeInRange (o : Option HTTPMeta) : Bool :=
  match o with
  | some h =>
    match h.statusCode with
    | some sc => decide (inInt64 sc)
    | none => true
  | none => true

def ValidEventRecord (e : Event) : Prop :=
  e.schemaVersion = SchemaVersion ∧
  e.id ≠ "" ∧
  tsNormalized e.timestamp = true ∧
  (e.sourceType = "http" ∨ e.sourceType = "cli" ∨ e.sourceType = "worker" ∨
    e.sourceType = "cron") ∧
  e.projectRoot ≠ "" ∧
  e.phpSapi ≠ "" ∧
  e.payloadFormat = "json" ∧
  jsonExact e.payload = true ∧
  (e.sourceType = "http" → validHTTPSub e.http = true) ∧
  (e.sourceType ≠ "http" → validCommandSub e.command = true) ∧
  statusCodeInRange e.http = true ∧
  (∀ f ∈ e.trace, inInt64 f.line) ∧
  e.host.hostname ≠ "" ∧ 0 < e.host.pid ∧ e.host.pid ≤ int64Max

instance (e : Event) : Decidable (ValidEventRecord e) := by
  unfold ValidEventRecord; infer_instance

/-! ## Validity of a raw wire object (§3 field rules on the parsed line)

`wt…` predicates say a value is accepted by the corresponding typed-decode
step; the `field…` predicates state the §3 field rules on the effective
(last-occurrence) member values. -/

def keysOf (ms : List (String × Json × String)) : List String := ms.map (·.1)

def nodupB : List String → Bool
  | [] => true
  | k :: ks => !ks.contains k && nodupB ks

def lookupVal (ms : List (String × Json × String)) (k : String) : Option Json :=
  (lookupLast ms k).map (·.1)

def wtStr : Json → Bool
  | .str _ => true | .null => true | _ => false

def wtInt : Json → Bool
  | .num tok =>
    (match parseIntLit tok with
     | some n => decide (inInt64 n)
     | none => false)
  | .null => true
  | _ => false

def wtBool : Json → Bool
  | .bool _ => true | .null => true | _ => false

def wtOptInt : Json → Bool
  | .null => true
  | .num tok =>
    (match parseIntLit tok with
     | some n => decide (inInt64 n)
     | none => false)
  | _ => false

def wtArgs : Json → Bool
  | .null => true
  | .arr es => es.all wtStr
  | _ => false

/-- The struct-tag names of each decoded struct, in declaration order. -/
def topFieldTags : List String :=
  ["schemaVersion", "id", "timestamp", "sourceType", "projectRoot", "phpSapi",
   "requestId", "http", "command", "isDd", "payloadFormat", "payload", "trace", "host"]

def httpFieldTags : List String :=
  ["method", "scheme", "host", "path", "query", "statusCode", "clientIp", "userAgent"]

def commandFieldTags : List String := ["name", "args", "cwd"]

def frameFieldTags : List String := ["file", "line", "func"]

def hostFieldTags : List String := ["hostname", "pid"]

/-- No case-variant aliasing: a key that folds onto one of the struct's
field names is that name exactly, so `encoding/json`'s case-insensitive
fallback never binds the member to a field its exact spelling does not
name.  (A member violating this — e.g. `"ISDD"` — would be decoded into
the aliased field, where an ill-typed value makes the whole typed
unmarshal fail.) -/
def safeTopKey (k : String) : Bool :=
  decide (∀ tag ∈ topFieldTags, nameMatch k tag → k = tag)

def safeHTTPKey (k : String) : Bool :=
  decide (∀ tag ∈ httpFieldTags, nameMatch k tag → k = tag)

def safeCommandKey (k : String) : Bool :=
  decide (∀ tag ∈ commandFieldTags, nameMatch k tag → k = tag)

def safeFrameKey (k : String) : Bool :=
  decide (∀ tag ∈ frameFieldTags, nameMatch k tag → k = tag)

def safeHostKey (k : String) : Bool :=
  decide (∀ tag ∈ hostFieldTags, nameMatch k tag → k = tag)

def wtHTTPMember (kv : String × Json × String) : Bool :=
  safeHTTPKey kv.1 &&
  (if kv.1 = "statusCode" then wtOptInt kv.2.1
   else if kv.1 = "method" ∨ kv.1 = "scheme" ∨ kv.1 = "host" ∨ kv.1 = "path" ∨
       kv.1 = "query" ∨ kv.1 = "clientIp" ∨ kv.1 = "userAgent" then wtStr kv.2.1
   else true)

def wtCommandMember (kv : String × Json × String) : Bool :=
  safeCommandKey kv.1 &&
  (if kv.1 = "name" ∨ kv.1 = "cwd" then wtStr kv.2.1
   else if kv.1 = "args" then wtArgs kv.2.1
   else true)

def wtFrameMember (kv : String × Json × String) : Bool :=
  safeFrameKey kv.1 &&
  (if kv.1 = "file" ∨ kv.1 = "func" then wtStr kv.2.1
   else if kv.1 = "line" then wtInt kv.2.1
   else true)

def wtHostMember (kv : String × Json × String) : Bool :=
  safeHostKey kv.1 &&
  (if kv.1 = "hostname" then wtStr kv.2.1
   else if kv.1 = "pid" then wtInt kv.2.1
   else true)

def wtHTTPObj : Json → Bool
  | .null => true
  | .obj hms => hms.all wtHTTPMember
  | _ => false

def wtCommandObj : Json → Bool
  | .null => true
  | .obj cms => cms.all wtCommandMember
  | _ => false

def wtFrame : Json → Bool
  | .null => true
  | .obj fms => fms.all wtFrameMember
  | _ => false

def wtTrace : Json → Bool
  | .null => true
  | .arr es => es.all wtFrame
  | _ => false

def wtHostObj : Json → Bool
  | .null => true
  | .obj hms => hms.all wtHostMember
  | _ => false

def wtTopMember (kv : String × Json × String) : Bool :=
  safeTopKey kv.1 &&
  (if kv.1 = "schemaVersion" then wtInt kv.2.1
   else if kv.1 = "id" ∨ kv.1 = "timestamp" ∨ kv.1 = "sourceType" ∨
       kv.1 = "projectRoot" ∨ kv.1 = "phpSapi" ∨ kv.1 = "payloadFormat" then wtStr kv.2.1
   else if kv.1 = "requestId" then wtStr kv.2.1
   else if kv.1 = "http" then wtHTTPObj kv.2.1
   else if kv.1 = "command" then wtCommandObj kv.2.1
   else if kv.1 = "isDd" then wtBool kv.2.1
   else if kv.1 = "trace" then wtTrace kv.2.1
   else if kv.1 = "host" then wtHostObj kv.2.1
   else true)

def fieldIsOne (ms : List (String × Json × String)) : Bool :=
  match lookupVal ms "schemaVersion" with
  | some (.num tok) => parseIntLit tok == some 1
  | _ => false

def fieldNonEmptyStr (ms : List (String × Json × String)) (k : String) : Bool :=
  match lookupVal ms k with
  | some (.str s) => s != ""
  | _ => false

def fieldTsNormalized (ms : List (String × Json × String)) : Bool :=
  match lookupVal ms "timestamp" with
  | some (.str s) => tsNormalized s
  | _ => false

def fieldEqStr (ms : List (String × Json × String)) (k x : String) : Bool :=
  match lookupVal ms k with
  | some (.str s) => s == x
  | _ => false

def fieldReqId (ms : List (String × Json × String)) : Bool :=
  match lookupVal ms "requestId" with
  | some .null => true
  | some (.str _) => true
  | _ => false

def fieldIsDd (ms : List (String × Json × String)) : Bool :=
  match lookupVal ms "isDd" with
  | some (.bool _) => true
  | _ => false

/-- A positive integer number value that fits a Go `int`. -/
def posIntVal : Json → Bool
  | .num tok =>
    (match parseIntLit tok with
     | some n => decide (0 < n ∧ n ≤ int64Max)
     | none => false)
  | _ => false

def frameStrictMember (kv : String × Json × String) : Bool :=
  if kv.1 = "file" ∨ kv.1 = "func" then wtStr kv.2.1
  else if kv.1 = "line" then
    (match kv.2.1 with
     | .null => true
     | v => posIntVal v)
  else true

def frameStrict : Json → Bool
  | .null => true
  | .obj fms => fms.all frameStrictMember
  | _ => false

def fieldTrace (ms : List (String × Json × String)) : Bool :=
  match lookupVal ms "trace" with
  | some (.arr es) => es.all frameStrict
  | _ => false

def hostStrict : Json → Bool
  | .obj hms =>
    nodupB (keysOf hms) && hms.all wtHostMember &&
      fieldNonEmptyStr hms "hostname" &&
      (match lookupVal hms "pid" with
       | some v => posIntVal v
       | none => false)
  | _ => false

def fieldHost (ms : List (String × Json × String)) : Bool :=
  match lookupVal ms "host" with
  | some v => hostStrict v
  | none => false

def httpStrict : Json → Bool
  | .obj hms =>
    nodupB (keysOf hms) && hms.all wtHTTPMember &&
      fieldNonEmptyStr hms "method" && fieldNonEmptyStr hms "scheme" &&
      fieldNonEmptyStr hms "host" && fieldNonEmptyStr hms "path"
  | _ => false

def commandStrict : Json → Bool
  | .obj cms =>
    nodupB (keysOf cms) && cms.all wtCommandMember && fieldNonEmptyStr cms "name"
  | _ => false

/-- The `sourceType` enum rule together with the matching sub-object rule. -/
def fieldSource (ms : List (String × Json × String)) : Bool :=
  match lookupVal ms "sourceType" with
  | some (.str s) =>
    if s == "http" then
      (match lookupVal ms "http" with
       | some v => httpStrict v
       | none => false)
    else if s == "cli" || s == "worker" || s == "cron" then
      (match lookupVal ms "command" with
       | some v => commandStrict v
       | none => false)
    else false
  | _ => false

/-- A parsed top-level object satisfying every field rule of the §3 data
model: a duplicate-free key set, every member accepted by its typed-decode
step under `encoding/json`'s member matching (in particular no ill-typed
case-variant alias of a field name, which the case-insensitive fallback
would bind to the field), and the per-field semantic rules of the claim. -/
def ValidRawEvent (ms : List (String × Json × String)) : Bool :=
  nodupB (keysOf ms) && ms.all wtTopMember && fieldIsOne ms &&
  fieldNonEmptyStr ms "id" && fieldTsNormalized ms && fieldSource ms &&
  fieldNonEmptyStr ms "projectRoot" && fieldNonEmptyStr ms "phpSapi" &&
  fieldReqId ms && fieldIsDd ms && fieldEqStr ms "payloadFormat" "json" &&
  hasKey ms "payload" && fieldTrace ms && fieldHost ms

/-! ## The value a successful typed decode step assigns

Helpers for characterizing `decodeMembers` on duplicate-free well-typed
objects: the value each decode step leaves in its field, as a function of
the looked-up member value (absent or `null` keeps the current value). -/

def deStr (o : Option Json) (c : String) : String :=
  match o with
  | some (.str s) => s
  | _ => c

def deInt (o : Option Json) (c : Int) : Int :=
  match o with
  | some (.num tok) =>
    (match parseIntLit tok with
     | some n => n
     | none => c)
  | _ => c

/-- What the `payload` RawMessage capture leaves in the field. -/
def deRaw (o : Option (Json × String)) (c : String) : String :=
  match o with
  | some vr => vr.2
  | none => c

def deHTTPF (o : Option Json) (c : Option HTTPMeta) : Option HTTPMeta :=
  match o with
  | some .null => none
  | some (.obj hms) => (decodeHTTPMembers zeroHTTP hms).toOption
  | some _ => c
  | none => c

def deCommandF (o : Option Json) (c : Option CommandMeta) : Option CommandMeta :=
  match o with
  | some .null => none
  | some (.obj cms) => (decodeCommandMembers zeroCommand cms).toOption
  | some _ => c
  | none => c

def deHostF (o : Option Json) (c : HostMeta) : HostMeta :=
  match o with
  | some .null => c
  | some (.obj hms) => (decodeHostMembers c hms).toOption.getD c
  | some _ => c
  | none => c


/-! ## Concrete wire lines and their decoded stages -/

/-- The parsed JSON value of a line (for lines known to parse). -/
def jOf (line : String) : Json := (parseTop (trimSpace line)).getD .null

/-- The raw member list of a line (for lines known to be objects). -/
def msOf (line : String) : List (String × Json × String) :=
  (rawMembers (jOf line)).toOption.getD []

/-- The typed event decoded from a line (for lines known to decode). -/
def evOf (line : String) : Event :=
  (unmarshalEvent (jOf line)).toOption.getD zeroEvent

/-- A valid http-sourced event line. -/
def lineHTTP : String :=
  "\x7b\"schemaVersion\":1,\"id\":\"a\",\"timestamp\":\"2026-02-28T11:20:31.331Z\",\"sourceType\":\"http\",\"projectRoot\":\"/x\",\"phpSapi\":\"fpm\",\"requestId\":null,\"http\":\x7b\"method\":\"GET\",\"scheme\":\"https\",\"host\":\"h\",\"path\":\"/\"\x7d,\"isDd\":false,\"payloadFormat\":\"json\",\"payload\":\x7b\"k\":\"v\"\x7d,\"trace\":[],\"host\":\x7b\"hostname\":\"h\",\"pid\":1\x7d\x7d"

/-- `lineHTTP` with the `id` member removed. -/
def lineMissingId : String :=
  "\x7b\"schemaVersion\":1,\"timestamp\":\"2026-02-28T11:20:31.331Z\",\"sourceType\":\"http\",\"projectRoot\":\"/x\",\"phpSapi\":\"fpm\",\"requestId\":null,\"http\":\x7b\"method\":\"GET\",\"scheme\":\"https\",\"host\":\"h\",\"path\":\"/\"\x7d,\"isDd\":false,\"payloadFormat\":\"json\",\"payload\":\x7b\"k\":\"v\"\x7d,\"trace\":[],\"host\":\x7b\"hostname\":\"h\",\"pid\":1\x7d\x7d"

/-- `lineHTTP` with `schemaVersion` set to 2. -/
def lineV2 : String :=
  "\x7b\"schemaVersion\":2,\"id\":\"a\",\"timestamp\":\"2026-02-28T11:20:31.331Z\",\"sourceType\":\"http\",\"projectRoot\":\"/x\",\"phpSapi\":\"fpm\",\"requestId\":null,\"http\":\x7b\"method\":\"GET\",\"scheme\":\"https\",\"host\":\"h\",\"path\":\"/\"\x7d,\"isDd\":false,\"payloadFormat\":\"json\",\"payload\":\x7b\"k\":\"v\"\x7d,\"trace\":[],\"host\":\x7b\"hostname\":\"h\",\"pid\":1\x7d\x7d"

/-- An http-sourced line with no `http` sub-object. -/
def lineNoHTTPMeta : String :=
  "\x7b\"schemaVersion\":1,\"id\":\"a\",\"timestamp\":\"2026-02-28T11:20:31.331Z\",\"sourceType\":\"http\",\"projectRoot\":\"/x\",\"phpSapi\":\"fpm\",\"requestId\":null,\"isDd\":false,\"payloadFormat\":\"json\",\"payload\":\x7b\"k\":\"v\"\x7d,\"trace\":[],\"host\":\x7b\"hostname\":\"h\",\"pid\":1\x7d\x7d"

/-- A cli-sourced line that carries both a `command` and an `http`
sub-object, and a trace frame with a negative `line`. -/
def lineCliBoth : String :=
  "\x7b\"schemaVersion\":1,\"id\":\"a\",\"timestamp\":\"2026-02-28T11:20:31.331Z\",\"sourceType\":\"cli\",\"projectRoot\":\"/x\",\"phpSapi\":\"cli\",\"requestId\":null,\"command\":\x7b\"name\":\"artisan\"\x7d,\"http\":\x7b\"method\":\"GET\",\"scheme\":\"https\",\"host\":\"h\",\"path\":\"/\"\x7d,\"isDd\":false,\"payloadFormat\":\"json\",\"payload\":\x7b\"k\":\"v\"\x7d,\"trace\":[\x7b\"line\":-1\x7d],\"host\":\x7b\"hostname\":\"h\",\"pid\":1\x7d\x7d"

/-- A fully valid in-memory cli event whose single trace frame carries
`line = n`. -/
def cliEventL (n : Int) : Event :=
  ⟨1, "a", "2026-02-28T11:20:31.331Z", "cli", "/x", "cli", none, none,
   some ⟨"artisan", [], ""⟩, false, "json", "\x7b\"k\":\"v\"\x7d",
   [⟨"/x.php", n, "handle"⟩], ⟨"h", 1⟩⟩

/-- The parsed timestamp of a line's decoded event (for lines whose
timestamp parses). -/
def tOf (line : String) : GoTime :=
  (timeParseRFC3339Nano (evOf line).timestamp).getD ⟨0, 1, 1, 0, 0, 0, 0, 0⟩

/-- A valid in-memory cli event whose payload carries trailing whitespace
(`"1 "` — valid JSON, but not the exact span the decoder re-captures). -/
def eventPayloadWs : Event :=
  ⟨1, "a", "2026-02-28T11:20:31.331Z", "cli", "/x", "cli", none, none,
   some ⟨"artisan", [], ""⟩, false, "json", "1 ",
   [], ⟨"h", 1⟩⟩

/-- The characters that can start a JSON value token. -/
def isValStart (c : Char) : Bool :=
  c == 'n' || c == 't' || c == 'f' || c == '"' || c == '\x7b' || c == '[' ||
  c == '-' || c.isDigit


/-- One serialized object member: encoded key, colon, encoded value text. -/
def memberEnc (p : String × List Char × Json) : List Char :=
  encStr p.1 ++ ':' :: p.2.1

/-- The `",key":value` continuation of a member run (the shape the
serializer emits after its first member). -/
def runTail : List (String × List Char × Json) → List Char
  | [] => []
  | p :: ps => ',' :: (memberEnc p ++ runTail ps)

/-- The `",value"` continuation of an array-element run. -/
def elemsTail : List (List Char × Json) → List Char
  | [] => []
  | p :: ps => ',' :: (p.1 ++ elemsTail ps)

/-- The encoded text parses as one JSON value consuming exactly itself,
before any non-extending tail. -/
def ParsesVal (venc : List Char) (v : Json) : Prop :=
  ∀ r2, numDelim r2 = true → ∃ f, parseVal f (venc ++ r2) = some (v, venc, r2)

/-- A whole member run: first member, then the comma-prefixed rest. -/
def runOf : List (String × List Char × Json) → List Char
  | [] => []
  | p :: ps => memberEnc p ++ runTail ps

/-- A whole element run. -/
def elemsOf : List (List Char × Json) → List Char
  | [] => []
  | p :: ps => p.1 ++ elemsTail ps

/-- The parsed member a piece denotes: key, value, raw value text. -/
def pieceMember (p : String × List Char × Json) : String × Json × String :=
  (p.1, p.2.2, String.mk p.2.1)

/-- The member pieces of an encoded `HTTPMeta` (the conditionals mirror
`encHTTP`). -/
def httpPieces (h : HTTPMeta) : List (String × List Char × Json) :=
  [("method", encStr h.method, .str h.method),
   ("scheme", encStr h.scheme, .str h.scheme),
   ("host", encStr h.host, .str h.host),
   ("path", encStr h.path, .str h.path)] ++
  (if h.query = "" then [] else [("query", encStr h.query, .str h.query)]) ++
  (match h.statusCode with
   | none => []
   | some sc => [("statusCode", intChars sc, .num (String.mk (intChars sc)))]) ++
  (if h.clientIp = "" then [] else [("clientIp", encStr h.clientIp, .str h.clientIp)]) ++
  (if h.userAgent = "" then [] else [("userAgent", encStr h.userAgent, .str h.userAgent)])

/-- The element pieces of an encoded `[]string`. -/
def argPieces : List String → List (List Char × Json)
  | [] => []
  | x :: xs => (encStr x, .str x) :: argPieces xs

/-- The member pieces of an encoded `CommandMeta`. -/
def commandPieces (c : CommandMeta) : List (String × List Char × Json) :=
  [("name", encStr c.name, .str c.name)] ++
  (if c.args = [] then []
   else [("args", encStrList c.args, .arr (c.args.map Json.str))]) ++
  (if c.cwd = "" then [] else [("cwd", encStr c.cwd, .str c.cwd)])

/-- The member pieces of an encoded `TraceFrame`. -/
def framePieces (f : TraceFrame) : List (String × List Char × Json) :=
  (if f.file = "" then [] else [("file", encStr f.file, .str f.file)]) ++
  (if f.line = 0 then []
   else [("line", intChars f.line, .num (String.mk (intChars f.line)))]) ++
  (if f.func = "" then [] else [("func", encStr f.func, .str f.func)])

/-- The parsed JSON value of an encoded `TraceFrame`. -/
def frameVal (f : TraceFrame) : Json := .obj ((framePieces f).map pieceMember)

/-- The member pieces of an encoded `HostMeta`. -/
def hostPieces (h : HostMeta) : List (String × List Char × Json) :=
  [("hostname", encStr h.hostname, .str h.hostname),
   ("pid", intChars h.pid, .num (String.mk (intChars h.pid)))]

/-- The wire text of a `requestId` value. -/
def reqIdEnc : Option String → List Char
  | none => ['n', 'u', 'l', 'l']
  | some s => encStr s

/-- The parsed JSON value of a `requestId` value. -/
def reqIdVal : Option String → Json
  | none => .null
  | some s => .str s

/-- The parsed JSON value of the payload bytes. -/
def payloadValOf (s : String) : Json := (parseTop s.data).getD .null

/-- The top-level member pieces of an encoded `Event` (the §3 layout of
`encodeEvent`). -/
def topPieces (e : Event) : List (String × List Char × Json) :=
  [("schemaVersion", intChars e.schemaVersion, .num (String.mk (intChars e.schemaVersion))),
   ("id", encStr e.id, .str e.id),
   ("timestamp", encStr e.timestamp, .str e.timestamp),
   ("sourceType", encStr e.sourceType, .str e.sourceType),
   ("projectRoot", encStr e.projectRoot, .str e.projectRoot),
   ("phpSapi", encStr e.phpSapi, .str e.phpSapi),
   ("requestId", reqIdEnc e.requestId, reqIdVal e.requestId)] ++
  (match e.http with
   | none => []
   | some h => [("http", encHTTP h, .obj ((httpPieces h).map pieceMember))]) ++
  (match e.command with
   | none => []
   | some c => [("command", encCommand c, .obj ((commandPieces c).map pieceMember))]) ++
  [("isDd", encBool e.isDd, .bool e.isDd),
   ("payloadFormat", encStr e.payloadFormat, .str e.payloadFormat),
   ("payload", e.payload.data, payloadValOf e.payload),
   ("trace", encFrames e.trace, .arr (e.trace.map frameVal)),
   ("host", encHost e.host, .obj ((hostPieces e.host).map pieceMember))]

end Phant

namespace Phant

/-! # Theorems

First some plumbing lemmas about the decode pipeline, then the claims. -/

theorem parseTop_nil : parseTop [] = none := rfl

theorem trim_ne_nil_of_parse {line : String} {j : Json}
    (hp : parseTop (trimSpace line) = some j) : ¬trimSpace line = [] := by
  intro he
  rw [he, parseTop_nil] at hp
  exact Option.noConfusion hp

/-- With every stage before semantic validation pinned, `DecodeNDJSONLine`
is the result of `validateEvent` on the decoded event. -/
theorem decode_eq_validate {line : String} {j : Json}
    {ms : List (String × Json × String)} {ev : Event}
    (hp : parseTop (trimSpace line) = some j)
    (hraw : rawMembers j = .ok ms)
    (hkeys : validateRequiredKeys ms = .ok ())
    (hev : unmarshalEvent j = .ok ev) :
    DecodeNDJSONLine line =
      (match validateEvent ev with
       | .error e => .error e
       | .ok _ => .ok (some ev)) := by
  unfold DecodeNDJSONLine
  rw [if_neg (trim_ne_nil_of_parse hp)]
  simp only [hp, hraw, hkeys, hev]

/-- C7: for every input line that trims to the empty string,
`DecodeNDJSONLine` returns a nil Event and a nil error. -/
theorem decode_blank_line (line : String) (h : trimSpace line = []) :
    DecodeNDJSONLine line = .ok none := by
  unfold DecodeNDJSONLine
  rw [if_pos h]

theorem decode_blank_line_witness :
    trimSpace "   \n" = [] ∧ DecodeNDJSONLine "   \n" = .ok none :=
  ⟨rfl, decode_blank_line "   \n" rfl⟩

theorem firstMissing_split {ms : List (String × Json × String)}
    (pre : List String) (k : String) (post : List String)
    (hpre : ∀ k2 ∈ pre, hasKey ms k2 = true) (hk : hasKey ms k = false) :
    firstMissing (pre ++ k :: post) ms = some k := by
  induction pre with
  | nil => simp [firstMissing, hk]
  | cons a t ih =>
    have ha : hasKey ms a = true := hpre a (List.mem_cons_self a t)
    simp only [List.cons_append, firstMissing, ha, if_true]
    exact ih fun k2 hm => hpre k2 (List.mem_cons_of_mem a hm)

/-- C3: a line parsing to a JSON object that lacks a required top-level key
fails with "missing required dump event field: ⟨k⟩" for exactly the first
missing key in the declared order (one key, never aggregated). -/
theorem decode_missing_key (line : String) (ms : List (String × Json × String))
    (pre : List String) (k : String) (post : List String)
    (hp : parseTop (trimSpace line) = some (.obj ms))
    (hsplit : requiredEventKeys = pre ++ k :: post)
    (hpre : ∀ k2 ∈ pre, hasKey ms k2 = true)
    (hk : hasKey ms k = false) :
    DecodeNDJSONLine line = .error (.msg ("missing required dump event field: " ++ k)) := by
  have hfm : firstMissing requiredEventKeys ms = some k := by
    rw [hsplit]; exact firstMissing_split pre k post hpre hk
  unfold DecodeNDJSONLine
  rw [if_neg (trim_ne_nil_of_parse hp)]
  simp only [hp, rawMembers, validateRequiredKeys, hfm]

theorem decode_missing_key_witness :
    DecodeNDJSONLine lineMissingId =
      .error (.msg ("missing required dump event field: " ++ "id")) :=
  decode_missing_key lineMissingId (msOf lineMissingId) ["schemaVersion"] "id"
    ["timestamp", "sourceType", "projectRoot", "phpSapi", "requestId", "isDd",
     "payloadFormat", "payload", "trace", "host"]
    rfl rfl (by decide) (by decide)

/-- C5: once a line parses into the typed structure and passes the presence
and coarse-type checks, a schema version different from the supported
constant yields exactly the distinguished sentinel
`ErrUnsupportedSchemaVersion` (a distinct error constructor, testable by
identity), before any other semantic check. -/
theorem decode_unsupported_version (line : String) (j : Json)
    (ms : List (String × Json × String)) (ev : Event)
    (hp : parseTop (trimSpace line) = some j)
    (hraw : rawMembers j = .ok ms)
    (hkeys : validateRequiredKeys ms = .ok ())
    (hev : unmarshalEvent j = .ok ev)
    (hv : ev.schemaVersion ≠ SchemaVersion) :
    DecodeNDJSONLine line = .error .unsupportedSchemaVersion := by
  rw [decode_eq_validate hp hraw hkeys hev]
  unfold validateEvent
  rw [if_pos hv]

theorem decode_unsupported_version_witness :
    DecodeNDJSONLine lineV2 = .error .unsupportedSchemaVersion :=
  decode_unsupported_version lineV2 (jOf lineV2) (msOf lineV2) (evOf lineV2)
    rfl rfl rfl rfl (by decide)



/-- With semantic validation passing too, the whole decode returns the
event: the composition of `decode_eq_validate` with a passing
`validateEvent`. -/
theorem decode_eq_ok {line : String} {j : Json}
    {ms : List (String × Json × String)} {ev : Event}
    (hp : parseTop (trimSpace line) = some j)
    (hraw : rawMembers j = .ok ms)
    (hkeys : validateRequiredKeys ms = .ok ())
    (hev : unmarshalEvent j = .ok ev)
    (hval : validateEvent ev = .ok ()) :
    DecodeNDJSONLine line = .ok (some ev) := by
  rw [decode_eq_validate hp hraw hkeys hev, hval]

/-- Any line decoded to a non-null event passed `validateEvent`. -/
theorem decode_ok_validate {line : String} {ev : Event}
    (h : DecodeNDJSONLine line = .ok (some ev)) : validateEvent ev = .ok () := by
  unfold DecodeNDJSONLine at h
  split at h
  · exact absurd h (by simp)
  · split at h
    · exact absurd h (by simp)
    · split at h
      · exact absurd h (by simp)
      · split at h
        · exact absurd h (by simp)
        · split at h
          · exact absurd h (by simp)
          · split at h
            · exact absurd h (by simp)
            · rename_i hval
              rw [Except.ok.injEq, Option.some.injEq] at h
              subst h
              exact hval

/-- C2 (amended): every decoded event's `sourceType` is one of the four
enum members, and the sub-object matching it is always populated (`http`
for `http`, `command` for `cli`/`worker`/`cron`); the decoder does not,
however, require the other sub-object to be absent. -/
theorem decode_ok_source_invariant (line : String) (ev : Event)
    (h : DecodeNDJSONLine line = .ok (some ev)) :
    (ev.sourceType = "http" ∨ ev.sourceType = "cli" ∨ ev.sourceType = "worker" ∨
      ev.sourceType = "cron") ∧
    (ev.sourceType = "http" → ev.http ≠ none) ∧
    (ev.sourceType ≠ "http" → ev.command ≠ none) := by
  have hv := decode_ok_validate h
  unfold validateEvent at hv
  split at hv
  · exact absurd hv (by simp)
  split at hv
  · exact absurd hv (by simp)
  split at hv
  · exact absurd hv (by simp)
  split at hv
  · exact absurd hv (by simp)
  · split at hv
    · exact absurd hv (by simp)
    split at hv
    · exact absurd hv (by simp)
    rename_i henum
    rw [not_not] at henum
    split at hv
    · exact absurd hv (by simp)
    by_cases hsrc : ev.sourceType = "http"
    · rw [if_pos hsrc] at hv
      split at hv
      · exact absurd hv (by simp)
      rename_i hh
      exact ⟨henum, fun _ => by rw [hh]; simp, fun hne => absurd hsrc hne⟩
    · rw [if_neg hsrc] at hv
      split at hv
      · exact absurd hv (by simp)
      rename_i hc
      exact ⟨henum, fun hcon => absurd hcon hsrc, fun _ => by rw [hc]; simp⟩

theorem decode_ok_source_invariant_witness :
    (evOf lineHTTP).sourceType = "http" ∧
    ((evOf lineHTTP).sourceType = "http" ∨ (evOf lineHTTP).sourceType = "cli" ∨
      (evOf lineHTTP).sourceType = "worker" ∨ (evOf lineHTTP).sourceType = "cron") ∧
    ((evOf lineHTTP).sourceType = "http" → (evOf lineHTTP).http ≠ none) ∧
    ((evOf lineHTTP).sourceType ≠ "http" → (evOf lineHTTP).command ≠ none) :=
  ⟨by decide,
   decode_ok_source_invariant lineHTTP (evOf lineHTTP)
     (decode_eq_ok rfl rfl rfl rfl rfl)⟩

/-- C2 (counterexample): a decoded cli event can carry a populated `http`
sub-object as well — `http` non-null does not imply `sourceType = "http"`,
so "exactly one of `http`/`command` is populated" fails. -/
theorem decode_both_subobjects_counterexample :
    DecodeNDJSONLine lineCliBoth = .ok (some (evOf lineCliBoth)) ∧
    (evOf lineCliBoth).sourceType = "cli" ∧
    (evOf lineCliBoth).http ≠ none ∧
    (evOf lineCliBoth).command ≠ none :=
  ⟨decode_eq_ok rfl rfl rfl rfl rfl, by decide, by decide, by decide⟩

/-- C8 (counterexample): a decoded event can carry a trace frame whose
`line` is `-1` — the decoder never checks frame line positivity. -/
theorem decode_nonpositive_trace_line_counterexample :
    DecodeNDJSONLine lineCliBoth = .ok (some (evOf lineCliBoth)) ∧
    (evOf lineCliBoth).trace = [⟨"", -1, ""⟩] ∧
    ¬(0 < (-1 : Int)) :=
  ⟨decode_eq_ok rfl rfl rfl rfl rfl, by decide, by decide⟩


/-- C6: for every event that reaches the conditional-substructure check,
an http-sourced event without (or with incomplete) `http` metadata and a
cli/worker/cron-sourced event without `command` metadata (or with an empty
command name) fail with exactly the four respective messages. -/
theorem decode_substructure_errors (line : String) (j : Json)
    (ms : List (String × Json × String)) (ev : Event) (t : GoTime)
    (hp : parseTop (trimSpace line) = some j)
    (hraw : rawMembers j = .ok ms)
    (hkeys : validateRequiredKeys ms = .ok ())
    (hev : unmarshalEvent j = .ok ev)
    (hv1 : ev.schemaVersion = SchemaVersion)
    (hne : ¬(ev.id = "" ∨ ev.timestamp = "" ∨ ev.sourceType = "" ∨ ev.projectRoot = "" ∨
      ev.phpSapi = "" ∨ ev.payloadFormat = "" ∨ ev.payload.length = 0))
    (hhost : ¬(ev.host.hostname = "" ∨ ev.host.pid ≤ 0))
    (hts : timeParseRFC3339Nano ev.timestamp = some t)
    (hfmt : formatRFC3339NanoUTC t = ev.timestamp)
    (henum : ev.sourceType = "http" ∨ ev.sourceType = "cli" ∨ ev.sourceType = "worker" ∨
      ev.sourceType = "cron")
    (hpf : ev.payloadFormat = "json") :
    (ev.sourceType = "http" → ev.http = none →
      DecodeNDJSONLine line =
        .error (.msg "http metadata is required when sourceType is http")) ∧
    (ev.sourceType = "http" → ∀ h, ev.http = some h →
      (h.method = "" ∨ h.scheme = "" ∨ h.host = "" ∨ h.path = "") →
      DecodeNDJSONLine line = .error (.msg "http metadata is missing required fields")) ∧
    ((ev.sourceType = "cli" ∨ ev.sourceType = "worker" ∨ ev.sourceType = "cron") →
      ev.command = none →
      DecodeNDJSONLine line =
        .error (.msg "command metadata is required when sourceType is cli, worker, or cron")) ∧
    ((ev.sourceType = "cli" ∨ ev.sourceType = "worker" ∨ ev.sourceType = "cron") →
      ∀ c, ev.command = some c → c.name = "" →
      DecodeNDJSONLine line =
        .error (.msg "command metadata is missing required field: name")) := by
  rw [decode_eq_validate hp hraw hkeys hev]
  unfold validateEvent
  rw [if_neg (by simp [hv1]), if_neg hne, if_neg hhost]
  simp only [hts]
  rw [if_neg (by simp [hfmt]), if_neg (not_not.mpr henum), if_neg (by simp [hpf])]
  refine ⟨?_, ?_, ?_, ?_⟩
  · intro hs hnone
    rw [if_pos hs, hnone]
  · intro hs h hh hbad
    rw [if_pos hs, hh]
    simp only []
    rw [if_pos hbad]
  · intro hs hnone
    have hnh : ¬ev.sourceType = "http" := by
      rcases hs with h | h | h <;> (rw [h]; decide)
    rw [if_neg hnh, hnone]
  · intro hs c hc hname
    have hnh : ¬ev.sourceType = "http" := by
      rcases hs with h | h | h <;> (rw [h]; decide)
    rw [if_neg hnh, hc]
    simp only []
    rw [if_pos hname]

theorem decode_substructure_errors_witness :
    DecodeNDJSONLine lineNoHTTPMeta =
      .error (.msg "http metadata is required when sourceType is http") :=
  (decode_substructure_errors lineNoHTTPMeta (jOf lineNoHTTPMeta) (msOf lineNoHTTPMeta)
    (evOf lineNoHTTPMeta) (tOf lineNoHTTPMeta)
    rfl rfl rfl rfl (by decide) (by decide) (by decide) rfl rfl
    (by decide) (by decide)).1 (by decide) (by decide)

/-- C4: for every event that reaches the timestamp check, the decode fails
with "timestamp must be RFC3339Nano" exactly when the timestamp does not
parse under `time.Parse(time.RFC3339Nano, ·)` — the strict RFC 3339 fast
path together with `Parse`'s lenient general-layout fallback — and with
"timestamp must be UTC (Z)" exactly when it parses but re-rendering the
instant in UTC RFC3339Nano form does not reproduce the original string
byte-for-byte. -/
theorem decode_timestamp_errors (line : String) (j : Json)
    (ms : List (String × Json × String)) (ev : Event)
    (hp : parseTop (trimSpace line) = some j)
    (hraw : rawMembers j = .ok ms)
    (hkeys : validateRequiredKeys ms = .ok ())
    (hev : unmarshalEvent j = .ok ev)
    (hv1 : ev.schemaVersion = SchemaVersion)
    (hne : ¬(ev.id = "" ∨ ev.timestamp = "" ∨ ev.sourceType = "" ∨ ev.projectRoot = "" ∨
      ev.phpSapi = "" ∨ ev.payloadFormat = "" ∨ ev.payload.length = 0))
    (hhost : ¬(ev.host.hostname = "" ∨ ev.host.pid ≤ 0)) :
    (DecodeNDJSONLine line = .error (.msg "timestamp must be RFC3339Nano") ↔
      timeParseRFC3339Nano ev.timestamp = none) ∧
    (DecodeNDJSONLine line = .error (.msg "timestamp must be UTC (Z)") ↔
      (∃ t, timeParseRFC3339Nano ev.timestamp = some t ∧
        formatRFC3339NanoUTC t ≠ ev.timestamp)) := by
  rw [decode_eq_validate hp hraw hkeys hev]
  unfold validateEvent
  rw [if_neg (by simp [hv1]), if_neg hne, if_neg hhost]
  cases hts : timeParseRFC3339Nano ev.timestamp with
  | none =>
    refine ⟨by simp, ?_⟩
    constructor
    · intro hcon
      exact absurd hcon (by simp)
    · rintro ⟨t, ht, _⟩
      exact absurd ht (by simp)
  | some t =>
    simp only []
    by_cases hf : formatRFC3339NanoUTC t = ev.timestamp
    · rw [if_neg (fun hc => hc hf)]
      have hstop : ∀ x : DecodeErr,
          x = .msg "timestamp must be RFC3339Nano" ∨ x = .msg "timestamp must be UTC (Z)" →
          ((match (if ¬(ev.sourceType = "http" ∨ ev.sourceType = "cli" ∨
                ev.sourceType = "worker" ∨ ev.sourceType = "cron") then
              Except.error (DecodeErr.msg "sourceType must be one of: http, cli, worker, cron")
            else if ev.payloadFormat ≠ "json" then
              Except.error (DecodeErr.msg "payloadFormat must be json for schemaVersion 1")
            else if ev.sourceType = "http" then
              match ev.http with
              | none =>
                Except.error (DecodeErr.msg "http metadata is required when sourceType is http")
              | some h =>
                if h.method = "" ∨ h.scheme = "" ∨ h.host = "" ∨ h.path = "" then
                  Except.error (DecodeErr.msg "http metadata is missing required fields")
                else if ¬jsonValid ev.payload = true then
                  Except.error (DecodeErr.msg "payload must be valid JSON")
                else Except.ok ()
            else
              match ev.command with
              | none =>
                Except.error
                  (DecodeErr.msg "command metadata is required when sourceType is cli, worker, or cron")
              | some c =>
                if c.name = "" then
                  Except.error (DecodeErr.msg "command metadata is missing required field: name")
                else if ¬jsonValid ev.payload = true then
                  Except.error (DecodeErr.msg "payload must be valid JSON")
                else Except.ok ()) with
            | Except.error e => Except.error (α := Option Event) e
            | Except.ok _ => Except.ok (some ev)) ≠ .error x) := by
        intro x hx hcon
        split at hcon
        · rename_i e heq
          rw [Except.error.injEq] at hcon
          subst hcon
          repeat' split at heq
          all_goals rcases hx with hx | hx <;> subst hx <;> simp_all
        · exact absurd hcon (by simp)
      refine ⟨⟨fun hcon => absurd hcon (hstop _ (Or.inl rfl)), ?_⟩,
        ⟨fun hcon => absurd hcon (hstop _ (Or.inr rfl)), ?_⟩⟩
      · intro hcon
        exact absurd hcon (by simp)
      · rintro ⟨t2, ht2, hne2⟩
        rw [Option.some.injEq] at ht2
        exact absurd (ht2 ▸ hf) hne2
    · rw [if_pos hf]
      refine ⟨⟨fun hcon => absurd hcon (by simp), fun hcon => ?_⟩, ?_⟩
      · exact absurd hcon (by simp)
      · constructor
        · intro _
          exact ⟨t, rfl, hf⟩
        · intro _
          rfl

theorem decode_timestamp_errors_witness :
    (DecodeNDJSONLine lineHTTP = .error (.msg "timestamp must be RFC3339Nano") ↔
      timeParseRFC3339Nano (evOf lineHTTP).timestamp = none) ∧
    (DecodeNDJSONLine lineHTTP = .error (.msg "timestamp must be UTC (Z)") ↔
      (∃ t, timeParseRFC3339Nano (evOf lineHTTP).timestamp = some t ∧
        formatRFC3339NanoUTC t ≠ (evOf lineHTTP).timestamp)) :=
  decode_timestamp_errors lineHTTP (jOf lineHTTP) (msOf lineHTTP) (evOf lineHTTP)
    rfl rfl rfl rfl (by decide) (by decide) (by decide)


/-! ## Parser span lemmas

Soundness (the input is the consumed span followed by the rest) and
extension (re-running the parser on the consumed span followed by any
non-extending tail consumes the same span): the backbone for proving that
captured `RawMessage` spans re-parse. -/

theorem dropWhile_head_false {p : Char → Bool} :
    ∀ {l : List Char} {d : Char} {z : List Char},
      l.dropWhile p = d :: z → p d = false
  | [], d, z, h => by simp at h
  | a :: t, d, z, h => by
    rw [List.dropWhile_cons] at h
    by_cases ha : p a = true
    · exact dropWhile_head_false (by simpa [ha] using h)
    · rw [if_neg (by simp [ha])] at h
      cases h
      simpa using ha

theorem span_sound (p : Char → Bool) (cs : List Char) :
    cs = (cs.span p).1 ++ (cs.span p).2 ∧ ∀ x ∈ (cs.span p).1, p x = true := by
  rw [List.span_eq_take_drop]
  exact ⟨(List.takeWhile_append_dropWhile p cs).symm,
    fun x hx => List.mem_takeWhile_imp hx⟩

theorem span_append (p : Char → Bool) :
    ∀ (w : List Char), (∀ x ∈ w, p x = true) →
      ∀ (y : List Char), (y = [] ∨ ∃ d z, y = d :: z ∧ p d = false) →
        (w ++ y).span p = (w, y)
  | [], _, y, hy => by
    rcases hy with rfl | ⟨d, z, rfl, hd⟩
    · simp [List.span_eq_take_drop]
    · simp [List.span_eq_take_drop, List.takeWhile_cons, List.dropWhile_cons, hd]
  | a :: w, hw, y, hy => by
    have ha : p a = true := hw a (by simp)
    have ih := span_append p w (fun x hx => hw x (by simp [hx])) y hy
    rw [List.span_eq_take_drop] at ih ⊢
    simp only [List.cons_append, List.takeWhile_cons, List.dropWhile_cons, ha, if_pos,
      Prod.mk.injEq] at ih ⊢
    exact ⟨by rw [ih.1], ih.2⟩

/-- Soundness and (unconditional) extension for string bodies. -/
theorem parseStrAux_spec :
    ∀ (cs ct c r : List Char), parseStrAux cs = some (ct, c, r) →
      cs = c ++ r ∧ ∀ r2, parseStrAux (c ++ r2) = some (ct, c, r2) := by
  intro cs
  induction cs using parseStrAux.induct with
  | case1 r =>
    intro ct c rr h
    rw [parseStrAux] at h
    rw [Option.some.injEq] at h
    obtain ⟨rfl, rfl, rfl⟩ := h
    exact ⟨rfl, fun r2 => by rw [List.singleton_append, parseStrAux]⟩
  | case2 a b c0 d r ih =>
    intro ct c rr h
    rw [parseStrAux] at h
    rcases hhex : hex4 a b c0 d with _ | n <;> rw [hhex] at h
    · simp at h
    · simp only [Option.some_bind] at h
      rcases hsub : parseStrAux r with _ | ⟨⟨ct1, c1, r1⟩⟩ <;> rw [hsub] at h
      · simp at h
      · simp only [Option.map_some'] at h
        rw [Option.some.injEq] at h
        obtain ⟨rfl, rfl, rfl⟩ := h
        obtain ⟨hs, hext⟩ := ih _ _ _ hsub
        subst hs
        refine ⟨by simp, fun r2 => ?_⟩
        simp only [List.cons_append, List.append_assoc]
        rw [parseStrAux, hhex]
        simp only [Option.some_bind, hext r2, Option.map_some']
  | case3 e r he1 ih =>
    intro ct c rr h
    rw [parseStrAux] at h
    on_goal 2 => exact he1
    rcases hun : unescape e with _ | ch <;> rw [hun] at h
    · simp at h
    · simp only [Option.some_bind] at h
      rcases hsub : parseStrAux r with _ | ⟨⟨ct1, c1, r1⟩⟩ <;> rw [hsub] at h
      · simp at h
      · simp only [Option.map_some'] at h
        rw [Option.some.injEq] at h
        obtain ⟨rfl, rfl, rfl⟩ := h
        obtain ⟨hs, hext⟩ := ih _ _ _ hsub
        subst hs
        have hneu : e ≠ 'u' := fun hcon => by
          subst hcon
          simp [unescape] at hun
        refine ⟨by simp, fun r2 => ?_⟩
        simp only [List.cons_append, List.append_assoc]
        simp [parseStrAux, hneu, hun, hext r2]
  | case4 c0 r h1 h2 h3 hlt =>
    intro ct c rr h
    rw [parseStrAux] at h
    on_goal 2 => exact h1
    on_goal 2 => exact h2
    on_goal 2 => exact h3
    rw [if_pos hlt] at h
    exact absurd h (by simp)
  | case5 c0 r h1 h2 h3 hge ih =>
    intro ct c rr h
    rw [parseStrAux] at h
    on_goal 2 => exact h1
    on_goal 2 => exact h2
    on_goal 2 => exact h3
    rw [if_neg hge] at h
    rcases hsub : parseStrAux r with _ | ⟨⟨ct1, c1, r1⟩⟩ <;> rw [hsub] at h
    · simp at h
    · simp only [Option.map_some'] at h
      rw [Option.some.injEq] at h
      obtain ⟨rfl, rfl, rfl⟩ := h
      obtain ⟨hs, hext⟩ := ih _ _ _ hsub
      subst hs
      have hq : c0 ≠ '"' := fun hcon => h1 hcon
      have hrne : c1 ++ rr ≠ [] := by
        intro hcon
        rw [hcon, parseStrAux] at hsub
        exact absurd hsub (by simp)
      obtain ⟨x, t, hxt⟩ := List.exists_cons_of_ne_nil hrne
      have hb : c0 ≠ '\\' := fun hcon => h3 x t hcon hxt
      refine ⟨by simp, fun r2 => ?_⟩
      simp only [List.cons_append, List.append_assoc]
      simp [parseStrAux, hq, hb, hge, hext r2]
  | case6 =>
    intro ct c rr h
    rw [parseStrAux] at h
    exact absurd h (by simp)


theorem span_snd_head (p : Char → Bool) (cs : List Char) :
    (cs.span p).2 = [] ∨ ∃ d z, (cs.span p).2 = d :: z ∧ p d = false := by
  rcases hs : (cs.span p).2 with _ | ⟨d, z⟩
  · exact Or.inl rfl
  · refine Or.inr ⟨d, z, rfl, ?_⟩
    have hs2 : cs.dropWhile p = d :: z := by
      rw [List.span_eq_take_drop] at hs
      exact hs
    exact dropWhile_head_false hs2

/-- Characterization of a successful `parseFrac`. -/
theorem parseFrac_cases (cs fr r : List Char) (h : parseFrac cs = some (fr, r)) :
    cs = fr ++ r ∧
      ((fr = [] ∧ (r = [] ∨ ∃ d z, r = d :: z ∧ d ≠ '.')) ∨
        ∃ fds, fr = '.' :: fds ∧ fds ≠ [] ∧ (∀ x ∈ fds, x.isDigit = true) ∧
          (r = [] ∨ ∃ d z, r = d :: z ∧ d.isDigit = false)) := by
  rcases cs with _ | ⟨c0, cs1⟩
  · have he : parseFrac ([] : List Char) = some ([], []) := rfl
    rw [he, Option.some.injEq, Prod.mk.injEq] at h
    obtain ⟨rfl, rfl⟩ := h
    exact ⟨rfl, Or.inl ⟨rfl, Or.inl rfl⟩⟩
  · by_cases hc0 : c0 = '.'
    · subst hc0
      rw [parseFrac] at h
      rcases hsp : cs1.span Char.isDigit with ⟨fds, r1⟩
      rw [hsp] at h
      rcases fds with _ | ⟨f0, fds1⟩
      · exact absurd h (by simp)
      · rw [Option.some.injEq, Prod.mk.injEq] at h
        obtain ⟨rfl, rfl⟩ := h
        obtain ⟨hsound, hall⟩ := span_sound Char.isDigit cs1
        rw [hsp] at hsound hall
        have hhead := span_snd_head Char.isDigit cs1
        rw [hsp] at hhead
        exact ⟨by rw [List.cons_append, ← hsound],
          Or.inr ⟨f0 :: fds1, rfl, by simp, hall, hhead⟩⟩
    · have heq : parseFrac (c0 :: cs1) = some ([], c0 :: cs1) := by
        rw [parseFrac.eq_def]
        split
        · rename_i heq2
          rw [List.cons.injEq] at heq2
          exact absurd heq2.1 hc0
        · rfl
      rw [heq, Option.some.injEq, Prod.mk.injEq] at h
      obtain ⟨rfl, rfl⟩ := h
      exact ⟨rfl, Or.inl ⟨rfl, Or.inr ⟨c0, cs1, rfl, hc0⟩⟩⟩

/-- `parseFrac` on a non-dot-headed tail consumes nothing. -/
theorem parseFrac_skip (y : List Char)
    (hy : y = [] ∨ ∃ d z, y = d :: z ∧ d ≠ '.') :
    parseFrac y = some ([], y) := by
  rcases hy with rfl | ⟨d, z, rfl, hd⟩
  · rfl
  · rw [parseFrac.eq_def]
    split
    · rename_i heq2
      rw [List.cons.injEq] at heq2
      exact absurd heq2.1 hd
    · rfl

/-- Re-parsing a fraction span before a non-digit tail. -/
theorem parseFrac_ext (fds y : List Char) (hne : fds ≠ [])
    (hall : ∀ x ∈ fds, x.isDigit = true)
    (hy : y = [] ∨ ∃ d z, y = d :: z ∧ d.isDigit = false) :
    parseFrac ('.' :: fds ++ y) = some ('.' :: fds, y) := by
  rw [List.cons_append, parseFrac]
  rw [span_append Char.isDigit fds hall y hy]
  rcases fds with _ | ⟨f0, fds1⟩
  · exact absurd rfl hne
  · rfl

/-- Characterization of a successful `parseExpDigits`. -/
theorem parseExpDigits_cases (ec : Char) (sg t ex r : List Char)
    (h : parseExpDigits ec sg t = some (ex, r)) :
    ∃ eds, t = eds ++ r ∧ ex = ec :: (sg ++ eds) ∧ eds ≠ [] ∧
      (∀ x ∈ eds, x.isDigit = true) ∧
      (r = [] ∨ ∃ d z, r = d :: z ∧ d.isDigit = false) := by
  rw [parseExpDigits] at h
  rcases hsp : t.span Char.isDigit with ⟨eds, r1⟩
  rw [hsp] at h
  rcases eds with _ | ⟨e0, eds1⟩
  · exact absurd h (by simp)
  · rw [Option.some.injEq, Prod.mk.injEq] at h
    obtain ⟨rfl, rfl⟩ := h
    obtain ⟨hsound, hall⟩ := span_sound Char.isDigit t
    rw [hsp] at hsound hall
    have hhead := span_snd_head Char.isDigit t
    rw [hsp] at hhead
    exact ⟨e0 :: eds1, hsound, rfl, by simp, hall, hhead⟩

/-- Re-parsing an exponent digit run before a non-digit tail. -/
theorem parseExpDigits_ext (ec : Char) (sg eds y : List Char) (hne : eds ≠ [])
    (hall : ∀ x ∈ eds, x.isDigit = true)
    (hy : y = [] ∨ ∃ d z, y = d :: z ∧ d.isDigit = false) :
    parseExpDigits ec sg (eds ++ y) = some (ec :: (sg ++ eds), y) := by
  rw [parseExpDigits, span_append Char.isDigit eds hall y hy]
  rcases eds with _ | ⟨e0, eds1⟩
  · exact absurd rfl hne
  · rfl

/-- Characterization of a successful `parseExp`. -/
theorem parseExp_cases (cs ex r : List Char) (h : parseExp cs = some (ex, r)) :
    cs = ex ++ r ∧
      ((ex = [] ∧ (r = [] ∨ ∃ d z, r = d :: z ∧ d ≠ 'e' ∧ d ≠ 'E')) ∨
        ∃ ec sg eds, ex = ec :: (sg ++ eds) ∧ (ec = 'e' ∨ ec = 'E') ∧
          (sg = [] ∨ sg = ['+'] ∨ sg = ['-']) ∧ eds ≠ [] ∧
          (∀ x ∈ eds, x.isDigit = true) ∧
          (r = [] ∨ ∃ d z, r = d :: z ∧ d.isDigit = false)) := by
  have hAt : ∀ (ec : Char) (t : List Char), (ec = 'e' ∨ ec = 'E') →
      parseExpAt ec t = some (ex, r) →
      ec :: t = ex ++ r ∧
      (∃ sg eds, ex = ec :: (sg ++ eds) ∧
        (sg = [] ∨ sg = ['+'] ∨ sg = ['-']) ∧ eds ≠ [] ∧
        (∀ x ∈ eds, x.isDigit = true) ∧
        (r = [] ∨ ∃ d z, r = d :: z ∧ d.isDigit = false)) := by
    intro ec t hec hp
    rcases t with _ | ⟨x0, t2⟩
    · obtain ⟨eds, hsound, hex, hne, hall, hhead⟩ :=
        parseExpDigits_cases ec [] [] ex r hp
      exact ⟨by rw [hsound, hex]; rfl, ⟨[], eds, hex, Or.inl rfl, hne, hall, hhead⟩⟩
    · by_cases hx0 : x0 = '+'
      · subst hx0
        rw [parseExpAt] at hp
        obtain ⟨eds, hsound, hex, hne, hall, hhead⟩ :=
          parseExpDigits_cases ec ['+'] t2 ex r hp
        refine ⟨?_, ⟨['+'], eds, hex, Or.inr (Or.inl rfl), hne, hall, hhead⟩⟩
        rw [hex, hsound]
        rfl
      · by_cases hx0m : x0 = '-'
        · subst hx0m
          rw [parseExpAt] at hp
          obtain ⟨eds, hsound, hex, hne, hall, hhead⟩ :=
            parseExpDigits_cases ec ['-'] t2 ex r hp
          refine ⟨?_, ⟨['-'], eds, hex, Or.inr (Or.inr rfl), hne, hall, hhead⟩⟩
          rw [hex, hsound]
          rfl
        · have hp2 : parseExpDigits ec [] (x0 :: t2) = some (ex, r) := by
            rw [parseExpAt.eq_def] at hp
            revert hp
            split
            · rename_i heq2
              rw [List.cons.injEq] at heq2
              exact absurd heq2.1 hx0
            · rename_i heq2
              rw [List.cons.injEq] at heq2
              exact absurd heq2.1 hx0m
            · exact fun hp => hp
          obtain ⟨eds, hsound, hex, hne, hall, hhead⟩ :=
            parseExpDigits_cases ec [] (x0 :: t2) ex r hp2
          refine ⟨?_, ⟨[], eds, hex, Or.inl rfl, hne, hall, hhead⟩⟩
          rw [hex, hsound]
          rfl
  rcases cs with _ | ⟨c0, cs1⟩
  · have he : parseExp ([] : List Char) = some ([], []) := rfl
    rw [he, Option.some.injEq, Prod.mk.injEq] at h
    obtain ⟨rfl, rfl⟩ := h
    exact ⟨rfl, Or.inl ⟨rfl, Or.inl rfl⟩⟩
  · by_cases hce : c0 = 'e'
    · subst hce
      rw [parseExp] at h
      obtain ⟨hs2, sg, eds, hex, hsg, hne, hall, hhead⟩ := hAt 'e' cs1 (Or.inl rfl) h
      exact ⟨hs2, Or.inr ⟨'e', sg, eds, hex, Or.inl rfl, hsg, hne, hall, hhead⟩⟩
    · by_cases hcE : c0 = 'E'
      · subst hcE
        rw [parseExp] at h
        obtain ⟨hs2, sg, eds, hex, hsg, hne, hall, hhead⟩ := hAt 'E' cs1 (Or.inr rfl) h
        exact ⟨hs2, Or.inr ⟨'E', sg, eds, hex, Or.inr rfl, hsg, hne, hall, hhead⟩⟩
      · have heq : parseExp (c0 :: cs1) = some ([], c0 :: cs1) := by
          rw [parseExp.eq_def]
          split
          · rename_i heq2
            rw [List.cons.injEq] at heq2
            exact absurd heq2.1 hce
          · rename_i heq2
            rw [List.cons.injEq] at heq2
            exact absurd heq2.1 hcE
          · rfl
        rw [heq, Option.some.injEq, Prod.mk.injEq] at h
        obtain ⟨rfl, rfl⟩ := h
        exact ⟨rfl, Or.inl ⟨rfl, Or.inr ⟨c0, cs1, rfl, hce, hcE⟩⟩⟩

/-- `parseExp` on a tail not headed by `e`/`E` consumes nothing. -/
theorem parseExp_skip (y : List Char)
    (hy : y = [] ∨ ∃ d z, y = d :: z ∧ d ≠ 'e' ∧ d ≠ 'E') :
    parseExp y = some ([], y) := by
  rcases hy with rfl | ⟨d, z, rfl, hde, hdE⟩
  · rfl
  · rw [parseExp.eq_def]
    split
    · rename_i heq2
      rw [List.cons.injEq] at heq2
      exact absurd heq2.1 hde
    · rename_i heq2
      rw [List.cons.injEq] at heq2
      exact absurd heq2.1 hdE
    · rfl


theorem numDelim_head {d : Char} {z : List Char} (h : numDelim (d :: z) = true) :
    d.isDigit = false ∧ d ≠ '.' ∧ d ≠ 'e' ∧ d ≠ 'E' := by
  rw [numDelim] at h
  simp only [Bool.not_eq_eq_eq_not, Bool.not_true, Bool.or_eq_false_iff,
    beq_eq_false_iff_ne] at h
  exact ⟨h.1.1.1, h.1.1.2, h.1.2, h.2⟩

/-- Re-parsing a full exponent span before a non-extending tail. -/
theorem parseExp_ext (ec : Char) (sg eds y : List Char)
    (hec : ec = 'e' ∨ ec = 'E') (hsg : sg = [] ∨ sg = ['+'] ∨ sg = ['-'])
    (hne : eds ≠ []) (hall : ∀ x ∈ eds, x.isDigit = true)
    (hy : y = [] ∨ ∃ d z, y = d :: z ∧ d.isDigit = false) :
    parseExp ((ec :: (sg ++ eds)) ++ y) = some (ec :: (sg ++ eds), y) := by
  obtain ⟨e0, eds1, rfl⟩ : ∃ e0 eds1, eds = e0 :: eds1 := by
    rcases eds with _ | ⟨e0, eds1⟩
    · exact absurd rfl hne
    · exact ⟨e0, eds1, rfl⟩
  have hd0 : e0.isDigit = true := hall e0 (by simp)
  have hd0p : e0 ≠ '+' := by
    intro hcon
    rw [hcon] at hd0
    simp [Char.isDigit] at hd0
  have hd0m : e0 ≠ '-' := by
    intro hcon
    rw [hcon] at hd0
    simp [Char.isDigit] at hd0
  have hdig : parseExpDigits ec sg ((e0 :: eds1) ++ y) =
      some (ec :: (sg ++ (e0 :: eds1)), y) :=
    parseExpDigits_ext ec sg (e0 :: eds1) y hne hall hy
  have hbody : parseExpAt ec ((sg ++ (e0 :: eds1)) ++ y) =
      some (ec :: (sg ++ (e0 :: eds1)), y) := by
    rcases hsg with rfl | rfl | rfl
    · simp only [List.nil_append]
      rw [parseExpAt.eq_def]
      split
      · rename_i heq2
        rw [List.cons_append, List.cons.injEq] at heq2
        exact absurd heq2.1 hd0p
      · rename_i heq2
        rw [List.cons_append, List.cons.injEq] at heq2
        exact absurd heq2.1 hd0m
      · simpa using hdig
    · rw [List.cons_append, List.nil_append, List.cons_append, parseExpAt]
      simpa using hdig
    · rw [List.cons_append, List.nil_append, List.cons_append, parseExpAt]
      simpa using hdig
  rcases hec with rfl | rfl
  · rw [List.cons_append, parseExp]
    exact hbody
  · rw [List.cons_append, parseExp]
    exact hbody

/-- Characterization of a successful `parseNumBody`. -/
theorem parseNumBody_spec (sgn cs1 tok r : List Char)
    (h : parseNumBody sgn cs1 = some (tok, r)) :
    ∃ ds fr ex,
      cs1 = ds ++ (fr ++ (ex ++ r)) ∧ tok = sgn ++ (ds ++ (fr ++ ex)) ∧
      ds ≠ [] ∧ (∀ x ∈ ds, x.isDigit = true) ∧
      (ds.head? = some '0' && ds.length != 1) = false ∧
      (fr = [] ∨ ∃ fds, fr = '.' :: fds ∧ fds ≠ [] ∧ ∀ x ∈ fds, x.isDigit = true) ∧
      (ex = [] ∨ ∃ ec sg eds, ex = ec :: (sg ++ eds) ∧ (ec = 'e' ∨ ec = 'E') ∧
        (sg = [] ∨ sg = ['+'] ∨ sg = ['-']) ∧ eds ≠ [] ∧ ∀ x ∈ eds, x.isDigit = true) := by
  rw [parseNumBody] at h
  rcases hsp : cs1.span Char.isDigit with ⟨ds, cs2⟩
  rw [hsp] at h
  rcases ds with _ | ⟨d0, ds1⟩
  · exact absurd h (by simp)
  simp only [] at h
  rcases hz : ((d0 :: ds1).head? = some '0' && (d0 :: ds1).length != 1) with _ | _
  · rw [if_neg (by rw [hz]; simp)] at h
    rcases hfr : parseFrac cs2 with _ | ⟨⟨fr, cs3⟩⟩ <;> rw [hfr] at h
    · exact absurd h (by simp)
    simp only [] at h
    rcases hex : parseExp cs3 with _ | ⟨⟨ex, cs4⟩⟩ <;> rw [hex] at h
    · exact absurd h (by simp)
    simp only [] at h
    rw [Option.some.injEq, Prod.mk.injEq] at h
    obtain ⟨rfl, rfl⟩ := h
    obtain ⟨hsound, hall⟩ := span_sound Char.isDigit cs1
    rw [hsp] at hsound hall
    obtain ⟨hfr1, hfr2⟩ := parseFrac_cases cs2 fr cs3 hfr
    obtain ⟨hex1, hex2⟩ := parseExp_cases cs3 ex cs4 hex
    refine ⟨d0 :: ds1, fr, ex, ?_, by simp, by simp, hall, hz, ?_, ?_⟩
    · rw [hsound, hfr1, hex1]
    · rcases hfr2 with ⟨rfl, _⟩ | ⟨fds, rfl, hne, hfall, _⟩
      · exact Or.inl rfl
      · exact Or.inr ⟨fds, rfl, hne, hfall⟩
    · rcases hex2 with ⟨rfl, _⟩ | ⟨ec, sg, eds, rfl, hec, hsg, hne, heall, _⟩
      · exact Or.inl rfl
      · exact Or.inr ⟨ec, sg, eds, rfl, hec, hsg, hne, heall⟩
  · rw [if_pos hz] at h
    exact absurd h (by simp)

/-- Re-parsing a full number body before a non-extending tail. -/
theorem parseNumBody_ext (sgn ds fr ex y : List Char)
    (hds : ds ≠ []) (hall : ∀ x ∈ ds, x.isDigit = true)
    (hz : (ds.head? = some '0' && ds.length != 1) = false)
    (hfr : fr = [] ∨ ∃ fds, fr = '.' :: fds ∧ fds ≠ [] ∧ ∀ x ∈ fds, x.isDigit = true)
    (hex : ex = [] ∨ ∃ ec sg eds, ex = ec :: (sg ++ eds) ∧ (ec = 'e' ∨ ec = 'E') ∧
      (sg = [] ∨ sg = ['+'] ∨ sg = ['-']) ∧ eds ≠ [] ∧ ∀ x ∈ eds, x.isDigit = true)
    (hy : numDelim y = true) :
    parseNumBody sgn (ds ++ (fr ++ (ex ++ y))) = some (sgn ++ (ds ++ (fr ++ ex)), y) := by
  have hyfacts : y = [] ∨ ∃ d z, y = d :: z ∧
      d.isDigit = false ∧ d ≠ '.' ∧ d ≠ 'e' ∧ d ≠ 'E' := by
    rcases y with _ | ⟨d, z⟩
    · exact Or.inl rfl
    · obtain ⟨h1, h2, h3, h4⟩ := numDelim_head hy
      exact Or.inr ⟨d, z, rfl, h1, h2, h3, h4⟩
  have hecNotDigit : ∀ ec : Char, (ec = 'e' ∨ ec = 'E') → ec.isDigit = false := by
    intro ec hec
    rcases hec with rfl | rfl <;> decide
  have hexHead : ∀ y2 : List Char, (y2 = [] ∨ ∃ d z, y2 = d :: z ∧ d.isDigit = false) →
      (ex ++ y2 = [] ∨ ∃ d z, ex ++ y2 = d :: z ∧ d.isDigit = false) := by
    intro y2 hy2
    rcases hex with rfl | ⟨ec, sg, eds, rfl, hec, _, _, _⟩
    · simpa using hy2
    · exact Or.inr ⟨ec, sg ++ eds ++ y2, by simp, hecNotDigit ec hec⟩
  have hyND : y = [] ∨ ∃ d z, y = d :: z ∧ d.isDigit = false := by
    rcases hyfacts with rfl | ⟨d, z, rfl, h1, _, _, _⟩
    · exact Or.inl rfl
    · exact Or.inr ⟨d, z, rfl, h1⟩
  have hfrHead : fr ++ (ex ++ y) = [] ∨
      ∃ d z, fr ++ (ex ++ y) = d :: z ∧ d.isDigit = false := by
    rcases hfr with rfl | ⟨fds, rfl, _, _⟩
    · simpa using hexHead y hyND
    · exact Or.inr ⟨'.', fds ++ (ex ++ y), by simp, by decide⟩
  rw [parseNumBody]
  rw [span_append Char.isDigit ds hall _ hfrHead]
  obtain ⟨d0, ds1, rfl⟩ : ∃ d0 ds1, ds = d0 :: ds1 := by
    rcases ds with _ | ⟨d0, ds1⟩
    · exact absurd rfl hds
    · exact ⟨d0, ds1, rfl⟩
  simp only []
  rw [if_neg (by rw [hz]; simp)]
  have hfrEq : parseFrac (fr ++ (ex ++ y)) = some (fr, ex ++ y) := by
    rcases hfr with rfl | ⟨fds, rfl, hne, hfall⟩
    · rw [List.nil_append]
      refine parseFrac_skip _ ?_
      rcases hexHead y hyND with he | ⟨d, z, heq, hd⟩
      · exact Or.inl he
      · refine Or.inr ⟨d, z, heq, ?_⟩
        rcases hex with rfl | ⟨ec, sg, eds, rfl, hec, _, _, _⟩
        · simp only [List.nil_append] at heq
          rcases hyfacts with rfl | ⟨d2, z2, heq2, _, hdot, _, _⟩
          · exact absurd heq (by simp)
          · rw [heq2, List.cons.injEq] at heq
            exact heq.1 ▸ hdot
        · rw [List.cons_append, List.cons.injEq] at heq
          rw [← heq.1]
          rcases hec with rfl | rfl <;> decide
    · exact parseFrac_ext fds (ex ++ y) hne hfall (hexHead y hyND)
  rw [hfrEq]
  have hexEq : parseExp (ex ++ y) = some (ex, y) := by
    rcases hex with rfl | ⟨ec, sg, eds, rfl, hec, hsg, hne, heall⟩
    · rw [List.nil_append]
      refine parseExp_skip _ ?_
      rcases hyfacts with rfl | ⟨d, z, rfl, _, _, he, hE⟩
      · exact Or.inl rfl
      · exact Or.inr ⟨d, z, rfl, he, hE⟩
    · exact parseExp_ext ec sg eds y hec hsg hne heall hyND
  simp only []
  rw [hexEq]
  simp

/-- Soundness and extension for number tokens: the consumed token re-parses
before any tail that cannot extend a number. -/
theorem parseNumTok_spec (cs tok r : List Char) (h : parseNumTok cs = some (tok, r)) :
    cs = tok ++ r ∧
      ∀ r2, numDelim r2 = true → parseNumTok (tok ++ r2) = some (tok, r2) := by
  rcases cs with _ | ⟨c0, cs1⟩
  · exact absurd h (by simp [parseNumTok, parseNumBody])
  by_cases hminus : c0 = '-'
  · subst hminus
    rw [parseNumTok] at h
    obtain ⟨ds, fr, ex, hsound, htok, hds, hall, hz, hfr, hex⟩ :=
      parseNumBody_spec ['-'] cs1 tok r h
    subst htok
    refine ⟨by rw [hsound]; simp, fun r2 hr2 => ?_⟩
    have : (['-'] ++ (ds ++ (fr ++ ex))) ++ r2 = '-' :: (ds ++ (fr ++ (ex ++ r2))) := by
      simp
    rw [this, parseNumTok]
    exact parseNumBody_ext ['-'] ds fr ex r2 hds hall hz hfr hex hr2
  · have hbody : parseNumBody [] (c0 :: cs1) = some (tok, r) := by
      rw [parseNumTok.eq_def] at h
      revert h
      split
      · rename_i heq2
        rw [List.cons.injEq] at heq2
        exact absurd heq2.1 hminus
      · exact fun h => h
    obtain ⟨ds, fr, ex, hsound, htok, hds, hall, hz, hfr, hex⟩ :=
      parseNumBody_spec [] (c0 :: cs1) tok r hbody
    subst htok
    obtain ⟨d0, ds1, rfl⟩ : ∃ d0 ds1, ds = d0 :: ds1 := by
      rcases ds with _ | ⟨d0, ds1⟩
      · exact absurd rfl hds
      · exact ⟨d0, ds1, rfl⟩
    have hd0 : d0.isDigit = true := hall d0 (by simp)
    have hd0m : d0 ≠ '-' := by
      intro hcon
      rw [hcon] at hd0
      simp [Char.isDigit] at hd0
    refine ⟨by rw [hsound]; simp, fun r2 hr2 => ?_⟩
    have harg : ([] ++ ((d0 :: ds1) ++ (fr ++ ex))) ++ r2 =
        d0 :: (ds1 ++ (fr ++ (ex ++ r2))) := by
      simp
    rw [harg, parseNumTok.eq_def]
    split
    · rename_i heq2
      rw [List.cons.injEq] at heq2
      exact absurd heq2.1 hd0m
    · have hext := parseNumBody_ext [] (d0 :: ds1) fr ex r2 hds hall hz hfr hex hr2
      simpa using hext

theorem isValStart_not_ws {d : Char} (h : isValStart d = true) : isJsonWs d = false := by
  rcases hw : isJsonWs d with _ | _
  · rfl
  · simp [isJsonWs] at hw
    rcases hw with ((rfl | rfl) | rfl) | rfl <;> exact absurd h (by decide)

theorem numDelim_ws_append (w y : List Char) (hw : ∀ x ∈ w, isJsonWs x = true)
    (hy : numDelim y = true) : numDelim (w ++ y) = true := by
  rcases w with _ | ⟨a, w2⟩
  · simpa using hy
  · have ha := hw a (by simp)
    simp [isJsonWs] at ha
    rcases ha with ((rfl | rfl) | rfl) | rfl <;> rfl

theorem parseVal_nil (f : Nat) : parseVal f [] = none := by
  cases f <;> rfl

theorem parseVal_null_eq (f : Nat) (r : List Char) :
    parseVal (f + 1) ('n' :: 'u' :: 'l' :: 'l' :: r) =
      some (.null, ['n', 'u', 'l', 'l'], r) := rfl

theorem parseVal_true_eq (f : Nat) (r : List Char) :
    parseVal (f + 1) ('t' :: 'r' :: 'u' :: 'e' :: r) =
      some (.bool true, ['t', 'r', 'u', 'e'], r) := rfl

theorem parseVal_false_eq (f : Nat) (r : List Char) :
    parseVal (f + 1) ('f' :: 'a' :: 'l' :: 's' :: 'e' :: r) =
      some (.bool false, ['f', 'a', 'l', 's', 'e'], r) := rfl

theorem parseVal_str_eq (f : Nat) (r ct c rest : List Char)
    (h : parseStrAux r = some (ct, c, rest)) :
    parseVal (f + 1) ('"' :: r) = some (.str (String.mk ct), '"' :: c, rest) := by
  rw [parseVal]
  simp only [h]


theorem parseVal_obj_empty_eq (f : Nat) (r w r2 : List Char)
    (hsp : r.span isJsonWs = (w, '\x7d' :: r2)) :
    parseVal (f + 1) ('\x7b' :: r) = some (.obj [], '\x7b' :: (w ++ ['\x7d']), r2) := by
  rw [parseVal]
  simp only [hsp]

theorem parseVal_obj_members_eq (f : Nat) (r w r1 c rest : List Char)
    (ms : List (String × Json × String))
    (hsp : r.span isJsonWs = (w, r1))
    (hne : ∀ z, r1 ≠ '\x7d' :: z)
    (hm : parseMembers f r1 = some (ms, c, rest)) :
    parseVal (f + 1) ('\x7b' :: r) = some (.obj ms, '\x7b' :: (w ++ c), rest) := by
  rw [parseVal]
  simp only [hsp]
  simp only [hm]

theorem parseVal_arr_empty_eq (f : Nat) (r w r2 : List Char)
    (hsp : r.span isJsonWs = (w, ']' :: r2)) :
    parseVal (f + 1) ('[' :: r) = some (.arr [], '[' :: (w ++ [']']), r2) := by
  rw [parseVal]
  simp only [hsp]

theorem parseVal_arr_elems_eq (f : Nat) (r w r1 c rest : List Char)
    (vs : List Json)
    (hsp : r.span isJsonWs = (w, r1))
    (hne : ∀ z, r1 ≠ ']' :: z)
    (hm : parseElems f r1 = some (vs, c, rest)) :
    parseVal (f + 1) ('[' :: r) = some (.arr vs, '[' :: (w ++ c), rest) := by
  rw [parseVal]
  simp only [hsp]
  simp only [hm]

theorem parseVal_num_eq (f : Nat) (c : Char) (r tok rest : List Char)
    (hc : (c == '-' || c.isDigit) = true)
    (h : parseNumTok (c :: r) = some (tok, rest)) :
    parseVal (f + 1) (c :: r) = some (.num (String.mk tok), tok, rest) := by
  rw [parseVal]
  · rw [if_pos hc, h]
  · rintro _ rfl _
    exact absurd hc (by decide)
  · rintro _ rfl _
    exact absurd hc (by decide)
  · rintro _ rfl _
    exact absurd hc (by decide)
  · rintro rfl
    exact absurd hc (by decide)
  · rintro rfl
    exact absurd hc (by decide)
  · rintro rfl
    exact absurd hc (by decide)

theorem parseElems_last_eq (f : Nat) (cs c r w r2 : List Char) (v : Json)
    (hv : parseVal f cs = some (v, c, r))
    (hsp : r.span isJsonWs = (w, ']' :: r2)) :
    parseElems (f + 1) cs = some ([v], c ++ w ++ [']'], r2) := by
  rw [parseElems]
  simp only [hv, hsp]

theorem parseElems_cons_eq (f : Nat) (cs c r w r2 w2 rr c2 rest : List Char)
    (v : Json) (vs : List Json)
    (hv : parseVal f cs = some (v, c, r))
    (hsp : r.span isJsonWs = (w, ',' :: r2))
    (hsp2 : r2.span isJsonWs = (w2, rr))
    (hm : parseElems f rr = some (vs, c2, rest)) :
    parseElems (f + 1) cs = some (v :: vs, c ++ w ++ ',' :: (w2 ++ c2), rest) := by
  rw [parseElems]
  simp only [hv, hsp, hsp2, hm]

theorem parseMembers_last_eq (f : Nat) (r kct kc r1 w1 r3 w2 rw2 vc r5 w3 r7 : List Char)
    (v : Json)
    (hks : parseStrAux r = some (kct, kc, r1))
    (hsp1 : r1.span isJsonWs = (w1, ':' :: r3))
    (hsp2 : r3.span isJsonWs = (w2, rw2))
    (hv : parseVal f rw2 = some (v, vc, r5))
    (hsp3 : r5.span isJsonWs = (w3, '\x7d' :: r7)) :
    parseMembers (f + 1) ('"' :: r) =
      some ([(String.mk kct, v, String.mk vc)],
        '"' :: kc ++ w1 ++ ':' :: (w2 ++ vc ++ w3 ++ ['\x7d']), r7) := by
  rw [parseMembers]
  simp only [hks, hsp1, hsp2, hv, hsp3]

theorem parseMembers_cons_eq (f : Nat)
    (r kct kc r1 w1 r3 w2 rw2 vc r5 w3 r7 w4 rw4 c2 rest : List Char)
    (v : Json) (ms : List (String × Json × String))
    (hks : parseStrAux r = some (kct, kc, r1))
    (hsp1 : r1.span isJsonWs = (w1, ':' :: r3))
    (hsp2 : r3.span isJsonWs = (w2, rw2))
    (hv : parseVal f rw2 = some (v, vc, r5))
    (hsp3 : r5.span isJsonWs = (w3, ',' :: r7))
    (hsp4 : r7.span isJsonWs = (w4, rw4))
    (hm : parseMembers f rw4 = some (ms, c2, rest)) :
    parseMembers (f + 1) ('"' :: r) =
      some ((String.mk kct, v, String.mk vc) :: ms,
        '"' :: kc ++ w1 ++ ':' :: (w2 ++ vc ++ w3 ++ ',' :: (w4 ++ c2)), rest) := by
  rw [parseMembers]
  simp only [hks, hsp1, hsp2, hv, hsp3, hsp4, hm]


theorem span_eq_facts (p : Char → Bool) (cs w r : List Char) (h : cs.span p = (w, r)) :
    cs = w ++ r ∧ ∀ x ∈ w, p x = true := by
  obtain ⟨h1, h2⟩ := span_sound p cs
  rw [h] at h1 h2
  exact ⟨h1, h2⟩

/-- Joint soundness and extension for the mutual JSON parsers, by induction
on fuel: the input splits as `consumed ++ rest`; the consumed text starts
with a value-start character (a quote, for members); every object member
raw span re-parses by itself to exactly that member value; and re-parsing
the consumed text before any other non-extending tail gives the same
result. -/
theorem parser_sound_ext :
    ∀ f : Nat,
      (∀ cs v c r, parseVal f cs = some (v, c, r) →
        cs = c ++ r ∧ (∃ d t, c = d :: t ∧ isValStart d = true) ∧
        (∀ ms2, v = .obj ms2 →
          ∀ m ∈ ms2, ∃ g, parseVal g m.2.2.data = some (m.2.1, m.2.2.data, [])) ∧
        ∀ r2, numDelim r2 = true → parseVal f (c ++ r2) = some (v, c, r2)) ∧
      (∀ cs vs c r, parseElems f cs = some (vs, c, r) →
        cs = c ++ r ∧ (∃ d t, c = d :: t ∧ isValStart d = true) ∧
        ∀ r2, parseElems f (c ++ r2) = some (vs, c, r2)) ∧
      (∀ cs ms c r, parseMembers f cs = some (ms, c, r) →
        cs = c ++ r ∧ (∃ t, c = '"' :: t) ∧
        (∀ m ∈ ms, ∃ g, parseVal g m.2.2.data = some (m.2.1, m.2.2.data, [])) ∧
        ∀ r2, parseMembers f (c ++ r2) = some (ms, c, r2)) := by
  intro f
  induction f with
  | zero =>
    refine ⟨?_, ?_, ?_⟩
    · intro cs v c r h
      rw [parseVal] at h
      exact absurd h (by simp)
    · intro cs vs c r h
      rw [parseElems] at h
      exact absurd h (by simp)
    · intro cs ms c r h
      rw [parseMembers] at h
      exact absurd h (by simp)
  | succ f ih =>
    obtain ⟨ihV, ihE, ihM⟩ := ih
    refine ⟨?_, ?_, ?_⟩
    · -- parseVal at fuel f + 1
      intro cs v c r h
      rw [parseVal.eq_def] at h
      simp only [] at h
      split at h
      · -- null
        simp only [Option.some.injEq, Prod.mk.injEq] at h
        obtain ⟨rfl, rfl, rfl⟩ := h
        refine ⟨rfl, ⟨'n', _, rfl, by decide⟩, fun ms2 h2 => Json.noConfusion h2, ?_⟩
        intro r2 _
        exact parseVal_null_eq f r2
      · -- true
        simp only [Option.some.injEq, Prod.mk.injEq] at h
        obtain ⟨rfl, rfl, rfl⟩ := h
        refine ⟨rfl, ⟨'t', _, rfl, by decide⟩, fun ms2 h2 => Json.noConfusion h2, ?_⟩
        intro r2 _
        exact parseVal_true_eq f r2
      · -- false
        simp only [Option.some.injEq, Prod.mk.injEq] at h
        obtain ⟨rfl, rfl, rfl⟩ := h
        refine ⟨rfl, ⟨'f', _, rfl, by decide⟩, fun ms2 h2 => Json.noConfusion h2, ?_⟩
        intro r2 _
        exact parseVal_false_eq f r2
      · -- string
        rename_i r1
        rcases hps : parseStrAux r1 with _ | ⟨⟨ct, kc, rest⟩⟩ <;> rw [hps] at h
        · exact absurd h (by simp)
        simp only [Option.some.injEq, Prod.mk.injEq] at h
        obtain ⟨rfl, rfl, rfl⟩ := h
        obtain ⟨hs, hext⟩ := parseStrAux_spec r1 ct kc rest hps
        refine ⟨by rw [hs]; rfl, ⟨'"', kc, rfl, by decide⟩,
          fun ms2 h2 => Json.noConfusion h2, ?_⟩
        intro r2 _
        exact parseVal_str_eq f (kc ++ r2) ct kc r2 (hext r2)
      · -- object
        rename_i r1
        rcases hsp : r1.span isJsonWs with ⟨w, rw1⟩
        rw [hsp] at h
        simp only [] at h
        obtain ⟨hsnd, hall⟩ := span_eq_facts isJsonWs r1 w rw1 hsp
        split at h
        · -- empty object
          simp only [Option.some.injEq, Prod.mk.injEq] at h
          obtain ⟨rfl, rfl, rfl⟩ := h
          refine ⟨?_, ⟨'\x7b', _, rfl, by decide⟩, ?_, ?_⟩
          · rw [hsnd]
            simp
          · intro ms2 h2 m hm
            cases Json.obj.inj h2
            exact absurd hm (by simp)
          · intro r2 _
            have harr : ('\x7b' :: (w ++ ['\x7d'])) ++ r2 =
                '\x7b' :: (w ++ ('\x7d' :: r2)) := by simp
            rw [harr]
            exact parseVal_obj_empty_eq f _ w r2
              (span_append isJsonWs w hall _ (Or.inr ⟨_, _, rfl, by decide⟩))
        · -- non-empty object
          rcases hpm : parseMembers f rw1 with _ | ⟨⟨ms0, c0, rest⟩⟩ <;> rw [hpm] at h
          · exact absurd h (by simp)
          simp only [Option.some.injEq, Prod.mk.injEq] at h
          obtain ⟨rfl, rfl, rfl⟩ := h
          obtain ⟨hmsS, ⟨t0, hc0⟩, hmem, hextM⟩ := ihM rw1 ms0 c0 rest hpm
          refine ⟨?_, ⟨'\x7b', _, rfl, by decide⟩, ?_, ?_⟩
          · rw [hsnd, hmsS]
            simp
          · intro ms2 h2
            cases Json.obj.inj h2
            exact hmem
          · intro r2 _
            have harr : ('\x7b' :: (w ++ c0)) ++ r2 = '\x7b' :: (w ++ (c0 ++ r2)) := by
              simp
            rw [harr]
            refine parseVal_obj_members_eq f _ w (c0 ++ r2) c0 r2 ms0 ?_ ?_ (hextM r2)
            · exact span_append isJsonWs w hall _
                (Or.inr ⟨'"', t0 ++ r2, by rw [hc0]; rfl, by decide⟩)
            · intro z hz
              rw [hc0, List.cons_append, List.cons.injEq] at hz
              exact absurd hz.1 (by decide)
      · -- array
        rename_i r1
        rcases hsp : r1.span isJsonWs with ⟨w, rw1⟩
        rw [hsp] at h
        simp only [] at h
        obtain ⟨hsnd, hall⟩ := span_eq_facts isJsonWs r1 w rw1 hsp
        split at h
        · -- empty array
          simp only [Option.some.injEq, Prod.mk.injEq] at h
          obtain ⟨rfl, rfl, rfl⟩ := h
          refine ⟨?_, ⟨'[', _, rfl, by decide⟩, fun ms2 h2 => Json.noConfusion h2, ?_⟩
          · rw [hsnd]
            simp
          · intro r2 _
            have harr : ('[' :: (w ++ [']'])) ++ r2 = '[' :: (w ++ (']' :: r2)) := by simp
            rw [harr]
            exact parseVal_arr_empty_eq f _ w r2
              (span_append isJsonWs w hall _ (Or.inr ⟨_, _, rfl, by decide⟩))
        · -- non-empty array
          rcases hpe : parseElems f rw1 with _ | ⟨⟨vs0, c0, rest⟩⟩ <;> rw [hpe] at h
          · exact absurd h (by simp)
          simp only [Option.some.injEq, Prod.mk.injEq] at h
          obtain ⟨rfl, rfl, rfl⟩ := h
          obtain ⟨hvsS, ⟨d0, t0, hc0, hd0⟩, hextE⟩ := ihE rw1 vs0 c0 rest hpe
          refine ⟨?_, ⟨'[', _, rfl, by decide⟩, fun ms2 h2 => Json.noConfusion h2, ?_⟩
          · rw [hsnd, hvsS]
            simp
          · intro r2 _
            have harr : ('[' :: (w ++ c0)) ++ r2 = '[' :: (w ++ (c0 ++ r2)) := by simp
            rw [harr]
            refine parseVal_arr_elems_eq f _ w (c0 ++ r2) c0 r2 vs0 ?_ ?_ (hextE r2)
            · exact span_append isJsonWs w hall _
                (Or.inr ⟨d0, t0 ++ r2, by rw [hc0]; rfl, isValStart_not_ws hd0⟩)
            · intro z hz
              rw [hc0, List.cons_append, List.cons.injEq] at hz
              rw [hz.1] at hd0
              exact absurd hd0 (by decide)
      · -- number / other single character
        rename_i c0 r1 hA hB hC hD hE hF
        rcases hguard : (c0 == '-' || c0.isDigit) with _ | _
        · rw [if_neg (by rw [hguard]; simp)] at h
          exact absurd h (by simp)
        rw [if_pos hguard] at h
        rcases hnt : parseNumTok (c0 :: r1) with _ | ⟨⟨tok, rest⟩⟩ <;> rw [hnt] at h
        · exact absurd h (by simp)
        simp only [Option.some.injEq, Prod.mk.injEq] at h
        obtain ⟨rfl, rfl, rfl⟩ := h
        obtain ⟨hsoundN, hextN⟩ := parseNumTok_spec (c0 :: r1) tok rest hnt
        rcases tok with _ | ⟨t0, tt⟩
        · exact absurd (hextN [] rfl) (by simp [parseNumTok, parseNumBody])
        rw [List.cons_append, List.cons.injEq] at hsoundN
        obtain ⟨rfl, htail⟩ := hsoundN
        have hvs : isValStart c0 = true := by
          rcases (by simpa using hguard : c0 = '-' ∨ c0.isDigit = true) with rfl | h1
          · decide
          · simp [isValStart, h1]
        refine ⟨by rw [htail]; rfl, ⟨c0, tt, rfl, hvs⟩, fun ms2 h2 => Json.noConfusion h2, ?_⟩
        intro r2 hr2
        exact parseVal_num_eq f c0 (tt ++ r2) (c0 :: tt) r2 hguard (hextN r2 hr2)
      · -- nil
        exact absurd h (by simp)
    · -- parseElems at fuel f + 1
      intro cs vs c r h
      rw [parseElems] at h
      rcases hv : parseVal f cs with _ | ⟨⟨v, cv, rv⟩⟩ <;> rw [hv] at h
      · exact absurd h (by simp)
      simp only [] at h
      obtain ⟨hsV, ⟨d0, t0, hcv, hd0⟩, _, hextV⟩ := ihV cs v cv rv hv
      rcases hsp : rv.span isJsonWs with ⟨w, rw1⟩
      rw [hsp] at h
      simp only [] at h
      obtain ⟨hsnd, hall⟩ := span_eq_facts isJsonWs rv w rw1 hsp
      split at h
      · -- comma: more elements follow
        rename_i r2a
        rcases hsp2 : r2a.span isJsonWs with ⟨w2, rr2⟩
        rw [hsp2] at h
        simp only [] at h
        obtain ⟨hsnd2, hall2⟩ := span_eq_facts isJsonWs r2a w2 rr2 hsp2
        rcases he : parseElems f rr2 with _ | ⟨⟨vs0, c2, rest⟩⟩ <;> rw [he] at h
        · exact absurd h (by simp)
        simp only [Option.some.injEq, Prod.mk.injEq] at h
        obtain ⟨rfl, rfl, rfl⟩ := h
        obtain ⟨hsE, ⟨d2, t2, hc2, hd2⟩, hextE⟩ := ihE rr2 vs0 c2 rest he
        refine ⟨?_, ?_, ?_⟩
        · rw [hsV, hsnd, hsnd2, hsE]
          simp
        · refine ⟨d0, t0 ++ w ++ ',' :: (w2 ++ c2), ?_, hd0⟩
          rw [hcv]
          simp
        · intro r2
          have hrw : (cv ++ w ++ ',' :: (w2 ++ c2)) ++ r2 =
              cv ++ (w ++ ',' :: (w2 ++ (c2 ++ r2))) := by simp
          rw [hrw]
          have hnd : numDelim (w ++ ',' :: (w2 ++ (c2 ++ r2))) = true :=
            numDelim_ws_append w _ hall rfl
          have hconc := parseElems_cons_eq f (cv ++ (w ++ ',' :: (w2 ++ (c2 ++ r2))))
            cv (w ++ ',' :: (w2 ++ (c2 ++ r2))) w (w2 ++ (c2 ++ r2)) w2 (c2 ++ r2) c2 r2
            v vs0 (hextV _ hnd)
            (span_append isJsonWs w hall _ (Or.inr ⟨',', _, rfl, by decide⟩))
            (span_append isJsonWs w2 hall2 _
              (Or.inr ⟨d2, t2 ++ r2, by rw [hc2]; rfl, isValStart_not_ws hd2⟩))
            (hextE r2)
          simpa using hconc
      · -- closing bracket: last element
        simp only [Option.some.injEq, Prod.mk.injEq] at h
        obtain ⟨rfl, rfl, rfl⟩ := h
        refine ⟨?_, ?_, ?_⟩
        · rw [hsV, hsnd]
          simp
        · refine ⟨d0, t0 ++ w ++ [']'], ?_, hd0⟩
          rw [hcv]
          simp
        · intro r2
          have hrw : (cv ++ w ++ [']']) ++ r2 = cv ++ (w ++ (']' :: r2)) := by simp
          rw [hrw]
          have hnd : numDelim (w ++ (']' :: r2)) = true :=
            numDelim_ws_append w _ hall rfl
          have hconc := parseElems_last_eq f (cv ++ (w ++ (']' :: r2))) cv
            (w ++ (']' :: r2)) w r2 v (hextV _ hnd)
            (span_append isJsonWs w hall _ (Or.inr ⟨']', _, rfl, by decide⟩))
          simpa using hconc
      · -- neither comma nor bracket
        exact absurd h (by simp)
    · -- parseMembers at fuel f + 1
      intro cs ms c r h
      rw [parseMembers.eq_def] at h
      simp only [] at h
      split at h
      · rename_i r1
        rcases hks : parseStrAux r1 with _ | ⟨⟨kct, kc, r2k⟩⟩ <;> rw [hks] at h
        · exact absurd h (by simp)
        simp only [] at h
        obtain ⟨hsK, hextK⟩ := parseStrAux_spec r1 kct kc r2k hks
        rcases hsp1 : r2k.span isJsonWs with ⟨w1, rw1⟩
        rw [hsp1] at h
        simp only [] at h
        obtain ⟨hsnd1, hall1⟩ := span_eq_facts isJsonWs r2k w1 rw1 hsp1
        split at h
        · rename_i r3
          rcases hsp2 : r3.span isJsonWs with ⟨w2, rw2⟩
          rw [hsp2] at h
          simp only [] at h
          obtain ⟨hsnd2, hall2⟩ := span_eq_facts isJsonWs r3 w2 rw2 hsp2
          rcases hv : parseVal f rw2 with _ | ⟨⟨v, vc, r5⟩⟩ <;> rw [hv] at h
          · exact absurd h (by simp)
          simp only [] at h
          obtain ⟨hsV, ⟨d0, t0, hvc, hd0⟩, _, hextV⟩ := ihV rw2 v vc r5 hv
          rcases hsp3 : r5.span isJsonWs with ⟨w3, rw3⟩
          rw [hsp3] at h
          simp only [] at h
          obtain ⟨hsnd3, hall3⟩ := span_eq_facts isJsonWs r5 w3 rw3 hsp3
          split at h
          · -- comma: more members follow
            rename_i r7
            rcases hsp4 : r7.span isJsonWs with ⟨w4, rw4⟩
            rw [hsp4] at h
            simp only [] at h
            obtain ⟨hsnd4, hall4⟩ := span_eq_facts isJsonWs r7 w4 rw4 hsp4
            rcases hm : parseMembers f rw4 with _ | ⟨⟨ms0, c2, rest⟩⟩ <;> rw [hm] at h
            · exact absurd h (by simp)
            simp only [Option.some.injEq, Prod.mk.injEq] at h
            obtain ⟨rfl, rfl, rfl⟩ := h
            obtain ⟨hsM, ⟨t2, hc2⟩, hmemM, hextM⟩ := ihM rw4 ms0 c2 rest hm
            refine ⟨?_, ⟨_, rfl⟩, ?_, ?_⟩
            · rw [hsK, hsnd1, hsnd2, hsV, hsnd3, hsnd4, hsM]
              simp
            · intro m hm2
              rcases List.mem_cons.mp hm2 with rfl | hm3
              · exact ⟨f, by simpa using hextV [] rfl⟩
              · exact hmemM m hm3
            · intro r2
              have hrw : ('"' :: kc ++ w1 ++ ':' :: (w2 ++ vc ++ w3 ++
                  ',' :: (w4 ++ c2))) ++ r2 =
                  '"' :: (kc ++ (w1 ++ ':' :: (w2 ++ (vc ++ (w3 ++
                    ',' :: (w4 ++ (c2 ++ r2))))))) := by simp
              rw [hrw]
              have hnd : numDelim (w3 ++ ',' :: (w4 ++ (c2 ++ r2))) = true :=
                numDelim_ws_append w3 _ hall3 rfl
              have hconc := parseMembers_cons_eq f
                (kc ++ (w1 ++ ':' :: (w2 ++ (vc ++ (w3 ++ ',' :: (w4 ++ (c2 ++ r2)))))))
                kct kc (w1 ++ ':' :: (w2 ++ (vc ++ (w3 ++ ',' :: (w4 ++ (c2 ++ r2))))))
                w1 (w2 ++ (vc ++ (w3 ++ ',' :: (w4 ++ (c2 ++ r2)))))
                w2 (vc ++ (w3 ++ ',' :: (w4 ++ (c2 ++ r2))))
                vc (w3 ++ ',' :: (w4 ++ (c2 ++ r2)))
                w3 (w4 ++ (c2 ++ r2)) w4 (c2 ++ r2) c2 r2 v ms0
                (hextK _)
                (span_append isJsonWs w1 hall1 _ (Or.inr ⟨':', _, rfl, by decide⟩))
                (span_append isJsonWs w2 hall2 _
                  (Or.inr ⟨d0, t0 ++ _, by rw [hvc]; rfl, isValStart_not_ws hd0⟩))
                (hextV _ hnd)
                (span_append isJsonWs w3 hall3 _ (Or.inr ⟨',', _, rfl, by decide⟩))
                (span_append isJsonWs w4 hall4 _
                  (Or.inr ⟨'"', t2 ++ r2, by rw [hc2]; rfl, by decide⟩))
                (hextM r2)
              simpa using hconc
          · -- closing brace: last member
            simp only [Option.some.injEq, Prod.mk.injEq] at h
            obtain ⟨rfl, rfl, rfl⟩ := h
            refine ⟨?_, ⟨_, rfl⟩, ?_, ?_⟩
            · rw [hsK, hsnd1, hsnd2, hsV, hsnd3]
              simp
            · intro m hm2
              rcases List.mem_cons.mp hm2 with rfl | hm3
              · exact ⟨f, by simpa using hextV [] rfl⟩
              · exact absurd hm3 (by simp)
            · intro r2
              have hrw : ('"' :: kc ++ w1 ++ ':' :: (w2 ++ vc ++ w3 ++ ['\x7d'])) ++ r2 =
                  '"' :: (kc ++ (w1 ++ ':' :: (w2 ++ (vc ++ (w3 ++ ('\x7d' :: r2)))))) := by
                simp
              rw [hrw]
              have hnd : numDelim (w3 ++ ('\x7d' :: r2)) = true :=
                numDelim_ws_append w3 _ hall3 rfl
              have hconc := parseMembers_last_eq f
                (kc ++ (w1 ++ ':' :: (w2 ++ (vc ++ (w3 ++ ('\x7d' :: r2))))))
                kct kc (w1 ++ ':' :: (w2 ++ (vc ++ (w3 ++ ('\x7d' :: r2)))))
                w1 (w2 ++ (vc ++ (w3 ++ ('\x7d' :: r2))))
                w2 (vc ++ (w3 ++ ('\x7d' :: r2)))
                vc (w3 ++ ('\x7d' :: r2)) w3 r2 v
                (hextK _)
                (span_append isJsonWs w1 hall1 _ (Or.inr ⟨':', _, rfl, by decide⟩))
                (span_append isJsonWs w2 hall2 _
                  (Or.inr ⟨d0, t0 ++ _, by rw [hvc]; rfl, isValStart_not_ws hd0⟩))
                (hextV _ hnd)
                (span_append isJsonWs w3 hall3 _ (Or.inr ⟨'\x7d', _, rfl, by decide⟩))
              simpa using hconc
          · -- neither comma nor brace after the value
            exact absurd h (by simp)
        · exact absurd h (by simp)
      · exact absurd h (by simp)


/-- Joint fuel adequacy: a successful parse runs with any fuel exceeding
the length of the consumed text. -/
theorem parser_fuel :
    ∀ f : Nat,
      (∀ cs v c r, parseVal f cs = some (v, c, r) →
        ∀ g, c.length + 1 ≤ g → parseVal g cs = some (v, c, r)) ∧
      (∀ cs vs c r, parseElems f cs = some (vs, c, r) →
        ∀ g, c.length + 1 ≤ g → parseElems g cs = some (vs, c, r)) ∧
      (∀ cs ms c r, parseMembers f cs = some (ms, c, r) →
        ∀ g, c.length + 1 ≤ g → parseMembers g cs = some (ms, c, r)) := by
  intro f
  induction f with
  | zero =>
    refine ⟨?_, ?_, ?_⟩
    · intro cs v c r h
      rw [parseVal] at h
      exact absurd h (by simp)
    · intro cs vs c r h
      rw [parseElems] at h
      exact absurd h (by simp)
    · intro cs ms c r h
      rw [parseMembers] at h
      exact absurd h (by simp)
  | succ f ih =>
    obtain ⟨ihV, ihE, ihM⟩ := ih
    refine ⟨?_, ?_, ?_⟩
    · -- parseVal at fuel f + 1
      intro cs v c r h
      rw [parseVal.eq_def] at h
      simp only [] at h
      split at h
      · -- null
        simp only [Option.some.injEq, Prod.mk.injEq] at h
        obtain ⟨rfl, rfl, rfl⟩ := h
        intro g hg
        rcases g with _ | g2
        · exact absurd hg (by simp)
        exact parseVal_null_eq g2 _
      · -- true
        simp only [Option.some.injEq, Prod.mk.injEq] at h
        obtain ⟨rfl, rfl, rfl⟩ := h
        intro g hg
        rcases g with _ | g2
        · exact absurd hg (by simp)
        exact parseVal_true_eq g2 _
      · -- false
        simp only [Option.some.injEq, Prod.mk.injEq] at h
        obtain ⟨rfl, rfl, rfl⟩ := h
        intro g hg
        rcases g with _ | g2
        · exact absurd hg (by simp)
        exact parseVal_false_eq g2 _
      · -- string
        rename_i r1
        rcases hps : parseStrAux r1 with _ | ⟨⟨ct, kc, rest⟩⟩ <;> rw [hps] at h
        · exact absurd h (by simp)
        simp only [Option.some.injEq, Prod.mk.injEq] at h
        obtain ⟨rfl, rfl, rfl⟩ := h
        intro g hg
        rcases g with _ | g2
        · exact absurd hg (by simp)
        exact parseVal_str_eq g2 r1 ct kc rest hps
      · -- object
        rename_i r1
        rcases hsp : r1.span isJsonWs with ⟨w, rw1⟩
        rw [hsp] at h
        simp only [] at h
        split at h
        · -- empty object
          simp only [Option.some.injEq, Prod.mk.injEq] at h
          obtain ⟨rfl, rfl, rfl⟩ := h
          intro g hg
          rcases g with _ | g2
          · exact absurd hg (by simp)
          exact parseVal_obj_empty_eq g2 r1 w _ hsp
        · -- non-empty object
          rcases hpm : parseMembers f rw1 with _ | ⟨⟨ms0, c0, rest⟩⟩ <;> rw [hpm] at h
          · exact absurd h (by simp)
          simp only [Option.some.injEq, Prod.mk.injEq] at h
          obtain ⟨rfl, rfl, rfl⟩ := h
          obtain ⟨-, ⟨t2, hc0⟩, -, -⟩ := (parser_sound_ext f).2.2 rw1 ms0 c0 rest hpm
          intro g hg
          rcases g with _ | g2
          · exact absurd hg (by simp)
          refine parseVal_obj_members_eq g2 r1 w rw1 c0 rest ms0 hsp ?_ ?_
          · rename_i hnm
            exact fun z hz => hnm z hz
          · refine ihM rw1 ms0 c0 rest hpm g2 ?_
            simp only [List.length_cons, List.length_append] at hg ⊢
            omega
      · -- array
        rename_i r1
        rcases hsp : r1.span isJsonWs with ⟨w, rw1⟩
        rw [hsp] at h
        simp only [] at h
        split at h
        · -- empty array
          simp only [Option.some.injEq, Prod.mk.injEq] at h
          obtain ⟨rfl, rfl, rfl⟩ := h
          intro g hg
          rcases g with _ | g2
          · exact absurd hg (by simp)
          exact parseVal_arr_empty_eq g2 r1 w _ hsp
        · -- non-empty array
          rcases hpe : parseElems f rw1 with _ | ⟨⟨vs0, c0, rest⟩⟩ <;> rw [hpe] at h
          · exact absurd h (by simp)
          simp only [Option.some.injEq, Prod.mk.injEq] at h
          obtain ⟨rfl, rfl, rfl⟩ := h
          obtain ⟨-, ⟨d0, t0, hc0, hd0⟩, -⟩ := (parser_sound_ext f).2.1 rw1 vs0 c0 rest hpe
          intro g hg
          rcases g with _ | g2
          · exact absurd hg (by simp)
          refine parseVal_arr_elems_eq g2 r1 w rw1 c0 rest vs0 hsp ?_ ?_
          · rename_i hnm
            exact fun z hz => hnm z hz
          · refine ihE rw1 vs0 c0 rest hpe g2 ?_
            simp only [List.length_cons, List.length_append] at hg ⊢
            omega
      · -- number / other single character
        rename_i c0 r1 hA hB hC hD hE hF
        rcases hguard : (c0 == '-' || c0.isDigit) with _ | _
        · rw [if_neg (by rw [hguard]; simp)] at h
          exact absurd h (by simp)
        rw [if_pos hguard] at h
        rcases hnt : parseNumTok (c0 :: r1) with _ | ⟨⟨tok, rest⟩⟩ <;> rw [hnt] at h
        · exact absurd h (by simp)
        simp only [Option.some.injEq, Prod.mk.injEq] at h
        obtain ⟨rfl, rfl, rfl⟩ := h
        intro g hg
        rcases g with _ | g2
        · exact absurd hg (by simp)
        exact parseVal_num_eq g2 c0 r1 tok rest hguard hnt
      · -- nil
        exact absurd h (by simp)
    · -- parseElems at fuel f + 1
      intro cs vs c r h
      rw [parseElems] at h
      rcases hv : parseVal f cs with _ | ⟨⟨v, cv, rv⟩⟩ <;> rw [hv] at h
      · exact absurd h (by simp)
      simp only [] at h
      rcases hsp : rv.span isJsonWs with ⟨w, rw1⟩
      rw [hsp] at h
      simp only [] at h
      split at h
      · -- comma: more elements follow
        rename_i r2a
        rcases hsp2 : r2a.span isJsonWs with ⟨w2, rr2⟩
        rw [hsp2] at h
        simp only [] at h
        rcases he : parseElems f rr2 with _ | ⟨⟨vs0, c2, rest⟩⟩ <;> rw [he] at h
        · exact absurd h (by simp)
        simp only [Option.some.injEq, Prod.mk.injEq] at h
        obtain ⟨rfl, rfl, rfl⟩ := h
        intro g hg
        rcases g with _ | g2
        · exact absurd hg (by simp)
        refine parseElems_cons_eq g2 cs cv rv w r2a w2 rr2 c2 rest v vs0 ?_ hsp hsp2 ?_
        · refine ihV cs v cv rv hv g2 ?_
          simp only [List.length_cons, List.length_append] at hg ⊢
          omega
        · refine ihE rr2 vs0 c2 rest he g2 ?_
          simp only [List.length_cons, List.length_append] at hg ⊢
          omega
      · -- closing bracket: last element
        simp only [Option.some.injEq, Prod.mk.injEq] at h
        obtain ⟨rfl, rfl, rfl⟩ := h
        intro g hg
        rcases g with _ | g2
        · exact absurd hg (by simp)
        refine parseElems_last_eq g2 cs cv rv w _ v ?_ hsp
        refine ihV cs v cv rv hv g2 ?_
        simp only [List.length_cons, List.length_append] at hg ⊢
        omega
      · -- neither comma nor bracket
        exact absurd h (by simp)
    · -- parseMembers at fuel f + 1
      intro cs ms c r h
      rw [parseMembers.eq_def] at h
      simp only [] at h
      split at h
      · rename_i r1
        rcases hks : parseStrAux r1 with _ | ⟨⟨kct, kc, r2k⟩⟩ <;> rw [hks] at h
        · exact absurd h (by simp)
        simp only [] at h
        rcases hsp1 : r2k.span isJsonWs with ⟨w1, rw1⟩
        rw [hsp1] at h
        simp only [] at h
        split at h
        · rename_i r3
          rcases hsp2 : r3.span isJsonWs with ⟨w2, rw2⟩
          rw [hsp2] at h
          simp only [] at h
          rcases hv : parseVal f rw2 with _ | ⟨⟨v, vc, r5⟩⟩ <;> rw [hv] at h
          · exact absurd h (by simp)
          simp only [] at h
          rcases hsp3 : r5.span isJsonWs with ⟨w3, rw3⟩
          rw [hsp3] at h
          simp only [] at h
          split at h
          · -- comma: more members follow
            rename_i r7
            rcases hsp4 : r7.span isJsonWs with ⟨w4, rw4⟩
            rw [hsp4] at h
            simp only [] at h
            rcases hm : parseMembers f rw4 with _ | ⟨⟨ms0, c2, rest⟩⟩ <;> rw [hm] at h
            · exact absurd h (by simp)
            simp only [Option.some.injEq, Prod.mk.injEq] at h
            obtain ⟨rfl, rfl, rfl⟩ := h
            intro g hg
            rcases g with _ | g2
            · exact absurd hg (by simp)
            refine parseMembers_cons_eq g2 r1 kct kc r2k w1 r3 w2 rw2 vc r5 w3 r7 w4 rw4
              c2 rest v ms0 hks hsp1 hsp2 ?_ hsp3 hsp4 ?_
            · refine ihV rw2 v vc r5 hv g2 ?_
              simp only [List.length_cons, List.length_append] at hg ⊢
              omega
            · refine ihM rw4 ms0 c2 rest hm g2 ?_
              simp only [List.length_cons, List.length_append] at hg ⊢
              omega
          · -- closing brace: last member
            simp only [Option.some.injEq, Prod.mk.injEq] at h
            obtain ⟨rfl, rfl, rfl⟩ := h
            intro g hg
            rcases g with _ | g2
            · exact absurd hg (by simp)
            refine parseMembers_last_eq g2 r1 kct kc r2k w1 r3 w2 rw2 vc r5 w3 _ v
              hks hsp1 hsp2 ?_ hsp3
            refine ihV rw2 v vc r5 hv g2 ?_
            simp only [List.length_cons, List.length_append] at hg ⊢
            omega
          · exact absurd h (by simp)
        · exact absurd h (by simp)
      · exact absurd h (by simp)


theorem skipWs_cons_false {d : Char} {t : List Char} (hd : isJsonWs d = false) :
    skipWs (d :: t) = d :: t := by
  unfold skipWs
  rw [List.dropWhile_cons, if_neg (by simp [hd])]

/-- An exactly-consuming value parse is accepted by `parseTop`. -/
theorem parseTop_of_exact (v : Json) (c : List Char) (g : Nat) (d : Char) (t : List Char)
    (h : parseVal g c = some (v, c, [])) (hc : c = d :: t)
    (hd : isJsonWs d = false) : parseTop c = some v := by
  have hsk : skipWs c = c := by rw [hc]; exact skipWs_cons_false hd
  have hfuel := (parser_fuel g).1 c v c [] h (c.length + 1) (le_refl _)
  unfold parseTop
  rw [hsk, hfuel]
  simp [skipWs]

/-- Every raw member span captured while parsing a top-level object is
itself syntactically valid JSON. -/
theorem member_raw_valid {line : List Char} {ms : List (String × Json × String)}
    (hp : parseTop line = some (.obj ms)) : ∀ m ∈ ms, jsonValid m.2.2 = true := by
  intro m hm
  unfold parseTop at hp
  rcases hv : parseVal ((skipWs line).length + 1) (skipWs line) with _ | ⟨⟨v, c, r⟩⟩ <;>
    rw [hv] at hp
  · exact absurd hp (by simp)
  simp only [] at hp
  split at hp
  · rw [Option.some.injEq] at hp
    subst hp
    obtain ⟨g, hg⟩ := ((parser_sound_ext _).1 _ _ _ _ hv).2.2.1 ms rfl m hm
    obtain ⟨-, ⟨d, t, hdt, hds⟩, -, -⟩ := (parser_sound_ext g).1 _ _ _ _ hg
    have htop := parseTop_of_exact m.2.1 m.2.2.data g d t hg hdt (isValStart_not_ws hds)
    unfold jsonValid
    rw [htop]
    rfl
  · exact absurd hp (by simp)

/-! ## Error classification of the decode stages -/

theorem rawMembers_error {j : Json} {e : String} (h : rawMembers j = .error e) :
    e = "cannot unmarshal value into Go value of type map of RawMessage" := by
  cases j <;> simp_all [rawMembers]

theorem rawMembers_ok_obj {j : Json} {ms : List (String × Json × String)}
    (h : rawMembers j = .ok ms) : j = .obj ms ∨ (j = .null ∧ ms = []) := by
  cases j <;> simp_all [rawMembers]

theorem firstMissing_none {ks : List String} {ms : List (String × Json × String)}
    (h : firstMissing ks ms = none) : ∀ k ∈ ks, hasKey ms k = true := by
  induction ks with
  | nil => intro k hk; exact absurd hk (by simp)
  | cons a t ih =>
    intro k hk
    rw [firstMissing] at h
    split at h
    · rcases List.mem_cons.mp hk with rfl | hk2
      · assumption
      · exact ih h k hk2
    · exact absurd h (by simp)

theorem validateRequiredKeys_ne (ms : List (String × Json × String)) :
    validateRequiredKeys ms ≠ .error (.msg "payload must be valid JSON") := by
  intro h
  unfold validateRequiredKeys at h
  split at h
  · rename_i k hk
    rw [Except.error.injEq, DecodeErr.msg.injEq] at h
    have hlen := congrArg String.length h
    rw [String.length_append] at hlen
    have h1 : ("missing required dump event field: ").length = 35 := rfl
    have h2 : ("payload must be valid JSON").length = 26 := rfl
    omega
  · split at h
    · rename_i e he
      rw [← he] at h
      unfold checkRequestId at h
      split at h
      · exact absurd h (by simp)
      · split at h
        · exact absurd h (by simp)
        · rw [Except.error.injEq, DecodeErr.msg.injEq] at h
          exact absurd h (by decide)
    · split at h
      · rename_i e he
        rw [← he] at h
        unfold checkIsDd at h
        split at h
        · exact absurd h (by simp)
        · exact absurd h (by simp)
        · rw [Except.error.injEq, DecodeErr.msg.injEq] at h
          exact absurd h (by decide)
      · unfold checkTrace at h
        split at h
        · rw [Except.error.injEq, DecodeErr.msg.injEq] at h
          exact absurd h (by decide)
        · split at h
          · exact absurd h (by simp)
          · exact absurd h (by simp)
          · rw [Except.error.injEq, DecodeErr.msg.injEq] at h
            exact absurd h (by decide)

theorem validateRequiredKeys_hasKey {ms : List (String × Json × String)}
    (h : validateRequiredKeys ms = .ok ()) :
    ∀ k ∈ requiredEventKeys, hasKey ms k = true := by
  unfold validateRequiredKeys at h
  split at h
  · exact absurd h (by simp)
  · rename_i hfm
    exact firstMissing_none hfm

theorem except_map_error {α β : Type} {f : α → β} {x : Except String α} {s : String}
    (h : x.map f = .error s) : x = .error s := by
  cases x <;> simp_all [Except.map]

theorem decInt_error_ne {v : Json} {cur : Int} {s : String} (h : decInt v cur = .error s) :
    s ≠ "payload must be valid JSON" := by
  unfold decInt at h
  repeat' split at h
  all_goals first
    | exact Except.noConfusion h
    | (rw [Except.error.injEq] at h
       rw [← h]
       decide)

theorem decStr_error_ne {v : Json} {cur s : String} (h : decStr v cur = .error s) :
    s ≠ "payload must be valid JSON" := by
  unfold decStr at h
  split at h <;>
    first
      | exact Except.noConfusion h
      | (rw [Except.error.injEq] at h
         rw [← h]
         decide)

theorem decOptStr_error_ne {v : Json} {s : String} (h : decOptStr v = .error s) :
    s ≠ "payload must be valid JSON" := by
  unfold decOptStr at h
  split at h <;>
    first
      | exact Except.noConfusion h
      | (rw [Except.error.injEq] at h
         rw [← h]
         decide)

theorem decOptInt_error_ne {v : Json} {s : String} (h : decOptInt v = .error s) :
    s ≠ "payload must be valid JSON" := by
  unfold decOptInt at h
  split at h
  · exact absurd h (by simp)
  · exact decInt_error_ne (except_map_error h)

theorem decBool_error_ne {v : Json} {cur : Bool} {s : String} (h : decBool v cur = .error s) :
    s ≠ "payload must be valid JSON" := by
  unfold decBool at h
  split at h <;>
    first
      | exact Except.noConfusion h
      | (rw [Except.error.injEq] at h
         rw [← h]
         decide)

theorem decStrElem_error_ne {v : Json} {s : String} (h : decStrElem v = .error s) :
    s ≠ "payload must be valid JSON" := by
  unfold decStrElem at h
  split at h <;>
    first
      | exact Except.noConfusion h
      | (rw [Except.error.injEq] at h
         rw [← h]
         decide)

theorem mapE_error_ne {α β : Type} {f : α → Except String β} {l : List α} {s : String}
    (hf : ∀ a s2, f a = .error s2 → s2 ≠ "payload must be valid JSON")
    (h : mapE f l = .error s) : s ≠ "payload must be valid JSON" := by
  induction l with
  | nil => rw [mapE] at h; exact absurd h (by simp)
  | cons a t ih =>
    rw [mapE] at h
    split at h
    · rename_i e he
      rw [Except.error.injEq] at h
      exact h ▸ hf a e he
    · exact ih (except_map_error h)

theorem decArgs_error_ne {v : Json} {s : String} (h : decArgs v = .error s) :
    s ≠ "payload must be valid JSON" := by
  unfold decArgs at h
  split at h
  · exact absurd h (by simp)
  · exact mapE_error_ne (fun a s2 h2 => decStrElem_error_ne h2) h
  · rw [Except.error.injEq] at h
    rw [← h]
    decide

theorem applyHTTPMember_error_ne {m : HTTPMeta} {kv : String × Json × String} {s : String}
    (h : applyHTTPMember m kv = .error s) : s ≠ "payload must be valid JSON" := by
  unfold applyHTTPMember at h
  repeat' split at h
  all_goals first
    | exact decStr_error_ne (except_map_error h)
    | exact decOptInt_error_ne (except_map_error h)
    | exact Except.noConfusion h

theorem decodeHTTPMembers_error_ne {ms : List (String × Json × String)} {m : HTTPMeta}
    {s : String} (h : decodeHTTPMembers m ms = .error s) :
    s ≠ "payload must be valid JSON" := by
  induction ms generalizing m with
  | nil => rw [decodeHTTPMembers] at h; exact absurd h (by simp)
  | cons kv t ih =>
    rw [decodeHTTPMembers] at h
    split at h
    · exact ih h
    · rename_i e he
      rw [Except.error.injEq] at h
      exact h ▸ applyHTTPMember_error_ne he

theorem decHTTP_error_ne {v : Json} {s : String} (h : decHTTP v = .error s) :
    s ≠ "payload must be valid JSON" := by
  unfold decHTTP at h
  split at h
  · exact absurd h (by simp)
  · exact decodeHTTPMembers_error_ne (except_map_error h)
  · rw [Except.error.injEq] at h
    rw [← h]
    decide

theorem applyCommandMember_error_ne {m : CommandMeta} {kv : String × Json × String} {s : String}
    (h : applyCommandMember m kv = .error s) : s ≠ "payload must be valid JSON" := by
  unfold applyCommandMember at h
  repeat' split at h
  all_goals first
    | exact decStr_error_ne (except_map_error h)
    | exact decArgs_error_ne (except_map_error h)
    | exact Except.noConfusion h

theorem decodeCommandMembers_error_ne {ms : List (String × Json × String)} {m : CommandMeta}
    {s : String} (h : decodeCommandMembers m ms = .error s) :
    s ≠ "payload must be valid JSON" := by
  induction ms generalizing m with
  | nil => rw [decodeCommandMembers] at h; exact absurd h (by simp)
  | cons kv t ih =>
    rw [decodeCommandMembers] at h
    split at h
    · exact ih h
    · rename_i e he
      rw [Except.error.injEq] at h
      exact h ▸ applyCommandMember_error_ne he

theorem decCommand_error_ne {v : Json} {s : String} (h : decCommand v = .error s) :
    s ≠ "payload must be valid JSON" := by
  unfold decCommand at h
  split at h
  · exact absurd h (by simp)
  · exact decodeCommandMembers_error_ne (except_map_error h)
  · rw [Except.error.injEq] at h
    rw [← h]
    decide

theorem applyFrameMember_error_ne {m : TraceFrame} {kv : String × Json × String} {s : String}
    (h : applyFrameMember m kv = .error s) : s ≠ "payload must be valid JSON" := by
  unfold applyFrameMember at h
  repeat' split at h
  all_goals first
    | exact decStr_error_ne (except_map_error h)
    | exact decInt_error_ne (except_map_error h)
    | exact Except.noConfusion h

theorem decodeFrameMembers_error_ne {ms : List (String × Json × String)} {m : TraceFrame}
    {s : String} (h : decodeFrameMembers m ms = .error s) :
    s ≠ "payload must be valid JSON" := by
  induction ms generalizing m with
  | nil => rw [decodeFrameMembers] at h; exact absurd h (by simp)
  | cons kv t ih =>
    rw [decodeFrameMembers] at h
    split at h
    · exact ih h
    · rename_i e he
      rw [Except.error.injEq] at h
      exact h ▸ applyFrameMember_error_ne he

theorem decFrame_error_ne {v : Json} {s : String} (h : decFrame v = .error s) :
    s ≠ "payload must be valid JSON" := by
  unfold decFrame at h
  split at h
  · exact absurd h (by simp)
  · exact decodeFrameMembers_error_ne h
  · rw [Except.error.injEq] at h
    rw [← h]
    decide

theorem decTrace_error_ne {v : Json} {s : String} (h : decTrace v = .error s) :
    s ≠ "payload must be valid JSON" := by
  unfold decTrace at h
  split at h
  · exact absurd h (by simp)
  · exact mapE_error_ne (fun a s2 h2 => decFrame_error_ne h2) h
  · rw [Except.error.injEq] at h
    rw [← h]
    decide

theorem applyHostMember_error_ne {m : HostMeta} {kv : String × Json × String} {s : String}
    (h : applyHostMember m kv = .error s) : s ≠ "payload must be valid JSON" := by
  unfold applyHostMember at h
  repeat' split at h
  all_goals first
    | exact decStr_error_ne (except_map_error h)
    | exact decInt_error_ne (except_map_error h)
    | exact Except.noConfusion h

theorem decodeHostMembers_error_ne {ms : List (String × Json × String)} {m : HostMeta}
    {s : String} (h : decodeHostMembers m ms = .error s) :
    s ≠ "payload must be valid JSON" := by
  induction ms generalizing m with
  | nil => rw [decodeHostMembers] at h; exact absurd h (by simp)
  | cons kv t ih =>
    rw [decodeHostMembers] at h
    split at h
    · exact ih h
    · rename_i e he
      rw [Except.error.injEq] at h
      exact h ▸ applyHostMember_error_ne he

theorem decHost_error_ne {v : Json} {cur : HostMeta} {s : String}
    (h : decHost v cur = .error s) : s ≠ "payload must be valid JSON" := by
  unfold decHost at h
  split at h
  · exact absurd h (by simp)
  · exact decodeHostMembers_error_ne h
  · rw [Except.error.injEq] at h
    rw [← h]
    decide

theorem applyMember_error_ne {e : Event} {kv : String × Json × String} {s : String}
    (h : applyMember e kv = .error s) : s ≠ "payload must be valid JSON" := by
  unfold applyMember at h
  by_cases h1 : nameMatch kv.1 "schemaVersion"
  · rw [if_pos h1] at h
    exact decInt_error_ne (except_map_error h)
  rw [if_neg h1] at h
  by_cases h2 : nameMatch kv.1 "id"
  · rw [if_pos h2] at h
    exact decStr_error_ne (except_map_error h)
  rw [if_neg h2] at h
  by_cases h3 : nameMatch kv.1 "timestamp"
  · rw [if_pos h3] at h
    exact decStr_error_ne (except_map_error h)
  rw [if_neg h3] at h
  by_cases h4 : nameMatch kv.1 "sourceType"
  · rw [if_pos h4] at h
    exact decStr_error_ne (except_map_error h)
  rw [if_neg h4] at h
  by_cases h5 : nameMatch kv.1 "projectRoot"
  · rw [if_pos h5] at h
    exact decStr_error_ne (except_map_error h)
  rw [if_neg h5] at h
  by_cases h6 : nameMatch kv.1 "phpSapi"
  · rw [if_pos h6] at h
    exact decStr_error_ne (except_map_error h)
  rw [if_neg h6] at h
  by_cases h7 : nameMatch kv.1 "requestId"
  · rw [if_pos h7] at h
    exact decOptStr_error_ne (except_map_error h)
  rw [if_neg h7] at h
  by_cases h8 : nameMatch kv.1 "http"
  · rw [if_pos h8] at h
    exact decHTTP_error_ne (except_map_error h)
  rw [if_neg h8] at h
  by_cases h9 : nameMatch kv.1 "command"
  · rw [if_pos h9] at h
    exact decCommand_error_ne (except_map_error h)
  rw [if_neg h9] at h
  by_cases h10 : nameMatch kv.1 "isDd"
  · rw [if_pos h10] at h
    exact decBool_error_ne (except_map_error h)
  rw [if_neg h10] at h
  by_cases h11 : nameMatch kv.1 "payloadFormat"
  · rw [if_pos h11] at h
    exact decStr_error_ne (except_map_error h)
  rw [if_neg h11] at h
  by_cases h12 : nameMatch kv.1 "payload"
  · rw [if_pos h12] at h
    exact absurd h (Except.noConfusion)
  rw [if_neg h12] at h
  by_cases h13 : nameMatch kv.1 "trace"
  · rw [if_pos h13] at h
    exact decTrace_error_ne (except_map_error h)
  rw [if_neg h13] at h
  by_cases h14 : nameMatch kv.1 "host"
  · rw [if_pos h14] at h
    exact decHost_error_ne (except_map_error h)
  rw [if_neg h14] at h
  exact absurd h (Except.noConfusion)

theorem decodeMembers_error_ne {ms : List (String × Json × String)} {e : Event} {s : String}
    (h : decodeMembers e ms = .error s) : s ≠ "payload must be valid JSON" := by
  induction ms generalizing e with
  | nil => rw [decodeMembers] at h; exact absurd h (by simp)
  | cons kv t ih =>
    rw [decodeMembers] at h
    split at h
    · exact ih h
    · rename_i e2 he
      rw [Except.error.injEq] at h
      exact h ▸ applyMember_error_ne he

theorem unmarshalEvent_error_ne {j : Json} {s : String} (h : unmarshalEvent j = .error s) :
    s ≠ "payload must be valid JSON" := by
  unfold unmarshalEvent at h
  split at h
  · exact decodeMembers_error_ne h
  · exact absurd h (by simp)
  · rw [Except.error.injEq] at h
    rw [← h]
    decide

/-! ## The decoded payload is a raw member span -/

theorem except_map_ok {α β : Type} {f : α → β} {x : Except String α} {b : β}
    (h : x.map f = .ok b) : ∃ a, x = .ok a ∧ b = f a := by
  cases x <;> simp_all [Except.map]

theorem applyMember_payload {e e2 : Event} {kv : String × Json × String}
    (h : applyMember e kv = .ok e2) :
    (nameMatch kv.1 "payload" ∧ e2.payload = kv.2.2) ∨
      (¬nameMatch kv.1 "payload" ∧ e2.payload = e.payload) := by
  unfold applyMember at h
  by_cases h1 : nameMatch kv.1 "schemaVersion"
  · rw [if_pos h1] at h
    obtain ⟨a, hx, rfl⟩ := except_map_ok h
    exact Or.inr ⟨fun hm => absurd (h1.symm.trans hm) (by decide), rfl⟩
  rw [if_neg h1] at h
  by_cases h2 : nameMatch kv.1 "id"
  · rw [if_pos h2] at h
    obtain ⟨a, hx, rfl⟩ := except_map_ok h
    exact Or.inr ⟨fun hm => absurd (h2.symm.trans hm) (by decide), rfl⟩
  rw [if_neg h2] at h
  by_cases h3 : nameMatch kv.1 "timestamp"
  · rw [if_pos h3] at h
    obtain ⟨a, hx, rfl⟩ := except_map_ok h
    exact Or.inr ⟨fun hm => absurd (h3.symm.trans hm) (by decide), rfl⟩
  rw [if_neg h3] at h
  by_cases h4 : nameMatch kv.1 "sourceType"
  · rw [if_pos h4] at h
    obtain ⟨a, hx, rfl⟩ := except_map_ok h
    exact Or.inr ⟨fun hm => absurd (h4.symm.trans hm) (by decide), rfl⟩
  rw [if_neg h4] at h
  by_cases h5 : nameMatch kv.1 "projectRoot"
  · rw [if_pos h5] at h
    obtain ⟨a, hx, rfl⟩ := except_map_ok h
    exact Or.inr ⟨fun hm => absurd (h5.symm.trans hm) (by decide), rfl⟩
  rw [if_neg h5] at h
  by_cases h6 : nameMatch kv.1 "phpSapi"
  · rw [if_pos h6] at h
    obtain ⟨a, hx, rfl⟩ := except_map_ok h
    exact Or.inr ⟨fun hm => absurd (h6.symm.trans hm) (by decide), rfl⟩
  rw [if_neg h6] at h
  by_cases h7 : nameMatch kv.1 "requestId"
  · rw [if_pos h7] at h
    obtain ⟨a, hx, rfl⟩ := except_map_ok h
    exact Or.inr ⟨fun hm => absurd (h7.symm.trans hm) (by decide), rfl⟩
  rw [if_neg h7] at h
  by_cases h8 : nameMatch kv.1 "http"
  · rw [if_pos h8] at h
    obtain ⟨a, hx, rfl⟩ := except_map_ok h
    exact Or.inr ⟨fun hm => absurd (h8.symm.trans hm) (by decide), rfl⟩
  rw [if_neg h8] at h
  by_cases h9 : nameMatch kv.1 "command"
  · rw [if_pos h9] at h
    obtain ⟨a, hx, rfl⟩ := except_map_ok h
    exact Or.inr ⟨fun hm => absurd (h9.symm.trans hm) (by decide), rfl⟩
  rw [if_neg h9] at h
  by_cases h10 : nameMatch kv.1 "isDd"
  · rw [if_pos h10] at h
    obtain ⟨a, hx, rfl⟩ := except_map_ok h
    exact Or.inr ⟨fun hm => absurd (h10.symm.trans hm) (by decide), rfl⟩
  rw [if_neg h10] at h
  by_cases h11 : nameMatch kv.1 "payloadFormat"
  · rw [if_pos h11] at h
    obtain ⟨a, hx, rfl⟩ := except_map_ok h
    exact Or.inr ⟨fun hm => absurd (h11.symm.trans hm) (by decide), rfl⟩
  rw [if_neg h11] at h
  by_cases h12 : nameMatch kv.1 "payload"
  · rw [if_pos h12, Except.ok.injEq] at h
    exact Or.inl ⟨h12, by rw [← h]⟩
  rw [if_neg h12] at h
  by_cases h13 : nameMatch kv.1 "trace"
  · rw [if_pos h13] at h
    obtain ⟨a, hx, rfl⟩ := except_map_ok h
    exact Or.inr ⟨fun hm => absurd (h13.symm.trans hm) (by decide), rfl⟩
  rw [if_neg h13] at h
  by_cases h14 : nameMatch kv.1 "host"
  · rw [if_pos h14] at h
    obtain ⟨a, hx, rfl⟩ := except_map_ok h
    exact Or.inr ⟨fun hm => absurd (h14.symm.trans hm) (by decide), rfl⟩
  rw [if_neg h14] at h
  rw [Except.ok.injEq] at h
  exact Or.inr ⟨h12, by rw [← h]⟩

theorem decodeMembers_payload_absent {ms : List (String × Json × String)} {e ev : Event}
    (h : decodeMembers e ms = .ok ev) (hk : hasKeyFold ms "payload" = false) :
    ev.payload = e.payload := by
  induction ms generalizing e with
  | nil =>
    rw [decodeMembers, Except.ok.injEq] at h
    rw [h]
  | cons kv t ih =>
    rw [decodeMembers] at h
    split at h
    · rename_i e3 he
      simp only [hasKeyFold, List.any_cons, Bool.or_eq_false_iff] at hk
      have := ih h (by simp [hasKeyFold, hk.2])
      rcases applyMember_payload he with ⟨hp, _⟩ | ⟨_, hp⟩
      · exact absurd hp (by simpa using hk.1)
      · rw [this, hp]
    · exact absurd h (by simp)

theorem decodeMembers_payload_present {ms : List (String × Json × String)} {e ev : Event}
    (h : decodeMembers e ms = .ok ev) (hk : hasKeyFold ms "payload" = true) :
    ∃ m ∈ ms, nameMatch m.1 "payload" ∧ ev.payload = m.2.2 := by
  induction ms generalizing e with
  | nil => exact absurd hk (by simp [hasKeyFold])
  | cons kv t ih =>
    rw [decodeMembers] at h
    split at h
    · rename_i e3 he
      rcases ht : hasKeyFold t "payload" with _ | _
      · have hkv : nameMatch kv.1 "payload" := by
          simp only [hasKeyFold, List.any_cons, Bool.or_eq_true_iff] at hk
          rcases hk with hk1 | hk2
          · simpa using hk1
          · rw [hasKeyFold] at ht; rw [ht] at hk2; exact absurd hk2 (by simp)
        have hpre := decodeMembers_payload_absent h ht
        rcases applyMember_payload he with ⟨_, hp⟩ | ⟨hne, _⟩
        · exact ⟨kv, by simp, hkv, by rw [hpre, hp]⟩
        · exact absurd hkv hne
      · obtain ⟨m, hm, hmk, hmp⟩ := ih h ht
        exact ⟨m, by simp [hm], hmk, hmp⟩
    · exact absurd h (by simp)

theorem validateEvent_payload {ev : Event} (hjv : jsonValid ev.payload = true) :
    validateEvent ev ≠ .error (.msg "payload must be valid JSON") := by
  intro h
  unfold validateEvent at h
  repeat' split at h
  all_goals first
    | (rename_i hc
       exact absurd hjv hc)
    | (rw [Except.error.injEq] at h
       exact DecodeErr.noConfusion h)
    | (rw [Except.error.injEq, DecodeErr.msg.injEq] at h
       exact absurd h (by decide))
    | exact Except.noConfusion h

/-- C10: `DecodeNDJSONLine` never reports "payload must be valid JSON":
whenever control reaches the final `json.Valid` check, the payload bytes
are a raw member span captured by the successful parse of the whole line,
hence themselves syntactically valid JSON. -/
theorem decode_payload_error_never (line : String) (e : DecodeErr)
    (h : DecodeNDJSONLine line = .error e) :
    e ≠ .msg "payload must be valid JSON" := by
  intro heq
  subst heq
  unfold DecodeNDJSONLine at h
  split at h
  · exact Except.noConfusion h
  rcases hp : parseTop (trimSpace line) with _ | j <;> rw [hp] at h
  · rw [Except.error.injEq, DecodeErr.msg.injEq] at h
    exact absurd h (by decide)
  simp only [] at h
  rcases hraw : rawMembers j with e2 | ms <;> rw [hraw] at h
  · rw [rawMembers_error hraw] at h
    rw [Except.error.injEq, DecodeErr.msg.injEq] at h
    exact absurd h (by decide)
  simp only [] at h
  rcases hk : validateRequiredKeys ms with d | u <;> rw [hk] at h
  · simp only [] at h
    rw [Except.error.injEq] at h
    exact validateRequiredKeys_ne ms (by rw [hk, h])
  cases u
  simp only [] at h
  rcases hu : unmarshalEvent j with e3 | ev <;> rw [hu] at h
  · rw [Except.error.injEq, DecodeErr.msg.injEq] at h
    exact unmarshalEvent_error_ne hu h
  simp only [] at h
  rcases hobj : rawMembers_ok_obj hraw with hjo | ⟨hjn, hmsn⟩
  · subst hjo
    have hpay : hasKeyFold ms "payload" = true := by
      have hx : hasKey ms "payload" = true :=
        validateRequiredKeys_hasKey hk "payload" (by simp [requiredEventKeys])
      unfold hasKey at hx
      rw [List.any_eq_true] at hx
      obtain ⟨m, hm, hbeq⟩ := hx
      unfold hasKeyFold
      rw [List.any_eq_true]
      refine ⟨m, hm, ?_⟩
      rw [decide_eq_true_eq]
      have hmk : m.1 = "payload" := by simpa using hbeq
      rw [hmk]
      rfl
    have hu2 : decodeMembers zeroEvent ms = .ok ev := by
      rw [unmarshalEvent] at hu
      exact hu
    obtain ⟨m, hm, hmk, hmp⟩ := decodeMembers_payload_present hu2 hpay
    have hjv : jsonValid ev.payload = true := by
      rw [hmp]
      exact member_raw_valid hp m hm
    rcases hv : validateEvent ev with d2 | u2 <;> rw [hv] at h
    · simp only [] at h
      rw [Except.error.injEq] at h
      exact validateEvent_payload hjv (by rw [hv, h])
    · exact Except.noConfusion h
  · subst hjn
    subst hmsn
    rw [show validateRequiredKeys [] =
      .error (.msg ("missing required dump event field: " ++ "schemaVersion")) from rfl] at hk
    exact Except.noConfusion hk

theorem decode_payload_error_never_witness :
    DecodeNDJSONLine lineV2 = .error .unsupportedSchemaVersion ∧
      DecodeErr.unsupportedSchemaVersion ≠ .msg "payload must be valid JSON" := by
  have hval : validateEvent (evOf lineV2) = .error .unsupportedSchemaVersion := rfl
  have hdec : DecodeNDJSONLine lineV2 = .error .unsupportedSchemaVersion := by
    rw [@decode_eq_validate lineV2 (jOf lineV2) (msOf lineV2) (evOf lineV2) rfl rfl rfl rfl,
      hval]
  exact ⟨hdec, decode_payload_error_never lineV2 .unsupportedSchemaVersion hdec⟩

/-! ## Range of decoded trace line numbers -/

theorem decInt_ok_bounds {v : Json} {cur n : Int} (h : decInt v cur = .ok n) :
    n = cur ∨ (int64Min ≤ n ∧ n ≤ int64Max) := by
  unfold decInt at h
  split at h
  · split at h
    · split at h
      · rename_i hb
        rw [Except.ok.injEq] at h
        exact Or.inr (h ▸ hb)
      · exact Except.noConfusion h
    · exact Except.noConfusion h
  · rw [Except.ok.injEq] at h
    exact Or.inl h.symm
  · exact Except.noConfusion h

theorem applyFrameMember_line {m m2 : TraceFrame} {kv : String × Json × String}
    (h : applyFrameMember m kv = .ok m2) :
    m2.line = m.line ∨ (int64Min ≤ m2.line ∧ m2.line ≤ int64Max) := by
  unfold applyFrameMember at h
  by_cases h1 : nameMatch kv.1 "file"
  · rw [if_pos h1] at h
    obtain ⟨a, hx, rfl⟩ := except_map_ok h
    exact Or.inl rfl
  rw [if_neg h1] at h
  by_cases h2 : nameMatch kv.1 "line"
  · rw [if_pos h2] at h
    obtain ⟨a, hx, rfl⟩ := except_map_ok h
    rcases decInt_ok_bounds hx with hcur | hb
    · exact Or.inl (by simpa using hcur)
    · exact Or.inr (by simpa using hb)
  rw [if_neg h2] at h
  by_cases h3 : nameMatch kv.1 "func"
  · rw [if_pos h3] at h
    obtain ⟨a, hx, rfl⟩ := except_map_ok h
    exact Or.inl rfl
  rw [if_neg h3] at h
  rw [Except.ok.injEq] at h
  exact Or.inl (by rw [← h])

theorem decodeFrameMembers_line {ms : List (String × Json × String)} {m m2 : TraceFrame}
    (h : decodeFrameMembers m ms = .ok m2)
    (hm : int64Min ≤ m.line ∧ m.line ≤ int64Max) :
    int64Min ≤ m2.line ∧ m2.line ≤ int64Max := by
  induction ms generalizing m with
  | nil =>
    rw [decodeFrameMembers, Except.ok.injEq] at h
    exact h ▸ hm
  | cons kv t ih =>
    rw [decodeFrameMembers] at h
    split at h
    · rename_i m3 ha
      refine ih h ?_
      rcases applyFrameMember_line ha with he | hb
      · rw [he]
        exact hm
      · exact hb
    · exact Except.noConfusion h

theorem decFrame_line {v : Json} {fr : TraceFrame} (h : decFrame v = .ok fr) :
    int64Min ≤ fr.line ∧ fr.line ≤ int64Max := by
  unfold decFrame at h
  split at h
  · rw [Except.ok.injEq] at h
    rw [← h]
    decide
  · exact decodeFrameMembers_line h (by decide)
  · exact Except.noConfusion h

theorem mapE_mem {α β : Type} {f : α → Except String β} {l : List α} {bs : List β}
    (h : mapE f l = .ok bs) : ∀ b ∈ bs, ∃ a ∈ l, f a = .ok b := by
  induction l generalizing bs with
  | nil =>
    rw [mapE, Except.ok.injEq] at h
    subst h
    intro b hb
    exact absurd hb (by simp)
  | cons a t ih =>
    rw [mapE] at h
    split at h
    · exact Except.noConfusion h
    · rename_i b0 hb0
      obtain ⟨bs0, hbs0, rfl⟩ := except_map_ok h
      intro b hb
      rcases List.mem_cons.mp hb with rfl | hb2
      · exact ⟨a, by simp, hb0⟩
      · obtain ⟨a2, ha2, hfa2⟩ := ih hbs0 b hb2
        exact ⟨a2, by simp [ha2], hfa2⟩

theorem decTrace_lines {v : Json} {trs : List TraceFrame} (h : decTrace v = .ok trs) :
    ∀ fr ∈ trs, int64Min ≤ fr.line ∧ fr.line ≤ int64Max := by
  unfold decTrace at h
  split at h
  · rw [Except.ok.injEq] at h
    rw [← h]
    intro fr hfr
    exact absurd hfr (by simp)
  · intro fr hfr
    obtain ⟨a, ha, hfa⟩ := mapE_mem h fr hfr
    exact decFrame_line hfa
  · exact Except.noConfusion h

theorem applyMember_trace {e e2 : Event} {kv : String × Json × String}
    (h : applyMember e kv = .ok e2) :
    e2.trace = e.trace ∨
      ∀ fr ∈ e2.trace, int64Min ≤ fr.line ∧ fr.line ≤ int64Max := by
  unfold applyMember at h
  by_cases h1 : nameMatch kv.1 "schemaVersion"
  · rw [if_pos h1] at h
    obtain ⟨a, hx, rfl⟩ := except_map_ok h
    exact Or.inl rfl
  rw [if_neg h1] at h
  by_cases h2 : nameMatch kv.1 "id"
  · rw [if_pos h2] at h
    obtain ⟨a, hx, rfl⟩ := except_map_ok h
    exact Or.inl rfl
  rw [if_neg h2] at h
  by_cases h3 : nameMatch kv.1 "timestamp"
  · rw [if_pos h3] at h
    obtain ⟨a, hx, rfl⟩ := except_map_ok h
    exact Or.inl rfl
  rw [if_neg h3] at h
  by_cases h4 : nameMatch kv.1 "sourceType"
  · rw [if_pos h4] at h
    obtain ⟨a, hx, rfl⟩ := except_map_ok h
    exact Or.inl rfl
  rw [if_neg h4] at h
  by_cases h5 : nameMatch kv.1 "projectRoot"
  · rw [if_pos h5] at h
    obtain ⟨a, hx, rfl⟩ := except_map_ok h
    exact Or.inl rfl
  rw [if_neg h5] at h
  by_cases h6 : nameMatch kv.1 "phpSapi"
  · rw [if_pos h6] at h
    obtain ⟨a, hx, rfl⟩ := except_map_ok h
    exact Or.inl rfl
  rw [if_neg h6] at h
  by_cases h7 : nameMatch kv.1 "requestId"
  · rw [if_pos h7] at h
    obtain ⟨a, hx, rfl⟩ := except_map_ok h
    exact Or.inl rfl
  rw [if_neg h7] at h
  by_cases h8 : nameMatch kv.1 "http"
  · rw [if_pos h8] at h
    obtain ⟨a, hx, rfl⟩ := except_map_ok h
    exact Or.inl rfl
  rw [if_neg h8] at h
  by_cases h9 : nameMatch kv.1 "command"
  · rw [if_pos h9] at h
    obtain ⟨a, hx, rfl⟩ := except_map_ok h
    exact Or.inl rfl
  rw [if_neg h9] at h
  by_cases h10 : nameMatch kv.1 "isDd"
  · rw [if_pos h10] at h
    obtain ⟨a, hx, rfl⟩ := except_map_ok h
    exact Or.inl rfl
  rw [if_neg h10] at h
  by_cases h11 : nameMatch kv.1 "payloadFormat"
  · rw [if_pos h11] at h
    obtain ⟨a, hx, rfl⟩ := except_map_ok h
    exact Or.inl rfl
  rw [if_neg h11] at h
  by_cases h12 : nameMatch kv.1 "payload"
  · rw [if_pos h12, Except.ok.injEq] at h
    exact Or.inl (by rw [← h])
  rw [if_neg h12] at h
  by_cases h13 : nameMatch kv.1 "trace"
  · rw [if_pos h13] at h
    obtain ⟨a, hx, rfl⟩ := except_map_ok h
    refine Or.inr ?_
    intro fr hfr
    exact decTrace_lines hx fr (by simpa using hfr)
  rw [if_neg h13] at h
  by_cases h14 : nameMatch kv.1 "host"
  · rw [if_pos h14] at h
    obtain ⟨a, hx, rfl⟩ := except_map_ok h
    exact Or.inl rfl
  rw [if_neg h14] at h
  rw [Except.ok.injEq] at h
  exact Or.inl (by rw [← h])

theorem decodeMembers_trace {ms : List (String × Json × String)} {e ev : Event}
    (h : decodeMembers e ms = .ok ev)
    (he : ∀ fr ∈ e.trace, int64Min ≤ fr.line ∧ fr.line ≤ int64Max) :
    ∀ fr ∈ ev.trace, int64Min ≤ fr.line ∧ fr.line ≤ int64Max := by
  induction ms generalizing e with
  | nil =>
    rw [decodeMembers, Except.ok.injEq] at h
    subst h
    exact he
  | cons kv t ih =>
    rw [decodeMembers] at h
    split at h
    · rename_i e3 ha
      refine ih h ?_
      rcases applyMember_trace ha with heq | hb
      · rw [heq]
        exact he
      · exact hb
    · exact Except.noConfusion h

theorem decode_ok_unmarshal {line : String} {ev : Event}
    (h : DecodeNDJSONLine line = .ok (some ev)) :
    ∃ j, parseTop (trimSpace line) = some j ∧ unmarshalEvent j = .ok ev := by
  unfold DecodeNDJSONLine at h
  split at h
  · exact absurd h (by simp)
  split at h
  · exact absurd h (by simp)
  rename_i j hj
  split at h
  · exact absurd h (by simp)
  split at h
  · exact absurd h (by simp)
  split at h
  · exact absurd h (by simp)
  rename_i ev2 hev
  split at h
  · exact absurd h (by simp)
  rw [Except.ok.injEq, Option.some.injEq] at h
  subst h
  exact ⟨j, hj, hev⟩

/-- C8 (amended): every trace frame of a decoded event carries a `line` in
the signed 64-bit integer range — the decoder enforces that range (via the
integer unmarshal) but no positivity. -/
theorem decode_trace_line_int64 (line : String) (ev : Event)
    (h : DecodeNDJSONLine line = .ok (some ev)) :
    ∀ fr ∈ ev.trace, int64Min ≤ fr.line ∧ fr.line ≤ int64Max := by
  obtain ⟨j, hj, hu⟩ := decode_ok_unmarshal h
  unfold unmarshalEvent at hu
  split at hu
  · refine decodeMembers_trace hu ?_
    intro fr hfr
    exact absurd hfr (by simp [zeroEvent])
  · rw [Except.ok.injEq] at hu
    rw [← hu]
    intro fr hfr
    exact absurd hfr (by simp [zeroEvent])
  · exact Except.noConfusion hu

theorem decode_trace_line_int64_witness :
    DecodeNDJSONLine lineCliBoth = .ok (some (evOf lineCliBoth)) ∧
      ∀ fr ∈ (evOf lineCliBoth).trace, int64Min ≤ fr.line ∧ fr.line ≤ int64Max := by
  have hdec : DecodeNDJSONLine lineCliBoth = .ok (some (evOf lineCliBoth)) :=
    decode_eq_ok rfl rfl rfl rfl rfl
  exact ⟨hdec, decode_trace_line_int64 lineCliBoth (evOf lineCliBoth) hdec⟩

/-- C9 (counterexample): `eventPayloadWs` is built purely from valid field
values per the §3 data model — its payload `"1 "` is non-empty, valid JSON
under `json.Valid` — yet serializing and decoding it yields an event whose
payload is the re-captured exact span `"1"`, not the original `"1 "`: the
round-trip is not the identity. -/
theorem encode_roundtrip_counterexample :
    (eventPayloadWs.schemaVersion = SchemaVersion ∧
     eventPayloadWs.id ≠ "" ∧
     tsNormalized eventPayloadWs.timestamp = true ∧
     eventPayloadWs.sourceType = "cli" ∧
     eventPayloadWs.projectRoot ≠ "" ∧
     eventPayloadWs.phpSapi ≠ "" ∧
     eventPayloadWs.payloadFormat = "json" ∧
     eventPayloadWs.payload ≠ "" ∧
     jsonValid eventPayloadWs.payload = true ∧
     validCommandSub eventPayloadWs.command = true ∧
     eventPayloadWs.trace = [] ∧
     eventPayloadWs.host.hostname ≠ "" ∧ 0 < eventPayloadWs.host.pid) ∧
    DecodeNDJSONLine (encodeEvent eventPayloadWs) =
      .ok (some (evOf (encodeEvent eventPayloadWs))) ∧
    evOf (encodeEvent eventPayloadWs) ≠ eventPayloadWs :=
  ⟨by decide, decode_eq_ok rfl rfl rfl rfl rfl, by decide⟩

/-! ## The serializer round-trips: strings -/

theorem hexVal_hexDigitLower : ∀ n < 16, hexVal (hexDigitLower n) = some n := by decide

theorem scalarOfHex_small {n : Nat} (h : n < 0x20) : scalarOfHex n = Char.ofNat n := by
  unfold scalarOfHex isHighSur isLowSur
  have h1 : (0xD800 ≤ n) = False := by simp; omega
  have h2 : (0xDC00 ≤ n) = False := by simp; omega
  simp [h1, h2]

theorem hex4_ctrl {n : Nat} (h : n < 0x20) :
    hex4 '0' '0' (hexDigitLower (n / 16)) (hexDigitLower (n % 16)) = some n := by
  have hd : n / 16 < 16 := by omega
  have hm : n % 16 < 16 := by omega
  unfold hex4
  rw [show hexVal '0' = some 0 from rfl]
  rw [hexVal_hexDigitLower _ hd, hexVal_hexDigitLower _ hm]
  simp only [Option.bind_eq_bind, Option.some_bind, Option.pure_def, Option.some.injEq]
  omega

theorem parseStrAux_esc_quote (x : List Char) :
    parseStrAux ('\\' :: '"' :: x) =
      (parseStrAux x).map fun (content, consumed, rest) =>
        ('"' :: content, '\\' :: '"' :: consumed, rest) := rfl

theorem parseStrAux_esc_backslash (x : List Char) :
    parseStrAux ('\\' :: '\\' :: x) =
      (parseStrAux x).map fun (content, consumed, rest) =>
        ('\\' :: content, '\\' :: '\\' :: consumed, rest) := rfl

theorem parseStrAux_u (a b c d : Char) (x : List Char) :
    parseStrAux ('\\' :: 'u' :: a :: b :: c :: d :: x) =
      (hex4 a b c d).bind fun n =>
        (parseStrAux x).map fun (content, consumed, rest) =>
          (scalarOfHex n :: content, '\\' :: 'u' :: a :: b :: c :: d :: consumed, rest) := rfl

theorem parseStrAux_plain (c : Char) (x : List Char)
    (h1 : c ≠ '"') (h2 : c ≠ '\\') (h3 : ¬ c.toNat < 0x20) :
    parseStrAux (c :: x) =
      (parseStrAux x).map fun (content, consumed, rest) =>
        (c :: content, c :: consumed, rest) := by
  rw [parseStrAux]
  · rw [if_neg h3]
  · exact h1
  · intro a b c2 d r hc
    exact absurd hc h2
  · intro e r hc
    exact absurd hc h2

theorem parseStrAux_encStr : ∀ (cs r : List Char),
    parseStrAux (cs.flatMap escChar ++ '"' :: r) =
      some (cs, cs.flatMap escChar ++ ['"'], r) := by
  intro cs
  induction cs with
  | nil =>
    intro r
    simp [parseStrAux]
  | cons c t ih =>
    intro r
    show parseStrAux ((escChar c ++ t.flatMap escChar) ++ '"' :: r) = _
    rw [List.append_assoc]
    by_cases h1 : c = '"'
    · subst h1
      rw [show escChar '"' = ['\\', '"'] from rfl]
      show parseStrAux ('\\' :: '"' :: (t.flatMap escChar ++ '"' :: r)) = _
      rw [parseStrAux_esc_quote, ih r]
      simp [List.flatMap_cons, escChar]
    · by_cases h2 : c = '\\'
      · subst h2
        rw [show escChar '\\' = ['\\', '\\'] from rfl]
        show parseStrAux ('\\' :: '\\' :: (t.flatMap escChar ++ '"' :: r)) = _
        rw [parseStrAux_esc_backslash, ih r]
        simp [List.flatMap_cons, escChar]
      · by_cases h3 : c.toNat < 0x20
        · have hesc : escChar c = ['\\', 'u', '0', '0', hexDigitLower (c.toNat / 16),
              hexDigitLower (c.toNat % 16)] := by
            unfold escChar
            rw [if_neg h1, if_neg h2, if_pos h3]
          rw [hesc]
          show parseStrAux ('\\' :: 'u' :: '0' :: '0' :: hexDigitLower (c.toNat / 16) ::
            hexDigitLower (c.toNat % 16) :: (t.flatMap escChar ++ '"' :: r)) = _
          rw [parseStrAux_u, hex4_ctrl h3]
          simp only [Option.some_bind]
          rw [ih r]
          simp only [Option.map_some']
          rw [scalarOfHex_small h3, Char.ofNat_toNat]
          simp [List.flatMap_cons, hesc]
        · have hesc : escChar c = [c] := by
            unfold escChar
            rw [if_neg h1, if_neg h2, if_neg h3]
          rw [hesc]
          show parseStrAux (c :: (t.flatMap escChar ++ '"' :: r)) = _
          rw [parseStrAux_plain c _ h1 h2 h3, ih r]
          simp [List.flatMap_cons, hesc]

/-! ## The serializer round-trips: integers -/

theorem digitChar_isDigit : ∀ n < 10, (digitChar n).isDigit = true := by decide

theorem digitChar_eq_zero : ∀ n < 10, digitChar n = '0' → n = 0 := by decide

theorem digitVal_digitChar : ∀ n < 10, digitVal (digitChar n) = n := by decide

theorem digitsToNat_append (xs : List Char) (c : Char) :
    digitsToNat (xs ++ [c]) = digitsToNat xs * 10 + digitVal c := by
  unfold digitsToNat digitVal
  rw [List.foldl_append]
  rfl

theorem natDigitsAux_spec : ∀ f n, n < f → ∃ ds,
    (∀ acc2, natDigitsAux f n acc2 = ds ++ acc2) ∧ ds ≠ [] ∧
    (∀ c ∈ ds, c.isDigit = true) ∧
    (ds.head? = some '0' → n = 0) ∧ (n = 0 → ds = ['0']) ∧
    digitsToNat ds = n := by
  intro f
  induction f with
  | zero =>
    intro n hn
    exact absurd hn (by omega)
  | succ f ih =>
    intro n hn
    by_cases h10 : n < 10
    · refine ⟨[digitChar n], ?_, by simp, ?_, ?_, ?_, ?_⟩
      · intro acc2
        rw [natDigitsAux, if_pos h10]
        rfl
      · intro c hc
        rw [List.mem_singleton] at hc
        subst hc
        exact digitChar_isDigit n h10
      · intro hh
        simp only [List.head?_cons, Option.some.injEq] at hh
        exact digitChar_eq_zero n h10 hh
      · intro h0
        rw [h0]
        rfl
      · show digitsToNat ([] ++ [digitChar n]) = n
        rw [digitsToNat_append]
        have : digitsToNat [] = 0 := rfl
        rw [this, digitVal_digitChar n h10]
        omega
    · have hrec : n / 10 < f := by omega
      obtain ⟨ds2, haux, hne, hdig, hhead, hzero, hval⟩ := ih (n / 10) hrec
      refine ⟨ds2 ++ [digitChar (n % 10)], ?_, by simp, ?_, ?_, ?_, ?_⟩
      · intro acc2
        rw [natDigitsAux, if_neg h10, haux (digitChar (n % 10) :: acc2)]
        simp
      · intro c hc
        rcases List.mem_append.mp hc with hc1 | hc2
        · exact hdig c hc1
        · rw [List.mem_singleton] at hc2
          subst hc2
          exact digitChar_isDigit _ (by omega)
      · intro hh
        rcases ds2 with _ | ⟨d0, dt⟩
        · exact absurd rfl hne
        · simp only [List.cons_append, List.head?_cons, Option.some.injEq] at hh
          have h00 := hhead (by simp [hh])
          omega
      · intro h0
        omega
      · rw [digitsToNat_append, hval, digitVal_digitChar _ (by omega)]
        omega

theorem natDigits_spec (n : Nat) :
    natDigits n ≠ [] ∧ (∀ c ∈ natDigits n, c.isDigit = true) ∧
    ((natDigits n).head? = some '0' → n = 0) ∧ (n = 0 → natDigits n = ['0']) ∧
    digitsToNat (natDigits n) = n := by
  obtain ⟨ds, haux, hne, hdig, hhead, hzero, hval⟩ := natDigitsAux_spec (n + 1) n (by omega)
  unfold natDigits
  rw [show natDigitsAux (n + 1) n [] = ds ++ [] from haux [], List.append_nil]
  exact ⟨hne, hdig, hhead, hzero, hval⟩

theorem natDigits_hz (k : Nat) :
    ((natDigits k).head? = some '0' && (natDigits k).length != 1) = false := by
  by_cases hh : (natDigits k).head? = some '0'
  · have h0 := (natDigits_spec k).2.2.1 hh
    subst h0
    decide
  · simp [hh]

theorem parseNumBody_natDigits (sgn : List Char) (k : Nat) (y : List Char)
    (hy : numDelim y = true) :
    parseNumBody sgn (natDigits k ++ y) = some (sgn ++ natDigits k, y) := by
  have h := parseNumBody_ext sgn (natDigits k) [] [] y (natDigits_spec k).1
    (natDigits_spec k).2.1 (natDigits_hz k) (Or.inl rfl) (Or.inl rfl) hy
  simpa using h

theorem parseNumTok_natDigits (k : Nat) (y : List Char) (hy : numDelim y = true) :
    parseNumTok (natDigits k ++ y) = some (natDigits k, y) := by
  obtain ⟨d0, dt, hds⟩ : ∃ d0 dt, natDigits k = d0 :: dt := by
    rcases hd : natDigits k with _ | ⟨d0, dt⟩
    · exact absurd hd (natDigits_spec k).1
    · exact ⟨d0, dt, rfl⟩
  have hd0 : d0.isDigit = true := (natDigits_spec k).2.1 d0 (by rw [hds]; simp)
  have hd0m : d0 ≠ '-' := by
    intro hcon
    rw [hcon] at hd0
    exact absurd hd0 (by decide)
  rw [hds, List.cons_append, parseNumTok.eq_def]
  split
  · rename_i heq
    rw [List.cons.injEq] at heq
    exact absurd heq.1 hd0m
  · have := parseNumBody_natDigits [] k y hy
    rw [hds, List.cons_append] at this
    simpa [hds] using this

theorem parseNumTok_intChars (i : Int) (y : List Char) (hy : numDelim y = true) :
    parseNumTok (intChars i ++ y) = some (intChars i, y) := by
  unfold intChars
  by_cases hi : i < 0
  · rw [if_pos hi]
    show parseNumTok ('-' :: (natDigits i.natAbs ++ y)) = _
    rw [parseNumTok]
    exact parseNumBody_natDigits ['-'] i.natAbs y hy
  · rw [if_neg hi]
    simpa using parseNumTok_natDigits i.natAbs y hy

theorem parseVal_intChars (f : Nat) (i : Int) (y : List Char) (hy : numDelim y = true) :
    parseVal (f + 1) (intChars i ++ y) =
      some (.num (String.mk (intChars i)), intChars i, y) := by
  have hnt := parseNumTok_intChars i y hy
  by_cases hi : i < 0
  · have hic : intChars i = '-' :: natDigits i.natAbs := by
      unfold intChars
      rw [if_pos hi]
      rfl
    rw [hic] at hnt ⊢
    rw [List.cons_append]
    exact parseVal_num_eq f '-' (natDigits i.natAbs ++ y) _ y (by decide)
      (by rw [← List.cons_append]; exact hnt)
  · obtain ⟨d0, dt, hds⟩ : ∃ d0 dt, natDigits i.natAbs = d0 :: dt := by
      rcases hd : natDigits i.natAbs with _ | ⟨d0, dt⟩
      · exact absurd hd (natDigits_spec i.natAbs).1
      · exact ⟨d0, dt, rfl⟩
    have hic : intChars i = d0 :: dt := by
      unfold intChars
      rw [if_neg hi, hds]
      rfl
    have hd0 : d0.isDigit = true := (natDigits_spec i.natAbs).2.1 d0 (by rw [hds]; simp)
    rw [hic] at hnt ⊢
    rw [List.cons_append]
    exact parseVal_num_eq f d0 (dt ++ y) _ y (by simp [hd0])
      (by rw [← List.cons_append]; exact hnt)

theorem parseIntLit_intChars (i : Int) :
    parseIntLit (String.mk (intChars i)) = some i := by
  have hall : (natDigits i.natAbs).all Char.isDigit = true := by
    rw [List.all_eq_true]
    exact fun c hc => (natDigits_spec i.natAbs).2.1 c hc
  by_cases hi : i < 0
  · have hic : (String.mk (intChars i)).data = '-' :: natDigits i.natAbs := by
      show intChars i = _
      unfold intChars
      rw [if_pos hi]
      rfl
    unfold parseIntLit
    rw [hic]
    simp only []
    rw [if_pos ⟨(natDigits_spec i.natAbs).1, hall⟩]
    rw [(natDigits_spec i.natAbs).2.2.2.2]
    congr 1
    omega
  · obtain ⟨d0, dt, hds⟩ : ∃ d0 dt, natDigits i.natAbs = d0 :: dt := by
      rcases hd : natDigits i.natAbs with _ | ⟨d0, dt⟩
      · exact absurd hd (natDigits_spec i.natAbs).1
      · exact ⟨d0, dt, rfl⟩
    have hd0 : d0.isDigit = true := (natDigits_spec i.natAbs).2.1 d0 (by rw [hds]; simp)
    have hd0m : d0 ≠ '-' := by
      intro hcon
      rw [hcon] at hd0
      exact absurd hd0 (by decide)
    have hic : (String.mk (intChars i)).data = natDigits i.natAbs := by
      show intChars i = _
      unfold intChars
      rw [if_neg hi]
      rfl
    unfold parseIntLit
    rw [hic, hds]
    split
    · rename_i heq
      rw [List.cons.injEq] at heq
      exact absurd heq.1 hd0m
    · rw [if_pos ⟨by simp, by rw [← hds]; exact hall⟩]
      rw [← hds, (natDigits_spec i.natAbs).2.2.2.2]
      congr 1
      omega

theorem decInt_intChars (i : Int) (cur : Int) (hin : inInt64 i) :
    decInt (.num (String.mk (intChars i))) cur = .ok i := by
  unfold decInt
  simp only []
  rw [parseIntLit_intChars]
  simp only []
  rw [if_pos (⟨hin.1, hin.2⟩ : int64Min ≤ i ∧ i ≤ int64Max)]

/-! ## The serializer round-trips: values and member runs -/

theorem span_head_false {p : Char → Bool} {d : Char} (t : List Char) (hd : p d = false) :
    (d :: t).span p = ([], d :: t) := by
  rw [List.span_eq_take_drop]
  simp [List.takeWhile_cons, List.dropWhile_cons, hd]

theorem parseVal_encStr (f : Nat) (s : String) (r : List Char) :
    parseVal (f + 1) (encStr s ++ r) = some (.str s, encStr s, r) := by
  have harg : encStr s ++ r = '"' :: (s.data.flatMap escChar ++ '"' :: r) := by
    unfold encStr
    simp
  rw [harg]
  exact parseVal_str_eq f _ s.data _ r (parseStrAux_encStr s.data r)

theorem ParsesVal_encStr (s : String) : ParsesVal (encStr s) (.str s) :=
  fun r2 _ => ⟨1, parseVal_encStr 0 s r2⟩

theorem ParsesVal_intChars (i : Int) :
    ParsesVal (intChars i) (.num (String.mk (intChars i))) :=
  fun r2 h2 => ⟨1, parseVal_intChars 0 i r2 h2⟩

theorem ParsesVal_null : ParsesVal ['n', 'u', 'l', 'l'] .null :=
  fun r2 _ => ⟨1, parseVal_null_eq 0 r2⟩

theorem ParsesVal_encBool (b : Bool) : ParsesVal (encBool b) (.bool b) := by
  cases b
  · exact fun r2 _ => ⟨1, parseVal_false_eq 0 r2⟩
  · exact fun r2 _ => ⟨1, parseVal_true_eq 0 r2⟩

/-- A `jsonExact` payload parses exactly as some JSON value. -/
theorem ParsesVal_payload (s : String) (h : jsonExact s = true) :
    ∃ v, ParsesVal s.data v := by
  unfold jsonExact at h
  rcases hv : parseVal (s.data.length + 1) s.data with _ | ⟨⟨v, c, r⟩⟩ <;> rw [hv] at h
  · exact absurd h (by simp)
  simp only [] at h
  rw [Bool.and_eq_true, beq_iff_eq, beq_iff_eq] at h
  obtain ⟨rfl, rfl⟩ := h
  refine ⟨v, fun r2 hr2 => ?_⟩
  obtain ⟨-, -, -, hext⟩ := (parser_sound_ext _).1 _ _ _ _ hv
  exact ⟨s.data.length + 1, hext r2 hr2⟩

/-! ## The serializer round-trips: member and element runs -/

theorem parseMembers_encRun :
    ∀ (ps : List (String × List Char × Json)) (p : String × List Char × Json),
      ParsesVal p.2.1 p.2.2 → (∀ q ∈ ps, ParsesVal q.2.1 q.2.2) →
      ∀ r2 : List Char, ∃ f,
        parseMembers f ((memberEnc p ++ runTail ps) ++ '\x7d' :: r2) =
          some ((p :: ps).map (fun q => (q.1, q.2.2, String.mk q.2.1)),
            (memberEnc p ++ runTail ps) ++ ['\x7d'], r2) := by
  intro ps
  induction ps with
  | nil =>
    intro p hp _ r2
    obtain ⟨fv, hfv⟩ := hp ('\x7d' :: r2) rfl
    obtain ⟨-, ⟨d, t, hdt, hds⟩, -, -⟩ := (parser_sound_ext fv).1 _ _ _ _ hfv
    have hfv2 := (parser_fuel fv).1 _ _ _ _ hfv (p.2.1.length + 1) (by omega)
    have hspv : (p.2.1 ++ '\x7d' :: r2).span isJsonWs = ([], p.2.1 ++ '\x7d' :: r2) := by
      rw [hdt]
      exact span_head_false _ (isValStart_not_ws hds)
    have harg : (memberEnc p ++ runTail []) ++ '\x7d' :: r2 =
        '"' :: (p.1.data.flatMap escChar ++ '"' :: (':' :: (p.2.1 ++ '\x7d' :: r2))) := by
      simp [memberEnc, runTail, encStr]
    refine ⟨p.2.1.length + 2, ?_⟩
    rw [harg]
    have hlast := parseMembers_last_eq (p.2.1.length + 1)
      (p.1.data.flatMap escChar ++ '"' :: (':' :: (p.2.1 ++ '\x7d' :: r2)))
      p.1.data (p.1.data.flatMap escChar ++ ['"']) (':' :: (p.2.1 ++ '\x7d' :: r2))
      [] (p.2.1 ++ '\x7d' :: r2) [] (p.2.1 ++ '\x7d' :: r2) p.2.1 ('\x7d' :: r2) [] r2 p.2.2
      (parseStrAux_encStr p.1.data _)
      (span_head_false _ (by decide))
      hspv
      hfv2
      (span_head_false _ (by decide))
    simpa [memberEnc, runTail, encStr] using hlast
  | cons q qs ih =>
    intro p hp hqs r2
    obtain ⟨fm, hfm⟩ := ih q (hqs q (by simp)) (fun x hx => hqs x (by simp [hx])) r2
    obtain ⟨fv, hfv⟩ := hp (',' :: ((memberEnc q ++ runTail qs) ++ '\x7d' :: r2)) rfl
    obtain ⟨-, ⟨d, t, hdt, hds⟩, -, -⟩ := (parser_sound_ext fv).1 _ _ _ _ hfv
    obtain ⟨tq, htq⟩ : ∃ tq, (memberEnc q ++ runTail qs) ++ '\x7d' :: r2 = '"' :: tq := by
      obtain ⟨k2, venc2, v2⟩ := q
      exact ⟨_, rfl⟩
    have hfv2 := (parser_fuel fv).1 _ _ _ _ hfv
      (p.2.1.length + ((memberEnc q ++ runTail qs) ++ ['\x7d']).length + 2) (by omega)
    have hfm2 := (parser_fuel fm).2.2 _ _ _ _ hfm
      (p.2.1.length + ((memberEnc q ++ runTail qs) ++ ['\x7d']).length + 2) (by omega)
    have hspv : (p.2.1 ++ ',' :: ((memberEnc q ++ runTail qs) ++ '\x7d' :: r2)).span isJsonWs =
        ([], p.2.1 ++ ',' :: ((memberEnc q ++ runTail qs) ++ '\x7d' :: r2)) := by
      rw [hdt]
      exact span_head_false _ (isValStart_not_ws hds)
    have hspq : ((memberEnc q ++ runTail qs) ++ '\x7d' :: r2).span isJsonWs =
        ([], (memberEnc q ++ runTail qs) ++ '\x7d' :: r2) := by
      rw [htq]
      exact span_head_false _ (by decide)
    have harg : (memberEnc p ++ runTail (q :: qs)) ++ '\x7d' :: r2 =
        '"' :: (p.1.data.flatMap escChar ++ '"' :: (':' :: (p.2.1 ++
          ',' :: ((memberEnc q ++ runTail qs) ++ '\x7d' :: r2)))) := by
      simp [memberEnc, runTail, encStr]
    refine ⟨p.2.1.length + ((memberEnc q ++ runTail qs) ++ ['\x7d']).length + 3, ?_⟩
    rw [harg]
    have hcons := parseMembers_cons_eq
      (p.2.1.length + ((memberEnc q ++ runTail qs) ++ ['\x7d']).length + 2)
      (p.1.data.flatMap escChar ++ '"' :: (':' :: (p.2.1 ++
        ',' :: ((memberEnc q ++ runTail qs) ++ '\x7d' :: r2))))
      p.1.data (p.1.data.flatMap escChar ++ ['"'])
      (':' :: (p.2.1 ++ ',' :: ((memberEnc q ++ runTail qs) ++ '\x7d' :: r2)))
      [] (p.2.1 ++ ',' :: ((memberEnc q ++ runTail qs) ++ '\x7d' :: r2))
      [] (p.2.1 ++ ',' :: ((memberEnc q ++ runTail qs) ++ '\x7d' :: r2))
      p.2.1 (',' :: ((memberEnc q ++ runTail qs) ++ '\x7d' :: r2))
      [] ((memberEnc q ++ runTail qs) ++ '\x7d' :: r2)
      [] ((memberEnc q ++ runTail qs) ++ '\x7d' :: r2)
      ((memberEnc q ++ runTail qs) ++ ['\x7d']) r2 p.2.2
      ((q :: qs).map (fun x => (x.1, x.2.2, String.mk x.2.1)))
      (parseStrAux_encStr p.1.data _)
      (span_head_false _ (by decide))
      hspv
      hfv2
      (span_head_false _ (by decide))
      hspq
      hfm2
    simpa [memberEnc, runTail, encStr] using hcons

theorem parseElems_encRun :
    ∀ (ps : List (List Char × Json)) (p : List Char × Json),
      ParsesVal p.1 p.2 → (∀ q ∈ ps, ParsesVal q.1 q.2) →
      ∀ r2 : List Char, ∃ f,
        parseElems f ((p.1 ++ elemsTail ps) ++ ']' :: r2) =
          some ((p :: ps).map (·.2), (p.1 ++ elemsTail ps) ++ [']'], r2) := by
  intro ps
  induction ps with
  | nil =>
    intro p hp _ r2
    obtain ⟨fv, hfv⟩ := hp (']' :: r2) rfl
    have hfv2 := (parser_fuel fv).1 _ _ _ _ hfv (p.1.length + 1) (by omega)
    refine ⟨p.1.length + 2, ?_⟩
    have harg : (p.1 ++ elemsTail []) ++ ']' :: r2 = p.1 ++ ']' :: r2 := by
      simp [elemsTail]
    rw [harg]
    have hlast := parseElems_last_eq (p.1.length + 1) (p.1 ++ ']' :: r2)
      p.1 (']' :: r2) [] r2 p.2 hfv2 (span_head_false _ (by decide))
    simpa [elemsTail] using hlast
  | cons q qs ih =>
    intro p hp hqs r2
    obtain ⟨fm, hfm⟩ := ih q (hqs q (by simp)) (fun x hx => hqs x (by simp [hx])) r2
    obtain ⟨fv, hfv⟩ := hp (',' :: ((q.1 ++ elemsTail qs) ++ ']' :: r2)) rfl
    obtain ⟨fq0, hfq0⟩ := hqs q (by simp) [] rfl
    obtain ⟨-, ⟨d, t, hdt, hds⟩, -, -⟩ := (parser_sound_ext fq0).1 _ _ _ _ hfq0
    have hdt2 : q.1 = d :: t := by simpa using hdt
    have hfv2 := (parser_fuel fv).1 _ _ _ _ hfv
      (p.1.length + ((q.1 ++ elemsTail qs) ++ [']']).length + 2) (by omega)
    have hfm2 := (parser_fuel fm).2.1 _ _ _ _ hfm
      (p.1.length + ((q.1 ++ elemsTail qs) ++ [']']).length + 2) (by omega)
    have hspq : ((q.1 ++ elemsTail qs) ++ ']' :: r2).span isJsonWs =
        ([], (q.1 ++ elemsTail qs) ++ ']' :: r2) := by
      rw [hdt2]
      exact span_head_false _ (isValStart_not_ws hds)
    have harg : (p.1 ++ elemsTail (q :: qs)) ++ ']' :: r2 =
        p.1 ++ ',' :: ((q.1 ++ elemsTail qs) ++ ']' :: r2) := by
      simp [elemsTail]
    refine ⟨p.1.length + ((q.1 ++ elemsTail qs) ++ [']']).length + 3, ?_⟩
    rw [harg]
    have hcons := parseElems_cons_eq
      (p.1.length + ((q.1 ++ elemsTail qs) ++ [']']).length + 2)
      (p.1 ++ ',' :: ((q.1 ++ elemsTail qs) ++ ']' :: r2))
      p.1 (',' :: ((q.1 ++ elemsTail qs) ++ ']' :: r2))
      [] ((q.1 ++ elemsTail qs) ++ ']' :: r2)
      [] ((q.1 ++ elemsTail qs) ++ ']' :: r2)
      ((q.1 ++ elemsTail qs) ++ [']']) r2 p.2 ((q :: qs).map (·.2))
      hfv2 (span_head_false _ (by decide)) hspq hfm2
    simpa [elemsTail] using hcons

/-- An encoded non-empty object parses as its member list. -/
theorem ParsesVal_obj (p : String × List Char × Json)
    (ps : List (String × List Char × Json))
    (hp : ParsesVal p.2.1 p.2.2) (hqs : ∀ q ∈ ps, ParsesVal q.2.1 q.2.2) :
    ParsesVal ('\x7b' :: ((memberEnc p ++ runTail ps) ++ ['\x7d']))
      (.obj ((p :: ps).map (fun q => (q.1, q.2.2, String.mk q.2.1)))) := by
  intro r2 hr2
  obtain ⟨fm, hfm⟩ := parseMembers_encRun ps p hp hqs r2
  obtain ⟨tq, htq⟩ : ∃ tq, (memberEnc p ++ runTail ps) ++ '\x7d' :: r2 = '"' :: tq := by
    obtain ⟨k2, venc2, v2⟩ := p
    exact ⟨_, rfl⟩
  refine ⟨fm + 1, ?_⟩
  have harg : ('\x7b' :: ((memberEnc p ++ runTail ps) ++ ['\x7d'])) ++ r2 =
      '\x7b' :: ((memberEnc p ++ runTail ps) ++ '\x7d' :: r2) := by
    simp
  rw [harg]
  have hobj := parseVal_obj_members_eq fm ((memberEnc p ++ runTail ps) ++ '\x7d' :: r2)
    [] ((memberEnc p ++ runTail ps) ++ '\x7d' :: r2)
    ((memberEnc p ++ runTail ps) ++ ['\x7d']) r2
    ((p :: ps).map (fun q => (q.1, q.2.2, String.mk q.2.1)))
    (by rw [htq]; exact span_head_false _ (by decide))
    (by intro z hz; rw [htq] at hz; rw [List.cons.injEq] at hz; exact absurd hz.1 (by decide))
    hfm
  simpa using hobj

/-- The empty-object text parses as the empty object. -/
theorem ParsesVal_objEmpty : ParsesVal ['\x7b', '\x7d'] (.obj []) := by
  intro r2 hr2
  refine ⟨1, ?_⟩
  have harg : (['\x7b', '\x7d'] : List Char) ++ r2 = '\x7b' :: ('\x7d' :: r2) := rfl
  rw [harg]
  have hobj := parseVal_obj_empty_eq 0 ('\x7d' :: r2) [] r2
    (span_head_false _ (by decide))
  simpa using hobj

/-- An encoded non-empty array parses as its element list. -/
theorem ParsesVal_arr (p : List Char × Json) (ps : List (List Char × Json))
    (hp : ParsesVal p.1 p.2) (hqs : ∀ q ∈ ps, ParsesVal q.1 q.2) :
    ParsesVal ('[' :: ((p.1 ++ elemsTail ps) ++ [']'])) (.arr ((p :: ps).map (·.2))) := by
  intro r2 hr2
  obtain ⟨fe, hfe⟩ := parseElems_encRun ps p hp hqs r2
  obtain ⟨fp0, hfp0⟩ := hp [] rfl
  obtain ⟨-, ⟨d, t, hdt, hds⟩, -, -⟩ := (parser_sound_ext fp0).1 _ _ _ _ hfp0
  have hdt2 : p.1 = d :: t := by simpa using hdt
  refine ⟨fe + 1, ?_⟩
  have harg : ('[' :: ((p.1 ++ elemsTail ps) ++ [']'])) ++ r2 =
      '[' :: ((p.1 ++ elemsTail ps) ++ ']' :: r2) := by
    simp
  rw [harg]
  have harr := parseVal_arr_elems_eq fe ((p.1 ++ elemsTail ps) ++ ']' :: r2)
    [] ((p.1 ++ elemsTail ps) ++ ']' :: r2)
    ((p.1 ++ elemsTail ps) ++ [']']) r2 ((p :: ps).map (·.2))
    (by rw [hdt2]; exact span_head_false _ (isValStart_not_ws hds))
    (by
      intro z hz
      rw [hdt2] at hz
      rw [List.cons_append, List.cons_append, List.cons.injEq] at hz
      rw [hz.1] at hds
      exact absurd hds (by decide))
    hfe
  simpa using harr

/-- The empty-array text parses as the empty array. -/
theorem ParsesVal_arrEmpty : ParsesVal ['[', ']'] (.arr []) := by
  intro r2 hr2
  refine ⟨1, ?_⟩
  have harg : (['[', ']'] : List Char) ++ r2 = '[' :: (']' :: r2) := rfl
  rw [harg]
  have harr := parseVal_arr_empty_eq 0 (']' :: r2) [] r2
    (span_head_false _ (by decide))
  simpa using harr

/-! ## Bridges between the serializer text and the piece lists -/

theorem runTail_append (xs ys : List (String × List Char × Json)) :
    runTail (xs ++ ys) = runTail xs ++ runTail ys := by
  induction xs with
  | nil => simp [runTail]
  | cons p ps ih => simp [runTail, ih]

theorem encStrListAux_elemsTail (xs : List String) :
    encStrListAux xs = elemsTail (argPieces xs) := by
  induction xs with
  | nil => rfl
  | cons x t ih => simp [encStrListAux, argPieces, elemsTail, ih]

theorem encStrList_bridge (xs : List String) :
    encStrList xs = '[' :: (elemsOf (argPieces xs) ++ [']']) := by
  cases xs with
  | nil => rfl
  | cons x t => simp [encStrList, argPieces, elemsOf, encStrListAux_elemsTail]

theorem joinComma_runOf (L : List (String × List Char × Json)) :
    joinComma (L.map memberEnc) = runOf L := by
  cases L with
  | nil => rfl
  | cons p ps =>
    induction ps generalizing p with
    | nil => simp [joinComma, runOf, runTail]
    | cons q qs ih =>
      show joinComma (memberEnc p :: memberEnc q :: qs.map memberEnc) = _
      rw [joinComma]
      · rw [show joinComma (memberEnc q :: qs.map memberEnc) =
            joinComma ((q :: qs).map memberEnc) from rfl, ih q]
        simp [runOf, runTail]
      · intro hcon
        exact absurd hcon (by simp)

theorem encHTTP_bridge (h : HTTPMeta) :
    encHTTP h = '\x7b' :: (runOf (httpPieces h) ++ ['\x7d']) := by
  rcases hsc : h.statusCode with _ | sc <;>
    by_cases hq : h.query = "" <;>
    by_cases hip : h.clientIp = "" <;>
    by_cases hua : h.userAgent = "" <;>
    simp [encHTTP, httpPieces, runOf, runTail, runTail_append, memberEnc, encMember,
      hsc, hq, hip, hua]

theorem encCommand_bridge (c : CommandMeta) :
    encCommand c = '\x7b' :: (runOf (commandPieces c) ++ ['\x7d']) := by
  by_cases ha : c.args = [] <;> by_cases hc : c.cwd = "" <;>
    simp [encCommand, commandPieces, runOf, runTail, runTail_append, memberEnc, encMember,
      ha, hc]

theorem encFrame_bridge (f : TraceFrame) :
    encFrame f = '\x7b' :: (runOf (framePieces f) ++ ['\x7d']) := by
  by_cases hf : f.file = "" <;> by_cases hl : f.line = 0 <;> by_cases hfn : f.func = "" <;>
    simp [encFrame, framePieces, joinComma_runOf, runOf, runTail, runTail_append,
      memberEnc, encMember, hf, hl, hfn, ← joinComma_runOf, joinComma]

theorem encFramesAux_elemsTail (fs : List TraceFrame) :
    encFramesAux fs = elemsTail (fs.map fun f => (encFrame f, frameVal f)) := by
  induction fs with
  | nil => rfl
  | cons f t ih => simp [encFramesAux, elemsTail, ih]

theorem encFrames_bridge (fs : List TraceFrame) :
    encFrames fs = '[' :: (elemsOf (fs.map fun f => (encFrame f, frameVal f)) ++ [']']) := by
  cases fs with
  | nil => rfl
  | cons f t => simp [encFrames, elemsOf, encFramesAux_elemsTail]

theorem encHost_bridge (h : HostMeta) :
    encHost h = '\x7b' :: (runOf (hostPieces h) ++ ['\x7d']) := by
  simp [encHost, hostPieces, runOf, runTail, memberEnc, encMember]

theorem encodeEvent_bridge (e : Event) :
    (encodeEvent e).data = '\x7b' :: (runOf (topPieces e) ++ ['\x7d']) := by
  show '\x7b' :: _ = _
  rcases hh : e.http with _ | h <;> rcases hc : e.command with _ | c <;>
    rcases hr : e.requestId with _ | rid <;>
    simp [encodeEvent, topPieces, runOf, runTail, runTail_append, memberEnc, encMember,
      reqIdEnc, reqIdVal, hh, hc, hr]

/-! ## Every encoded piece parses -/

theorem mem_ite_nil {α : Type} {c : Prop} [Decidable c] {x q : α}
    (h : q ∈ (if c then ([] : List α) else [x])) : q = x := by
  split at h
  · exact absurd h (by simp)
  · simpa using h

theorem ParsesVal_runObj (L : List (String × List Char × Json))
    (hL : ∀ q ∈ L, ParsesVal q.2.1 q.2.2) :
    ParsesVal ('\x7b' :: (runOf L ++ ['\x7d'])) (.obj (L.map pieceMember)) := by
  cases L with
  | nil => exact ParsesVal_objEmpty
  | cons p ps => exact ParsesVal_obj p ps (hL p (by simp)) (fun q hq => hL q (by simp [hq]))

theorem ParsesVal_runArr (L : List (List Char × Json))
    (hL : ∀ q ∈ L, ParsesVal q.1 q.2) :
    ParsesVal ('[' :: (elemsOf L ++ [']'])) (.arr (L.map (·.2))) := by
  cases L with
  | nil => exact ParsesVal_arrEmpty
  | cons p ps => exact ParsesVal_arr p ps (hL p (by simp)) (fun q hq => hL q (by simp [hq]))

theorem httpPieces_ok (h : HTTPMeta) : ∀ q ∈ httpPieces h, ParsesVal q.2.1 q.2.2 := by
  intro q hq
  unfold httpPieces at hq
  rcases List.mem_append.mp hq with hq | hq
  · rcases List.mem_append.mp hq with hq | hq
    · rcases List.mem_append.mp hq with hq | hq
      · rcases List.mem_append.mp hq with hq | hq
        · simp only [List.mem_cons, List.not_mem_nil, or_false] at hq
          rcases hq with rfl | rfl | rfl | rfl
          · exact ParsesVal_encStr _
          · exact ParsesVal_encStr _
          · exact ParsesVal_encStr _
          · exact ParsesVal_encStr _
        · obtain rfl := mem_ite_nil hq
          exact ParsesVal_encStr _
      · rcases hsc : h.statusCode with _ | sc <;> rw [hsc] at hq
        · exact absurd hq (by simp)
        · rw [List.mem_singleton] at hq
          subst hq
          exact ParsesVal_intChars sc
    · obtain rfl := mem_ite_nil hq
      exact ParsesVal_encStr _
  · obtain rfl := mem_ite_nil hq
    exact ParsesVal_encStr _

theorem argPieces_ok (xs : List String) : ∀ q ∈ argPieces xs, ParsesVal q.1 q.2 := by
  induction xs with
  | nil => intro q hq; exact absurd hq (by simp [argPieces])
  | cons x t ih =>
    intro q hq
    rw [argPieces, List.mem_cons] at hq
    rcases hq with rfl | hq
    · exact ParsesVal_encStr x
    · exact ih q hq

theorem argPieces_vals (xs : List String) : (argPieces xs).map (·.2) = xs.map Json.str := by
  induction xs with
  | nil => rfl
  | cons x t ih => simp [argPieces, ih]

theorem ParsesVal_encStrList (xs : List String) :
    ParsesVal (encStrList xs) (.arr (xs.map Json.str)) := by
  rw [encStrList_bridge, ← argPieces_vals]
  exact ParsesVal_runArr (argPieces xs) (argPieces_ok xs)

theorem commandPieces_ok (c : CommandMeta) :
    ∀ q ∈ commandPieces c, ParsesVal q.2.1 q.2.2 := by
  intro q hq
  unfold commandPieces at hq
  rcases List.mem_append.mp hq with hq | hq
  · rcases List.mem_append.mp hq with hq | hq
    · rw [List.mem_singleton] at hq
      subst hq
      exact ParsesVal_encStr _
    · obtain rfl := mem_ite_nil hq
      exact ParsesVal_encStrList c.args
  · obtain rfl := mem_ite_nil hq
    exact ParsesVal_encStr _

theorem ParsesVal_encCommand (c : CommandMeta) :
    ParsesVal (encCommand c) (.obj ((commandPieces c).map pieceMember)) := by
  rw [encCommand_bridge]
  exact ParsesVal_runObj _ (commandPieces_ok c)

theorem ParsesVal_encHTTP (h : HTTPMeta) :
    ParsesVal (encHTTP h) (.obj ((httpPieces h).map pieceMember)) := by
  rw [encHTTP_bridge]
  exact ParsesVal_runObj _ (httpPieces_ok h)

theorem framePieces_ok (f : TraceFrame) : ∀ q ∈ framePieces f, ParsesVal q.2.1 q.2.2 := by
  intro q hq
  unfold framePieces at hq
  rcases List.mem_append.mp hq with hq | hq
  · rcases List.mem_append.mp hq with hq | hq
    · obtain rfl := mem_ite_nil hq
      exact ParsesVal_encStr _
    · obtain rfl := mem_ite_nil hq
      exact ParsesVal_intChars _
  · obtain rfl := mem_ite_nil hq
    exact ParsesVal_encStr _

theorem ParsesVal_encFrame (f : TraceFrame) : ParsesVal (encFrame f) (frameVal f) := by
  rw [encFrame_bridge]
  exact ParsesVal_runObj _ (framePieces_ok f)

theorem ParsesVal_encFrames (fs : List TraceFrame) :
    ParsesVal (encFrames fs) (.arr (fs.map frameVal)) := by
  rw [encFrames_bridge]
  have hmap : fs.map frameVal = (fs.map fun f => (encFrame f, frameVal f)).map (·.2) := by
    simp
  rw [hmap]
  refine ParsesVal_runArr _ ?_
  intro q hq
  rw [List.mem_map] at hq
  obtain ⟨f, hf, rfl⟩ := hq
  exact ParsesVal_encFrame f

theorem hostPieces_ok (h : HostMeta) : ∀ q ∈ hostPieces h, ParsesVal q.2.1 q.2.2 := by
  intro q hq
  unfold hostPieces at hq
  simp only [List.mem_cons, List.not_mem_nil, or_false] at hq
  rcases hq with rfl | rfl
  · exact ParsesVal_encStr _
  · exact ParsesVal_intChars _

theorem ParsesVal_encHost (h : HostMeta) :
    ParsesVal (encHost h) (.obj ((hostPieces h).map pieceMember)) := by
  rw [encHost_bridge]
  exact ParsesVal_runObj _ (hostPieces_ok h)

theorem ParsesVal_reqId (r : Option String) : ParsesVal (reqIdEnc r) (reqIdVal r) := by
  cases r with
  | none => exact ParsesVal_null
  | some s => exact ParsesVal_encStr s

theorem ParsesVal_payloadVal (s : String) (h : jsonExact s = true) :
    ParsesVal s.data (payloadValOf s) := by
  unfold jsonExact at h
  rcases hv : parseVal (s.data.length + 1) s.data with _ | ⟨⟨v, c, r⟩⟩ <;> rw [hv] at h
  · exact absurd h (by simp)
  simp only [] at h
  rw [Bool.and_eq_true, beq_iff_eq, beq_iff_eq] at h
  obtain ⟨rfl, rfl⟩ := h
  have hval : payloadValOf s = v := by
    unfold payloadValOf
    obtain ⟨-, ⟨d, t, hdt, hds⟩, -, -⟩ := (parser_sound_ext _).1 _ _ _ _ hv
    rw [parseTop_of_exact v s.data _ d t hv hdt (isValStart_not_ws hds)]
    rfl
  rw [hval]
  intro r2 hr2
  obtain ⟨-, -, -, hext⟩ := (parser_sound_ext _).1 _ _ _ _ hv
  exact ⟨s.data.length + 1, hext r2 hr2⟩

theorem topPieces_ok (e : Event) (hpay : jsonExact e.payload = true) :
    ∀ q ∈ topPieces e, ParsesVal q.2.1 q.2.2 := by
  intro q hq
  unfold topPieces at hq
  rcases List.mem_append.mp hq with hq | hq
  · rcases List.mem_append.mp hq with hq | hq
    · rcases List.mem_append.mp hq with hq | hq
      · simp only [List.mem_cons, List.not_mem_nil, or_false] at hq
        rcases hq with rfl | rfl | rfl | rfl | rfl | rfl | rfl
        · exact ParsesVal_intChars _
        · exact ParsesVal_encStr _
        · exact ParsesVal_encStr _
        · exact ParsesVal_encStr _
        · exact ParsesVal_encStr _
        · exact ParsesVal_encStr _
        · exact ParsesVal_reqId _
      · rcases hh : e.http with _ | h2 <;> rw [hh] at hq
        · exact absurd hq (by simp)
        · rw [List.mem_singleton] at hq
          subst hq
          exact ParsesVal_encHTTP h2
    · rcases hc : e.command with _ | c2 <;> rw [hc] at hq
      · exact absurd hq (by simp)
      · rw [List.mem_singleton] at hq
        subst hq
        exact ParsesVal_encCommand c2
  · simp only [List.mem_cons, List.not_mem_nil, or_false] at hq
    rcases hq with rfl | rfl | rfl | rfl | rfl
    · exact ParsesVal_encBool _
    · exact ParsesVal_encStr _
    · exact ParsesVal_payloadVal _ hpay
    · exact ParsesVal_encFrames _
    · exact ParsesVal_encHost _

/-! ## The decoded pieces rebuild the original structures -/

theorem decodeHTTPMembers_append (xs ys : List (String × Json × String)) (m : HTTPMeta) :
    decodeHTTPMembers m (xs ++ ys) =
      (decodeHTTPMembers m xs).bind fun m2 => decodeHTTPMembers m2 ys := by
  induction xs generalizing m with
  | nil => simp [decodeHTTPMembers, Except.bind]
  | cons kv t ih =>
    rw [List.cons_append, decodeHTTPMembers, decodeHTTPMembers]
    rcases applyHTTPMember m kv with e | m2
    · simp [Except.bind]
    · simp only []
      exact ih m2

theorem decodeCommandMembers_append (xs ys : List (String × Json × String)) (m : CommandMeta) :
    decodeCommandMembers m (xs ++ ys) =
      (decodeCommandMembers m xs).bind fun m2 => decodeCommandMembers m2 ys := by
  induction xs generalizing m with
  | nil => simp [decodeCommandMembers, Except.bind]
  | cons kv t ih =>
    rw [List.cons_append, decodeCommandMembers, decodeCommandMembers]
    rcases applyCommandMember m kv with e | m2
    · simp [Except.bind]
    · simp only []
      exact ih m2

theorem decodeFrameMembers_append (xs ys : List (String × Json × String)) (m : TraceFrame) :
    decodeFrameMembers m (xs ++ ys) =
      (decodeFrameMembers m xs).bind fun m2 => decodeFrameMembers m2 ys := by
  induction xs generalizing m with
  | nil => simp [decodeFrameMembers, Except.bind]
  | cons kv t ih =>
    rw [List.cons_append, decodeFrameMembers, decodeFrameMembers]
    rcases applyFrameMember m kv with e | m2
    · simp [Except.bind]
    · simp only []
      exact ih m2

theorem decodeMembers_append (xs ys : List (String × Json × String)) (e : Event) :
    decodeMembers e (xs ++ ys) =
      (decodeMembers e xs).bind fun e2 => decodeMembers e2 ys := by
  induction xs generalizing e with
  | nil => simp [decodeMembers, Except.bind]
  | cons kv t ih =>
    rw [List.cons_append, decodeMembers, decodeMembers]
    rcases applyMember e kv with e2 | e2
    · simp [Except.bind]
    · simp only []
      exact ih e2

theorem decodeHTTP_pieces (h : HTTPMeta) (hsc : statusCodeInRange (some h) = true) :
    decodeHTTPMembers zeroHTTP ((httpPieces h).map pieceMember) = .ok h := by
  obtain ⟨m1, m2, m3, m4, m5, m6, m7, m8⟩ := h
  unfold httpPieces
  rcases m6 with _ | sc
  · by_cases hq : m5 = "" <;> by_cases hip : m7 = "" <;> by_cases hua : m8 = "" <;>
      simp +decide [hq, hip, hua, pieceMember, decodeHTTPMembers, decodeHTTPMembers_append,
        applyHTTPMember, decStr, zeroHTTP, Except.bind, Except.map]
  · have hin : inInt64 sc := by
      simp only [statusCodeInRange] at hsc
      exact of_decide_eq_true hsc
    have hdec : decOptInt (.num (String.mk (intChars sc))) = .ok (some sc) := by
      unfold decOptInt
      simp only []
      rw [decInt_intChars sc 0 hin]
      rfl
    by_cases hq : m5 = "" <;> by_cases hip : m7 = "" <;> by_cases hua : m8 = "" <;>
      simp +decide [hq, hip, hua, pieceMember, decodeHTTPMembers, decodeHTTPMembers_append,
        applyHTTPMember, decStr, hdec, zeroHTTP, Except.bind, Except.map]

theorem mapE_decStrElem (xs : List String) :
    mapE decStrElem (xs.map Json.str) = .ok xs := by
  induction xs with
  | nil => rfl
  | cons x t ih => simp [mapE, decStrElem, ih, Except.map]

theorem decodeCommand_pieces (c : CommandMeta) :
    decodeCommandMembers zeroCommand ((commandPieces c).map pieceMember) = .ok c := by
  obtain ⟨m1, m2, m3⟩ := c
  unfold commandPieces
  by_cases ha : m2 = [] <;> by_cases hc : m3 = "" <;>
    simp +decide [ha, hc, pieceMember, decodeCommandMembers, decodeCommandMembers_append,
      applyCommandMember, decStr, decArgs, mapE_decStrElem, zeroCommand, Except.bind,
      Except.map]

theorem decodeFrame_pieces (f : TraceFrame) (hline : inInt64 f.line) :
    decodeFrameMembers zeroFrame ((framePieces f).map pieceMember) = .ok f := by
  obtain ⟨m1, m2, m3⟩ := f
  unfold framePieces
  have hdec : ∀ cur, decInt (.num (String.mk (intChars m2))) cur = .ok m2 :=
    fun cur => decInt_intChars m2 cur hline
  by_cases hf : m1 = "" <;> by_cases hl : m2 = 0 <;> by_cases hfn : m3 = "" <;>
    simp +decide [hf, hl, hfn, pieceMember, decodeFrameMembers, decodeFrameMembers_append,
      applyFrameMember, decStr, hdec, zeroFrame, Except.bind, Except.map]

theorem decTrace_pieces (fs : List TraceFrame) (hls : ∀ f ∈ fs, inInt64 f.line) :
    decTrace (.arr (fs.map frameVal)) = .ok fs := by
  unfold decTrace
  simp only []
  induction fs with
  | nil => rfl
  | cons f t ih =>
    have hdf : decFrame (frameVal f) = .ok f := by
      unfold decFrame frameVal
      simp only []
      exact decodeFrame_pieces f (hls f (by simp))
    simp only [List.map_cons, mapE, hdf]
    rw [ih (fun x hx => hls x (by simp [hx]))]
    rfl

theorem decodeHost_pieces (h : HostMeta) (hpid : inInt64 h.pid) (cur : HostMeta) :
    decodeHostMembers cur ((hostPieces h).map pieceMember) = .ok h := by
  obtain ⟨hn, pid⟩ := h
  have hdec : ∀ cur2, decInt (.num (String.mk (intChars pid))) cur2 = .ok pid :=
    fun cur2 => decInt_intChars pid cur2 hpid
  simp +decide [hostPieces, pieceMember, decodeHostMembers, applyHostMember, decStr, hdec, Except.map]

/-- The typed unmarshal of the serialized member list is the original
event. -/
theorem unmarshal_topPieces (e : Event) (hvr : ValidEventRecord e) :
    decodeMembers zeroEvent ((topPieces e).map pieceMember) = .ok e := by
  obtain ⟨sv, id0, ts, st, pr, sapi, rid, http0, cmd0, dd, pf, pl, tr, ho⟩ := e
  obtain ⟨hv1, hid, hts, hsrc, hpr, hps, hpf, hpay, hhttp, hcmd, hsc, htr, hhn, hpid1,
    hpid2⟩ := hvr
  simp only [] at hv1 hpay hsc htr hpid1 hpid2
  have hdecSv : decInt (.num (String.mk (intChars sv))) 0 = .ok sv := by
    rw [hv1]
    rfl
  have hdecRid : decOptStr (reqIdVal rid) = .ok rid := by cases rid <;> rfl
  have hdecTr : decTrace (.arr (tr.map frameVal)) = .ok tr := decTrace_pieces tr htr
  have hpid1b : 0 < ho.pid := hpid1
  have hpid2b : ho.pid ≤ int64Max := hpid2
  have hpidIn : inInt64 ho.pid := by
    constructor
    · have h0 : int64Min ≤ 0 := by decide
      omega
    · exact hpid2b
  have hdecHo : ∀ cur, decodeHostMembers cur ((hostPieces ho).map pieceMember) = .ok ho :=
    fun cur => decodeHost_pieces ho hpidIn cur
  rcases http0 with _ | h0 <;> rcases cmd0 with _ | c0
  · simp +decide [topPieces, pieceMember, decodeMembers, decodeMembers_append, applyMember,
      decStr, decBool, decHTTP, decCommand, decHost, zeroEvent,
      hdecSv, hdecRid, hdecTr, hdecHo, Except.bind, Except.map, List.map_append]
  · have hdecC := decodeCommand_pieces c0
    simp +decide [topPieces, pieceMember, decodeMembers, decodeMembers_append, applyMember,
      decStr, decBool, decHTTP, decCommand, decHost, zeroEvent,
      hdecSv, hdecRid, hdecTr, hdecHo, Except.bind, Except.map, List.map_append] <;> simp [hdecC]
  · have hdecH := decodeHTTP_pieces h0 (by simpa using hsc)
    simp +decide [topPieces, pieceMember, decodeMembers, decodeMembers_append, applyMember,
      decStr, decBool, decHTTP, decCommand, decHost, zeroEvent,
      hdecSv, hdecRid, hdecTr, hdecHo, Except.bind, Except.map, List.map_append] <;> simp [hdecH]
  · have hdecH := decodeHTTP_pieces h0 (by simpa using hsc)
    have hdecC := decodeCommand_pieces c0
    simp +decide [topPieces, pieceMember, decodeMembers, decodeMembers_append, applyMember,
      decStr, decBool, decHTTP, decCommand, decHost, zeroEvent,
      hdecSv, hdecRid, hdecTr, hdecHo, Except.bind, Except.map, List.map_append] <;> simp [hdecH, hdecC]

/-! ## The encoded line passes every validation stage -/

theorem trimSpace_encodeEvent (e : Event) :
    trimSpace (encodeEvent e) = (encodeEvent e).data := by
  unfold trimSpace
  rw [encodeEvent_bridge]
  have h1 : List.dropWhile isGoSpace ('\x7b' :: (runOf (topPieces e) ++ ['\x7d'])) =
      '\x7b' :: (runOf (topPieces e) ++ ['\x7d']) := by
    rw [List.dropWhile_cons, if_neg (by decide)]
  rw [h1]
  have h2 : ('\x7b' :: (runOf (topPieces e) ++ ['\x7d'])).reverse =
      '\x7d' :: ((runOf (topPieces e)).reverse ++ ['\x7b']) := by
    simp
  rw [h2, List.dropWhile_cons, if_neg (by decide), ← h2, List.reverse_reverse]

theorem parseTop_encodeEvent (e : Event) (hpay : jsonExact e.payload = true) :
    parseTop (encodeEvent e).data = some (.obj ((topPieces e).map pieceMember)) := by
  have hP := ParsesVal_runObj (topPieces e) (topPieces_ok e hpay)
  obtain ⟨f, hf⟩ := hP [] rfl
  have hf2 : parseVal f ('\x7b' :: (runOf (topPieces e) ++ ['\x7d'])) =
      some (.obj ((topPieces e).map pieceMember),
        '\x7b' :: (runOf (topPieces e) ++ ['\x7d']), []) := by
    simpa using hf
  rw [encodeEvent_bridge]
  exact parseTop_of_exact _ _ f '\x7b' _ hf2 rfl (by decide)

theorem null_raw_eq : String.mk ['n', 'u', 'l', 'l'] = "null" := rfl

theorem encStr_ne_null (s : String) : String.mk (encStr s) ≠ "null" := by
  intro h
  have h2 := congrArg String.data h
  rw [show ("null" : String).data = ['n', 'u', 'l', 'l'] from rfl] at h2
  unfold encStr at h2
  rw [List.cons.injEq] at h2
  exact absurd h2.1 (by decide)

theorem trace_raw_ne_null (fs : List TraceFrame) : String.mk (encFrames fs) ≠ "null" := by
  intro h
  have h2 := congrArg String.data h
  rw [show ("null" : String).data = ['n', 'u', 'l', 'l'] from rfl] at h2
  rw [encFrames_bridge] at h2
  rw [List.cons.injEq] at h2
  exact absurd h2.1 (by decide)

theorem validateKeys_topPieces (e : Event) :
    validateRequiredKeys ((topPieces e).map pieceMember) = .ok () := by
  obtain ⟨sv, id0, ts, st, pr, sapi, rid, http0, cmd0, dd, pf, pl, tr, ho⟩ := e
  rcases rid with _ | rs <;> rcases http0 with _ | h0 <;> rcases cmd0 with _ | c0 <;>
    simp [topPieces, pieceMember, validateRequiredKeys, firstMissing, requiredEventKeys,
      hasKey, getRaw, lookupLast, checkRequestId, checkIsDd, checkTrace, reqIdVal, reqIdEnc,
      null_raw_eq, encStr_ne_null, trace_raw_ne_null]

theorem tsNormalized_ne_empty {s : String} (h : tsNormalized s = true) : s ≠ "" := by
  intro hcon
  subst hcon
  exact absurd h (by decide)

theorem jsonExact_ne_empty {s : String} (h : jsonExact s = true) : ¬s.length = 0 := by
  intro hcon
  have hdata : s.data = [] := List.length_eq_zero.mp hcon
  unfold jsonExact at h
  rw [hdata] at h
  rw [show parseVal (List.length [] + 1) [] = none from rfl] at h
  exact absurd h (by simp)

theorem jsonExact_imp_valid {s : String} (h : jsonExact s = true) : jsonValid s = true := by
  unfold jsonExact at h
  rcases hv : parseVal (s.data.length + 1) s.data with _ | ⟨⟨v, c, r⟩⟩ <;> rw [hv] at h
  · exact absurd h (by simp)
  simp only [] at h
  rw [Bool.and_eq_true, beq_iff_eq, beq_iff_eq] at h
  obtain ⟨rfl, rfl⟩ := h
  obtain ⟨-, ⟨d, t, hdt, hds⟩, -, -⟩ := (parser_sound_ext _).1 _ _ _ _ hv
  unfold jsonValid
  rw [parseTop_of_exact v s.data _ d t hv hdt (isValStart_not_ws hds)]
  rfl

theorem validateEvent_ok (e : Event) (h : ValidEventRecord e) : validateEvent e = .ok () := by
  obtain ⟨hv1, hid, hts, hsrc, hpr, hps, hpf, hpay, hhttp, hcmd, hsc, htr, hhn, hpid1,
    hpid2⟩ := h
  unfold validateEvent
  rw [if_neg (by simp [hv1])]
  rw [if_neg (by
    have hst : e.sourceType ≠ "" := by
      rcases hsrc with hx | hx | hx | hx <;> rw [hx] <;> decide
    have hpfne : e.payloadFormat ≠ "" := by rw [hpf]; decide
    simp only [not_or]
    exact ⟨hid, tsNormalized_ne_empty hts, hst, hpr, hps, hpfne, jsonExact_ne_empty hpay⟩)]
  rw [if_neg (by
    simp [hhn]
    omega)]
  unfold tsNormalized at hts
  rcases ht : timeParseRFC3339Nano e.timestamp with _ | t <;> rw [ht] at hts
  · exact absurd hts (by simp)
  simp only [] at hts
  rw [beq_iff_eq] at hts
  simp only []
  rw [if_neg (fun hc => hc hts)]
  rw [if_neg (not_not_intro hsrc)]
  rw [if_neg (fun hc => hc hpf)]
  by_cases hs2 : e.sourceType = "http"
  · rw [if_pos hs2]
    have hsub := hhttp hs2
    rcases hh : e.http with _ | hm <;> rw [hh] at hsub
    · exact absurd hsub (by simp [validHTTPSub])
    simp only []
    unfold validHTTPSub at hsub
    simp only [Bool.and_eq_true, bne_iff_ne] at hsub
    rw [if_neg (by
      simp only [not_or]
      exact ⟨hsub.1.1.1, hsub.1.1.2, hsub.1.2, hsub.2⟩)]
    rw [if_neg (not_not_intro (jsonExact_imp_valid hpay))]
  · rw [if_neg hs2]
    have hsub := hcmd hs2
    rcases hc : e.command with _ | cm <;> rw [hc] at hsub
    · exact absurd hsub (by simp [validCommandSub])
    simp only []
    unfold validCommandSub at hsub
    rw [bne_iff_ne] at hsub
    rw [if_neg hsub]
    rw [if_neg (not_not_intro (jsonExact_imp_valid hpay))]

/-- C9 (amended): serializing any Event built purely from valid §3 field
values — with its opaque payload an exact JSON span, as the decoder
re-captures it — and decoding the wire line yields that same Event with a
nil error. -/
theorem encode_decode_roundtrip (e : Event) (h : ValidEventRecord e) :
    DecodeNDJSONLine (encodeEvent e) = .ok (some e) := by
  have hpay : jsonExact e.payload = true := h.2.2.2.2.2.2.2.1
  have htop : parseTop (trimSpace (encodeEvent e)) =
      some (.obj ((topPieces e).map pieceMember)) := by
    rw [trimSpace_encodeEvent]
    exact parseTop_encodeEvent e hpay
  refine decode_eq_ok htop rfl (validateKeys_topPieces e) ?_ (validateEvent_ok e h)
  show unmarshalEvent _ = _
  unfold unmarshalEvent
  simp only []
  exact unmarshal_topPieces e h

theorem encode_decode_roundtrip_witness :
    ValidEventRecord (cliEventL 7) ∧
      DecodeNDJSONLine (encodeEvent (cliEventL 7)) = .ok (some (cliEventL 7)) :=
  ⟨by decide, encode_decode_roundtrip (cliEventL 7) (by decide)⟩

/-! ## Generic decode-success and lookup lemmas (for the C1 layer) -/

theorem parseVal_null_run (g : Nat) (r : List Char) :
    parseVal (g + 1) ('n' :: 'u' :: 'l' :: 'l' :: r) =
      some (.null, ['n', 'u', 'l', 'l'], r) := rfl

theorem parseVal_null_shape {g : Nat} {cs c r : List Char}
    (h : parseVal g cs = some (.null, c, r)) : c = ['n', 'u', 'l', 'l'] := by
  cases g with
  | zero => exact Option.noConfusion h
  | succ f =>
    rw [parseVal.eq_def] at h
    simp only [] at h
    split at h
    · simp only [Option.some.injEq, Prod.mk.injEq] at h
      exact h.2.1.symm
    · simp at h
    · simp at h
    · split at h <;> simp at h
    · split at h
      · simp at h
      · split at h <;> simp at h
    · split at h
      · simp at h
      · split at h <;> simp at h
    · split at h
      · split at h <;> simp at h
      · simp at h
    · simp at h

theorem member_exact {cs : List Char} {ms : List (String × Json × String)}
    (hp : parseTop cs = some (.obj ms)) :
    ∀ m ∈ ms, ∃ g, parseVal g m.2.2.data = some (m.2.1, m.2.2.data, []) := by
  intro m hm
  unfold parseTop at hp
  rcases hv : parseVal ((skipWs cs).length + 1) (skipWs cs) with _ | ⟨⟨v, c, r⟩⟩ <;>
    rw [hv] at hp
  · exact absurd hp (by simp)
  simp only [] at hp
  split at hp
  · rw [Option.some.injEq] at hp
    subst hp
    exact ((parser_sound_ext _).1 _ _ _ _ hv).2.2.1 ms rfl m hm
  · exact absurd hp (by simp)

theorem keysOf_cons (k : String) (v : Json) (r : String)
    (rest : List (String × Json × String)) :
    keysOf ((k, v, r) :: rest) = k :: keysOf rest := rfl

theorem lookupLast_not_mem {k : String} {ms : List (String × Json × String)}
    (h : k ∉ keysOf ms) : lookupLast ms k = none := by
  induction ms with
  | nil => rfl
  | cons m rest ih =>
    obtain ⟨k2, v, r⟩ := m
    rw [keysOf_cons, List.mem_cons, not_or] at h
    rw [lookupLast.eq_def]
    simp only []
    rw [ih h.2]
    simp only []
    rw [if_neg (fun hc => h.1 hc.symm)]

theorem lookupVal_of_none {ms : List (String × Json × String)} {k : String}
    (h : lookupLast ms k = none) : lookupVal ms k = none := by
  unfold lookupVal
  rw [h]
  rfl

theorem lookupLast_cons_self {rest : List (String × Json × String)} {k : String}
    {v : Json} {raw : String} (h : lookupLast rest k = none) :
    lookupLast ((k, v, raw) :: rest) k = some (v, raw) := by
  rw [lookupLast.eq_def]
  simp only []
  rw [h]
  simp

theorem lookupVal_cons_self {rest : List (String × Json × String)} {k : String}
    {v : Json} {raw : String} (h : lookupLast rest k = none) :
    lookupVal ((k, v, raw) :: rest) k = some v := by
  unfold lookupVal
  rw [lookupLast_cons_self h]
  rfl

theorem lookupLast_cons_ne {rest : List (String × Json × String)} {k k2 : String}
    {v : Json} {raw : String} (h : ¬k = k2) :
    lookupLast ((k, v, raw) :: rest) k2 = lookupLast rest k2 := by
  rw [lookupLast.eq_def]
  simp only []
  rcases hr : lookupLast rest k2 with _ | x
  · simp [h]
  · simp

theorem lookupVal_cons_ne {rest : List (String × Json × String)} {k k2 : String}
    {v : Json} {raw : String} (h : ¬k = k2) :
    lookupVal ((k, v, raw) :: rest) k2 = lookupVal rest k2 := by
  unfold lookupVal
  rw [lookupLast_cons_ne h]

theorem lookupLast_mem {ms : List (String × Json × String)} {k : String}
    {v : Json} {raw : String} (h : lookupLast ms k = some (v, raw)) :
    (k, v, raw) ∈ ms := by
  induction ms with
  | nil => exact Option.noConfusion h
  | cons m rest ih =>
    obtain ⟨k2, v2, r2⟩ := m
    rw [lookupLast.eq_def] at h
    simp only [] at h
    rcases hr : lookupLast rest k with _ | x <;> rw [hr] at h <;> simp at h
    · obtain ⟨rfl, rfl, rfl⟩ := h
      exact List.mem_cons_self _ _
    · subst h
      exact List.mem_cons_of_mem _ (ih hr)

theorem hasKey_of_lookupLast {ms : List (String × Json × String)} {k : String}
    {x : Json × String} (h : lookupLast ms k = some x) : hasKey ms k = true := by
  obtain ⟨v, raw⟩ := x
  unfold hasKey
  rw [List.any_eq_true]
  exact ⟨(k, v, raw), lookupLast_mem h, by simp⟩

theorem lookupLast_of_hasKey : ∀ {ms : List (String × Json × String)} {k : String},
    hasKey ms k = true → ∃ x, lookupLast ms k = some x := by
  intro ms
  induction ms with
  | nil => intro k h; simp [hasKey] at h
  | cons m rest ih =>
    intro k h
    obtain ⟨k2, v2, r2⟩ := m
    unfold hasKey at h
    rw [List.any_cons, Bool.or_eq_true] at h
    rw [lookupLast.eq_def]
    simp only []
    rcases hr : lookupLast rest k with _ | x
    · rcases h with h | h
      · have hk2 : k2 = k := by simpa using h
        exact ⟨(v2, r2), by simp [hk2]⟩
      · obtain ⟨x, hx⟩ := ih h
        rw [hr] at hx
        exact Option.noConfusion hx
    · exact ⟨x, by simp⟩

theorem lookupVal_some {ms : List (String × Json × String)} {k : String} {v : Json}
    (h : lookupVal ms k = some v) : ∃ raw, lookupLast ms k = some (v, raw) := by
  unfold lookupVal at h
  rcases hr : lookupLast ms k with _ | x
  · rw [hr] at h
    exact Option.noConfusion h
  · rw [hr] at h
    obtain ⟨v2, raw⟩ := x
    simp at h
    subst h
    exact ⟨raw, rfl⟩

theorem decStr_wt {v : Json} (c : String) (hw : wtStr v = true) :
    decStr v c = .ok (deStr (some v) c) := by
  cases v with
  | str s => rfl
  | null => rfl
  | num t => simp [wtStr] at hw
  | bool b => simp [wtStr] at hw
  | arr es => simp [wtStr] at hw
  | obj ms => simp [wtStr] at hw

theorem decInt_wt {v : Json} (c : Int) (hw : wtInt v = true) :
    decInt v c = .ok (deInt (some v) c) := by
  cases v with
  | num tok =>
    simp only [wtInt] at hw
    rcases hpi : parseIntLit tok with _ | n
    · rw [hpi] at hw
      simp at hw
    · rw [hpi] at hw
      simp at hw
      have h1 := hw.1
      have h2 := hw.2
      simp [decInt, deInt, hpi, h1, h2]
  | null => rfl
  | str s => simp [wtInt] at hw
  | bool b => simp [wtInt] at hw
  | arr es => simp [wtInt] at hw
  | obj ms => simp [wtInt] at hw

theorem decBool_wt {v : Json} (c : Bool) (hw : wtBool v = true) :
    ∃ b, decBool v c = .ok b := by
  cases v with
  | bool b => exact ⟨b, rfl⟩
  | null => exact ⟨c, rfl⟩
  | num t => simp [wtBool] at hw
  | str s => simp [wtBool] at hw
  | arr es => simp [wtBool] at hw
  | obj ms => simp [wtBool] at hw

theorem decOptStr_wtv {v : Json} (hw : wtStr v = true) : ∃ o, decOptStr v = .ok o := by
  cases v with
  | str s => exact ⟨some s, rfl⟩
  | null => exact ⟨none, rfl⟩
  | num t => simp [wtStr] at hw
  | bool b => simp [wtStr] at hw
  | arr es => simp [wtStr] at hw
  | obj ms => simp [wtStr] at hw

theorem decOptInt_wt {v : Json} (hw : wtOptInt v = true) : ∃ o, decOptInt v = .ok o := by
  cases v with
  | null => exact ⟨none, rfl⟩
  | num tok =>
    have hd : decInt (.num tok) 0 = .ok (deInt (some (.num tok)) 0) :=
      decInt_wt 0 (by simpa [wtInt, wtOptInt] using hw)
    refine ⟨some (deInt (some (.num tok)) 0), ?_⟩
    unfold decOptInt
    simp only []
    rw [hd]
    rfl
  | str s => simp [wtOptInt] at hw
  | bool b => simp [wtOptInt] at hw
  | arr es => simp [wtOptInt] at hw
  | obj ms => simp [wtOptInt] at hw

theorem decStrElem_wt {v : Json} (hw : wtStr v = true) : ∃ s, decStrElem v = .ok s := by
  cases v with
  | str s => exact ⟨s, rfl⟩
  | null => exact ⟨"", rfl⟩
  | num t => simp [wtStr] at hw
  | bool b => simp [wtStr] at hw
  | arr es => simp [wtStr] at hw
  | obj ms => simp [wtStr] at hw

theorem mapE_wt {α β : Type} (f : α → Except String β) (p : α → Bool)
    (hf : ∀ a, p a = true → ∃ b, f a = .ok b) :
    ∀ es : List α, es.all p = true → ∃ l, mapE f es = .ok l := by
  intro es
  induction es with
  | nil => intro _; exact ⟨[], rfl⟩
  | cons a as ih =>
    intro h
    rw [List.all_cons, Bool.and_eq_true] at h
    obtain ⟨b, hb⟩ := hf a h.1
    obtain ⟨l, hl⟩ := ih h.2
    refine ⟨b :: l, ?_⟩
    unfold mapE
    rw [hb]
    simp only []
    rw [hl]
    rfl

theorem decArgs_wt {v : Json} (hw : wtArgs v = true) : ∃ a, decArgs v = .ok a := by
  cases v with
  | null => exact ⟨[], rfl⟩
  | arr es =>
    have hall : es.all wtStr = true := by simpa [wtArgs] using hw
    obtain ⟨l, hl⟩ := mapE_wt decStrElem wtStr (fun a ha => decStrElem_wt ha) es hall
    exact ⟨l, hl⟩
  | num t => simp [wtArgs] at hw
  | str s => simp [wtArgs] at hw
  | bool b => simp [wtArgs] at hw
  | obj ms => simp [wtArgs] at hw

theorem applyHTTPMember_wt (m : HTTPMeta) (kv : String × Json × String)
    (hw : wtHTTPMember kv = true) : ∃ m2, applyHTTPMember m kv = .ok m2 := by
  obtain ⟨k, v, raw⟩ := kv
  unfold wtHTTPMember at hw
  rw [Bool.and_eq_true] at hw
  obtain ⟨hsafe, hw⟩ := hw
  have hs := of_decide_eq_true hsafe
  by_cases h1 : k = "method"
  · subst h1
    have hws : wtStr v = true := by simpa using hw
    refine ⟨{ m with method := deStr (some v) m.method }, ?_⟩
    simp +decide [applyHTTPMember, decStr_wt m.method hws, Except.map]
  by_cases h2 : k = "scheme"
  · subst h2
    have hws : wtStr v = true := by simpa using hw
    refine ⟨{ m with scheme := deStr (some v) m.scheme }, ?_⟩
    simp +decide [applyHTTPMember, decStr_wt m.scheme hws, Except.map]
  by_cases h3 : k = "host"
  · subst h3
    have hws : wtStr v = true := by simpa using hw
    refine ⟨{ m with host := deStr (some v) m.host }, ?_⟩
    simp +decide [applyHTTPMember, decStr_wt m.host hws, Except.map]
  by_cases h4 : k = "path"
  · subst h4
    have hws : wtStr v = true := by simpa using hw
    refine ⟨{ m with path := deStr (some v) m.path }, ?_⟩
    simp +decide [applyHTTPMember, decStr_wt m.path hws, Except.map]
  by_cases h5 : k = "query"
  · subst h5
    have hws : wtStr v = true := by simpa using hw
    refine ⟨{ m with query := deStr (some v) m.query }, ?_⟩
    simp +decide [applyHTTPMember, decStr_wt m.query hws, Except.map]
  by_cases h6 : k = "statusCode"
  · subst h6
    have hwo : wtOptInt v = true := by simpa using hw
    obtain ⟨o, ho⟩ := decOptInt_wt hwo
    refine ⟨{ m with statusCode := o }, ?_⟩
    simp +decide [applyHTTPMember, ho, Except.map]
  by_cases h7 : k = "clientIp"
  · subst h7
    have hws : wtStr v = true := by simpa using hw
    refine ⟨{ m with clientIp := deStr (some v) m.clientIp }, ?_⟩
    simp +decide [applyHTTPMember, decStr_wt m.clientIp hws, Except.map]
  by_cases h8 : k = "userAgent"
  · subst h8
    have hws : wtStr v = true := by simpa using hw
    refine ⟨{ m with userAgent := deStr (some v) m.userAgent }, ?_⟩
    simp +decide [applyHTTPMember, decStr_wt m.userAgent hws, Except.map]
  have hn1 : ¬nameMatch k "method" := fun hm => h1 (hs "method" (by decide) hm)
  have hn2 : ¬nameMatch k "scheme" := fun hm => h2 (hs "scheme" (by decide) hm)
  have hn3 : ¬nameMatch k "host" := fun hm => h3 (hs "host" (by decide) hm)
  have hn4 : ¬nameMatch k "path" := fun hm => h4 (hs "path" (by decide) hm)
  have hn5 : ¬nameMatch k "query" := fun hm => h5 (hs "query" (by decide) hm)
  have hn6 : ¬nameMatch k "statusCode" := fun hm => h6 (hs "statusCode" (by decide) hm)
  have hn7 : ¬nameMatch k "clientIp" := fun hm => h7 (hs "clientIp" (by decide) hm)
  have hn8 : ¬nameMatch k "userAgent" := fun hm => h8 (hs "userAgent" (by decide) hm)
  refine ⟨m, ?_⟩
  simp [applyHTTPMember, hn1, hn2, hn3, hn4, hn5, hn6, hn7, hn8]

theorem applyCommandMember_wt (m : CommandMeta) (kv : String × Json × String)
    (hw : wtCommandMember kv = true) : ∃ m2, applyCommandMember m kv = .ok m2 := by
  obtain ⟨k, v, raw⟩ := kv
  unfold wtCommandMember at hw
  rw [Bool.and_eq_true] at hw
  obtain ⟨hsafe, hw⟩ := hw
  have hs := of_decide_eq_true hsafe
  by_cases h1 : k = "name"
  · subst h1
    have hws : wtStr v = true := by simpa using hw
    refine ⟨{ m with name := deStr (some v) m.name }, ?_⟩
    simp +decide [applyCommandMember, decStr_wt m.name hws, Except.map]
  by_cases h2 : k = "args"
  · subst h2
    have hwa : wtArgs v = true := by simpa using hw
    obtain ⟨a, ha⟩ := decArgs_wt hwa
    refine ⟨{ m with args := a }, ?_⟩
    simp +decide [applyCommandMember, ha, Except.map]
  by_cases h3 : k = "cwd"
  · subst h3
    have hws : wtStr v = true := by simpa using hw
    refine ⟨{ m with cwd := deStr (some v) m.cwd }, ?_⟩
    simp +decide [applyCommandMember, decStr_wt m.cwd hws, Except.map]
  have hn1 : ¬nameMatch k "name" := fun hm => h1 (hs "name" (by decide) hm)
  have hn2 : ¬nameMatch k "args" := fun hm => h2 (hs "args" (by decide) hm)
  have hn3 : ¬nameMatch k "cwd" := fun hm => h3 (hs "cwd" (by decide) hm)
  refine ⟨m, ?_⟩
  simp [applyCommandMember, hn1, hn2, hn3]

theorem applyFrameMember_wt (m : TraceFrame) (kv : String × Json × String)
    (hw : wtFrameMember kv = true) : ∃ m2, applyFrameMember m kv = .ok m2 := by
  obtain ⟨k, v, raw⟩ := kv
  unfold wtFrameMember at hw
  rw [Bool.and_eq_true] at hw
  obtain ⟨hsafe, hw⟩ := hw
  have hs := of_decide_eq_true hsafe
  by_cases h1 : k = "file"
  · subst h1
    have hws : wtStr v = true := by simpa using hw
    refine ⟨{ m with file := deStr (some v) m.file }, ?_⟩
    simp +decide [applyFrameMember, decStr_wt m.file hws, Except.map]
  by_cases h2 : k = "line"
  · subst h2
    have hwi : wtInt v = true := by simpa using hw
    refine ⟨{ m with line := deInt (some v) m.line }, ?_⟩
    simp +decide [applyFrameMember, decInt_wt m.line hwi, Except.map]
  by_cases h3 : k = "func"
  · subst h3
    have hws : wtStr v = true := by simpa using hw
    refine ⟨{ m with func := deStr (some v) m.func }, ?_⟩
    simp +decide [applyFrameMember, decStr_wt m.func hws, Except.map]
  have hn1 : ¬nameMatch k "file" := fun hm => h1 (hs "file" (by decide) hm)
  have hn2 : ¬nameMatch k "line" := fun hm => h2 (hs "line" (by decide) hm)
  have hn3 : ¬nameMatch k "func" := fun hm => h3 (hs "func" (by decide) hm)
  refine ⟨m, ?_⟩
  simp [applyFrameMember, hn1, hn2, hn3]

theorem applyHostMember_wt (m : HostMeta) (kv : String × Json × String)
    (hw : wtHostMember kv = true) : ∃ m2, applyHostMember m kv = .ok m2 := by
  obtain ⟨k, v, raw⟩ := kv
  unfold wtHostMember at hw
  rw [Bool.and_eq_true] at hw
  obtain ⟨hsafe, hw⟩ := hw
  have hs := of_decide_eq_true hsafe
  by_cases h1 : k = "hostname"
  · subst h1
    have hws : wtStr v = true := by simpa using hw
    refine ⟨{ m with hostname := deStr (some v) m.hostname }, ?_⟩
    simp +decide [applyHostMember, decStr_wt m.hostname hws, Except.map]
  by_cases h2 : k = "pid"
  · subst h2
    have hwi : wtInt v = true := by simpa using hw
    refine ⟨{ m with pid := deInt (some v) m.pid }, ?_⟩
    simp +decide [applyHostMember, decInt_wt m.pid hwi, Except.map]
  have hn1 : ¬nameMatch k "hostname" := fun hm => h1 (hs "hostname" (by decide) hm)
  have hn2 : ¬nameMatch k "pid" := fun hm => h2 (hs "pid" (by decide) hm)
  refine ⟨m, ?_⟩
  simp [applyHostMember, hn1, hn2]

theorem decodeHTTPMembers_wt : ∀ (ms2 : List (String × Json × String)),
    ms2.all wtHTTPMember = true → ∀ cur : HTTPMeta, ∃ h, decodeHTTPMembers cur ms2 = .ok h := by
  intro ms2
  induction ms2 with
  | nil => intro _ cur; exact ⟨cur, rfl⟩
  | cons kv rest ih =>
    intro hall cur
    rw [List.all_cons, Bool.and_eq_true] at hall
    obtain ⟨m2, hm2⟩ := applyHTTPMember_wt cur kv hall.1
    obtain ⟨h3, h3h⟩ := ih hall.2 m2
    refine ⟨h3, ?_⟩
    simp only [decodeHTTPMembers]
    rw [hm2]
    exact h3h

theorem decodeCommandMembers_wt : ∀ (ms2 : List (String × Json × String)),
    ms2.all wtCommandMember = true → ∀ cur : CommandMeta, ∃ h, decodeCommandMembers cur ms2 = .ok h := by
  intro ms2
  induction ms2 with
  | nil => intro _ cur; exact ⟨cur, rfl⟩
  | cons kv rest ih =>
    intro hall cur
    rw [List.all_cons, Bool.and_eq_true] at hall
    obtain ⟨m2, hm2⟩ := applyCommandMember_wt cur kv hall.1
    obtain ⟨h3, h3h⟩ := ih hall.2 m2
    refine ⟨h3, ?_⟩
    simp only [decodeCommandMembers]
    rw [hm2]
    exact h3h

theorem decodeFrameMembers_wt : ∀ (ms2 : List (String × Json × String)),
    ms2.all wtFrameMember = true → ∀ cur : TraceFrame, ∃ h, decodeFrameMembers cur ms2 = .ok h := by
  intro ms2
  induction ms2 with
  | nil => intro _ cur; exact ⟨cur, rfl⟩
  | cons kv rest ih =>
    intro hall cur
    rw [List.all_cons, Bool.and_eq_true] at hall
    obtain ⟨m2, hm2⟩ := applyFrameMember_wt cur kv hall.1
    obtain ⟨h3, h3h⟩ := ih hall.2 m2
    refine ⟨h3, ?_⟩
    simp only [decodeFrameMembers]
    rw [hm2]
    exact h3h

theorem decodeHostMembers_wt : ∀ (ms2 : List (String × Json × String)),
    ms2.all wtHostMember = true → ∀ cur : HostMeta, ∃ h, decodeHostMembers cur ms2 = .ok h := by
  intro ms2
  induction ms2 with
  | nil => intro _ cur; exact ⟨cur, rfl⟩
  | cons kv rest ih =>
    intro hall cur
    rw [List.all_cons, Bool.and_eq_true] at hall
    obtain ⟨m2, hm2⟩ := applyHostMember_wt cur kv hall.1
    obtain ⟨h3, h3h⟩ := ih hall.2 m2
    refine ⟨h3, ?_⟩
    simp only [decodeHostMembers]
    rw [hm2]
    exact h3h

theorem decHTTP_wt {v : Json} (c : Option HTTPMeta) (hw : wtHTTPObj v = true) :
    decHTTP v = .ok (deHTTPF (some v) c) := by
  cases v with
  | null => rfl
  | obj hms =>
    have hall : hms.all wtHTTPMember = true := by simpa [wtHTTPObj] using hw
    obtain ⟨h, hh⟩ := decodeHTTPMembers_wt hms hall zeroHTTP
    simp only [decHTTP, deHTTPF]
    rw [hh]
    rfl
  | num t => simp [wtHTTPObj] at hw
  | str s2 => simp [wtHTTPObj] at hw
  | bool b => simp [wtHTTPObj] at hw
  | arr es => simp [wtHTTPObj] at hw

theorem decCommand_wt {v : Json} (c : Option CommandMeta) (hw : wtCommandObj v = true) :
    decCommand v = .ok (deCommandF (some v) c) := by
  cases v with
  | null => rfl
  | obj cms =>
    have hall : cms.all wtCommandMember = true := by simpa [wtCommandObj] using hw
    obtain ⟨h, hh⟩ := decodeCommandMembers_wt cms hall zeroCommand
    simp only [decCommand, deCommandF]
    rw [hh]
    rfl
  | num t => simp [wtCommandObj] at hw
  | str s2 => simp [wtCommandObj] at hw
  | bool b => simp [wtCommandObj] at hw
  | arr es => simp [wtCommandObj] at hw

theorem decHost_wt {v : Json} (c : HostMeta) (hw : wtHostObj v = true) :
    decHost v c = .ok (deHostF (some v) c) := by
  cases v with
  | null => rfl
  | obj hms =>
    have hall : hms.all wtHostMember = true := by simpa [wtHostObj] using hw
    obtain ⟨h, hh⟩ := decodeHostMembers_wt hms hall c
    simp only [decHost, deHostF]
    rw [hh]
    rfl
  | num t => simp [wtHostObj] at hw
  | str s2 => simp [wtHostObj] at hw
  | bool b => simp [wtHostObj] at hw
  | arr es => simp [wtHostObj] at hw

theorem decFrame_wt {v : Json} (hw : wtFrame v = true) : ∃ f, decFrame v = .ok f := by
  cases v with
  | null => exact ⟨zeroFrame, rfl⟩
  | obj fms =>
    have hall : fms.all wtFrameMember = true := by simpa [wtFrame] using hw
    obtain ⟨m, hm⟩ := decodeFrameMembers_wt fms hall zeroFrame
    exact ⟨m, hm⟩
  | num t => simp [wtFrame] at hw
  | str s2 => simp [wtFrame] at hw
  | bool b => simp [wtFrame] at hw
  | arr es => simp [wtFrame] at hw

theorem decTrace_wt {v : Json} (hw : wtTrace v = true) : ∃ t, decTrace v = .ok t := by
  cases v with
  | null => exact ⟨[], rfl⟩
  | arr es =>
    have hall : es.all wtFrame = true := by simpa [wtTrace] using hw
    obtain ⟨l, hl⟩ := mapE_wt decFrame wtFrame (fun a ha => decFrame_wt ha) es hall
    exact ⟨l, hl⟩
  | num t => simp [wtTrace] at hw
  | str s2 => simp [wtTrace] at hw
  | bool b => simp [wtTrace] at hw
  | obj ms2 => simp [wtTrace] at hw

theorem decodeHTTPMembers_char : ∀ (hms2 : List (String × Json × String)),
    hms2.all wtHTTPMember = true → nodupB (keysOf hms2) = true →
    ∀ cur : HTTPMeta, ∃ h, decodeHTTPMembers cur hms2 = .ok h ∧
      h.method = deStr (lookupVal hms2 "method") cur.method ∧
      h.scheme = deStr (lookupVal hms2 "scheme") cur.scheme ∧
      h.host = deStr (lookupVal hms2 "host") cur.host ∧
      h.path = deStr (lookupVal hms2 "path") cur.path := by
  intro hms2
  induction hms2 with
  | nil =>
    intro _ _ cur
    exact ⟨cur, rfl, rfl, rfl, rfl, rfl⟩
  | cons kv rest ih =>
    intro hall hnd cur
    obtain ⟨k, v, raw⟩ := kv
    rw [List.all_cons, Bool.and_eq_true] at hall
    obtain ⟨hw, hall⟩ := hall
    unfold wtHTTPMember at hw
    rw [Bool.and_eq_true] at hw
    obtain ⟨hsafe, hw⟩ := hw
    have hs := of_decide_eq_true hsafe
    rw [keysOf_cons, nodupB, Bool.and_eq_true, Bool.not_eq_true'] at hnd
    have hnm : k ∉ keysOf rest := by simpa using hnd.1
    have hnd2 := hnd.2
    by_cases hk1 : k = "method"
    · subst hk1
      have hwf : wtStr v = true := by simpa using hw
      have hnone : lookupLast rest "method" = none := lookupLast_not_mem hnm
      obtain ⟨h, hdec, e1, e2, e3, e4⟩ := ih hall hnd2 { cur with method := deStr (some v) cur.method }
      refine ⟨h, ?_, ?_, ?_, ?_, ?_⟩
      · simp only [decodeHTTPMembers]
        rw [show applyHTTPMember cur ("method", v, raw) = .ok { cur with method := deStr (some v) cur.method } from by
          simp +decide [applyHTTPMember, decStr_wt cur.method hwf, Except.map]]
        exact hdec
      · rw [e1, lookupVal_cons_self hnone, lookupVal_of_none hnone] <;> rfl
      · rw [e2, lookupVal_cons_ne (by decide)] <;> rfl
      · rw [e3, lookupVal_cons_ne (by decide)] <;> rfl
      · rw [e4, lookupVal_cons_ne (by decide)] <;> rfl
    by_cases hk2 : k = "scheme"
    · subst hk2
      have hwf : wtStr v = true := by simpa using hw
      have hnone : lookupLast rest "scheme" = none := lookupLast_not_mem hnm
      obtain ⟨h, hdec, e1, e2, e3, e4⟩ := ih hall hnd2 { cur with scheme := deStr (some v) cur.scheme }
      refine ⟨h, ?_, ?_, ?_, ?_, ?_⟩
      · simp only [decodeHTTPMembers]
        rw [show applyHTTPMember cur ("scheme", v, raw) = .ok { cur with scheme := deStr (some v) cur.scheme } from by
          simp +decide [applyHTTPMember, decStr_wt cur.scheme hwf, Except.map]]
        exact hdec
      · rw [e1, lookupVal_cons_ne (by decide)] <;> rfl
      · rw [e2, lookupVal_cons_self hnone, lookupVal_of_none hnone] <;> rfl
      · rw [e3, lookupVal_cons_ne (by decide)] <;> rfl
      · rw [e4, lookupVal_cons_ne (by decide)] <;> rfl
    by_cases hk3 : k = "host"
    · subst hk3
      have hwf : wtStr v = true := by simpa using hw
      have hnone : lookupLast rest "host" = none := lookupLast_not_mem hnm
      obtain ⟨h, hdec, e1, e2, e3, e4⟩ := ih hall hnd2 { cur with host := deStr (some v) cur.host }
      refine ⟨h, ?_, ?_, ?_, ?_, ?_⟩
      · simp only [decodeHTTPMembers]
        rw [show applyHTTPMember cur ("host", v, raw) = .ok { cur with host := deStr (some v) cur.host } from by
          simp +decide [applyHTTPMember, decStr_wt cur.host hwf, Except.map]]
        exact hdec
      · rw [e1, lookupVal_cons_ne (by decide)] <;> rfl
      · rw [e2, lookupVal_cons_ne (by decide)] <;> rfl
      · rw [e3, lookupVal_cons_self hnone, lookupVal_of_none hnone] <;> rfl
      · rw [e4, lookupVal_cons_ne (by decide)] <;> rfl
    by_cases hk4 : k = "path"
    · subst hk4
      have hwf : wtStr v = true := by simpa using hw
      have hnone : lookupLast rest "path" = none := lookupLast_not_mem hnm
      obtain ⟨h, hdec, e1, e2, e3, e4⟩ := ih hall hnd2 { cur with path := deStr (some v) cur.path }
      refine ⟨h, ?_, ?_, ?_, ?_, ?_⟩
      · simp only [decodeHTTPMembers]
        rw [show applyHTTPMember cur ("path", v, raw) = .ok { cur with path := deStr (some v) cur.path } from by
          simp +decide [applyHTTPMember, decStr_wt cur.path hwf, Except.map]]
        exact hdec
      · rw [e1, lookupVal_cons_ne (by decide)] <;> rfl
      · rw [e2, lookupVal_cons_ne (by decide)] <;> rfl
      · rw [e3, lookupVal_cons_ne (by decide)] <;> rfl
      · rw [e4, lookupVal_cons_self hnone, lookupVal_of_none hnone] <;> rfl
    by_cases hk5 : k = "query"
    · subst hk5
      have hwf : wtStr v = true := by simpa using hw
      obtain ⟨h, hdec, e1, e2, e3, e4⟩ := ih hall hnd2 { cur with query := deStr (some v) cur.query }
      refine ⟨h, ?_, ?_, ?_, ?_, ?_⟩
      · simp only [decodeHTTPMembers]
        rw [show applyHTTPMember cur ("query", v, raw) = .ok { cur with query := deStr (some v) cur.query } from by
          simp +decide [applyHTTPMember, decStr_wt cur.query hwf, Except.map]]
        exact hdec
      · rw [e1, lookupVal_cons_ne (by decide)] <;> rfl
      · rw [e2, lookupVal_cons_ne (by decide)] <;> rfl
      · rw [e3, lookupVal_cons_ne (by decide)] <;> rfl
      · rw [e4, lookupVal_cons_ne (by decide)] <;> rfl
    by_cases hk6 : k = "statusCode"
    · subst hk6
      have hwf : wtOptInt v = true := by simpa using hw
      obtain ⟨o, ho⟩ := decOptInt_wt hwf
      obtain ⟨h, hdec, e1, e2, e3, e4⟩ := ih hall hnd2 { cur with statusCode := o }
      refine ⟨h, ?_, ?_, ?_, ?_, ?_⟩
      · simp only [decodeHTTPMembers]
        rw [show applyHTTPMember cur ("statusCode", v, raw) = .ok { cur with statusCode := o } from by
          simp +decide [applyHTTPMember, ho, Except.map]]
        exact hdec
      · rw [e1, lookupVal_cons_ne (by decide)] <;> rfl
      · rw [e2, lookupVal_cons_ne (by decide)] <;> rfl
      · rw [e3, lookupVal_cons_ne (by decide)] <;> rfl
      · rw [e4, lookupVal_cons_ne (by decide)] <;> rfl
    by_cases hk7 : k = "clientIp"
    · subst hk7
      have hwf : wtStr v = true := by simpa using hw
      obtain ⟨h, hdec, e1, e2, e3, e4⟩ := ih hall hnd2 { cur with clientIp := deStr (some v) cur.clientIp }
      refine ⟨h, ?_, ?_, ?_, ?_, ?_⟩
      · simp only [decodeHTTPMembers]
        rw [show applyHTTPMember cur ("clientIp", v, raw) = .ok { cur with clientIp := deStr (some v) cur.clientIp } from by
          simp +decide [applyHTTPMember, decStr_wt cur.clientIp hwf, Except.map]]
        exact hdec
      · rw [e1, lookupVal_cons_ne (by decide)] <;> rfl
      · rw [e2, lookupVal_cons_ne (by decide)] <;> rfl
      · rw [e3, lookupVal_cons_ne (by decide)] <;> rfl
      · rw [e4, lookupVal_cons_ne (by decide)] <;> rfl
    by_cases hk8 : k = "userAgent"
    · subst hk8
      have hwf : wtStr v = true := by simpa using hw
      obtain ⟨h, hdec, e1, e2, e3, e4⟩ := ih hall hnd2 { cur with userAgent := deStr (some v) cur.userAgent }
      refine ⟨h, ?_, ?_, ?_, ?_, ?_⟩
      · simp only [decodeHTTPMembers]
        rw [show applyHTTPMember cur ("userAgent", v, raw) = .ok { cur with userAgent := deStr (some v) cur.userAgent } from by
          simp +decide [applyHTTPMember, decStr_wt cur.userAgent hwf, Except.map]]
        exact hdec
      · rw [e1, lookupVal_cons_ne (by decide)] <;> rfl
      · rw [e2, lookupVal_cons_ne (by decide)] <;> rfl
      · rw [e3, lookupVal_cons_ne (by decide)] <;> rfl
      · rw [e4, lookupVal_cons_ne (by decide)] <;> rfl
    · have hn1 : ¬nameMatch k "method" := fun hm => hk1 (hs "method" (by decide) hm)
      have hn2 : ¬nameMatch k "scheme" := fun hm => hk2 (hs "scheme" (by decide) hm)
      have hn3 : ¬nameMatch k "host" := fun hm => hk3 (hs "host" (by decide) hm)
      have hn4 : ¬nameMatch k "path" := fun hm => hk4 (hs "path" (by decide) hm)
      have hn5 : ¬nameMatch k "query" := fun hm => hk5 (hs "query" (by decide) hm)
      have hn6 : ¬nameMatch k "statusCode" := fun hm => hk6 (hs "statusCode" (by decide) hm)
      have hn7 : ¬nameMatch k "clientIp" := fun hm => hk7 (hs "clientIp" (by decide) hm)
      have hn8 : ¬nameMatch k "userAgent" := fun hm => hk8 (hs "userAgent" (by decide) hm)
      obtain ⟨h, hdec, e1, e2, e3, e4⟩ := ih hall hnd2 cur
      refine ⟨h, ?_, ?_, ?_, ?_, ?_⟩
      · simp only [decodeHTTPMembers]
        rw [show applyHTTPMember cur (k, v, raw) = .ok cur from by
          simp [applyHTTPMember, hn1, hn2, hn3, hn4, hn5, hn6, hn7, hn8]]
        exact hdec
      · rw [e1, lookupVal_cons_ne hk1] <;> rfl
      · rw [e2, lookupVal_cons_ne hk2] <;> rfl
      · rw [e3, lookupVal_cons_ne hk3] <;> rfl
      · rw [e4, lookupVal_cons_ne hk4] <;> rfl

theorem decodeCommandMembers_char : ∀ (hms2 : List (String × Json × String)),
    hms2.all wtCommandMember = true → nodupB (keysOf hms2) = true →
    ∀ cur : CommandMeta, ∃ h, decodeCommandMembers cur hms2 = .ok h ∧
      h.name = deStr (lookupVal hms2 "name") cur.name := by
  intro hms2
  induction hms2 with
  | nil =>
    intro _ _ cur
    exact ⟨cur, rfl, rfl⟩
  | cons kv rest ih =>
    intro hall hnd cur
    obtain ⟨k, v, raw⟩ := kv
    rw [List.all_cons, Bool.and_eq_true] at hall
    obtain ⟨hw, hall⟩ := hall
    unfold wtCommandMember at hw
    rw [Bool.and_eq_true] at hw
    obtain ⟨hsafe, hw⟩ := hw
    have hs := of_decide_eq_true hsafe
    rw [keysOf_cons, nodupB, Bool.and_eq_true, Bool.not_eq_true'] at hnd
    have hnm : k ∉ keysOf rest := by simpa using hnd.1
    have hnd2 := hnd.2
    by_cases hk1 : k = "name"
    · subst hk1
      have hwf : wtStr v = true := by simpa using hw
      have hnone : lookupLast rest "name" = none := lookupLast_not_mem hnm
      obtain ⟨h, hdec, e1⟩ := ih hall hnd2 { cur with name := deStr (some v) cur.name }
      refine ⟨h, ?_, ?_⟩
      · simp only [decodeCommandMembers]
        rw [show applyCommandMember cur ("name", v, raw) = .ok { cur with name := deStr (some v) cur.name } from by
          simp +decide [applyCommandMember, decStr_wt cur.name hwf, Except.map]]
        exact hdec
      · rw [e1, lookupVal_cons_self hnone, lookupVal_of_none hnone] <;> rfl
    by_cases hk2 : k = "args"
    · subst hk2
      have hwf : wtArgs v = true := by simpa using hw
      obtain ⟨a, ha⟩ := decArgs_wt hwf
      obtain ⟨h, hdec, e1⟩ := ih hall hnd2 { cur with args := a }
      refine ⟨h, ?_, ?_⟩
      · simp only [decodeCommandMembers]
        rw [show applyCommandMember cur ("args", v, raw) = .ok { cur with args := a } from by
          simp +decide [applyCommandMember, ha, Except.map]]
        exact hdec
      · rw [e1, lookupVal_cons_ne (by decide)] <;> rfl
    by_cases hk3 : k = "cwd"
    · subst hk3
      have hwf : wtStr v = true := by simpa using hw
      obtain ⟨h, hdec, e1⟩ := ih hall hnd2 { cur with cwd := deStr (some v) cur.cwd }
      refine ⟨h, ?_, ?_⟩
      · simp only [decodeCommandMembers]
        rw [show applyCommandMember cur ("cwd", v, raw) = .ok { cur with cwd := deStr (some v) cur.cwd } from by
          simp +decide [applyCommandMember, decStr_wt cur.cwd hwf, Except.map]]
        exact hdec
      · rw [e1, lookupVal_cons_ne (by decide)] <;> rfl
    · have hn1 : ¬nameMatch k "name" := fun hm => hk1 (hs "name" (by decide) hm)
      have hn2 : ¬nameMatch k "args" := fun hm => hk2 (hs "args" (by decide) hm)
      have hn3 : ¬nameMatch k "cwd" := fun hm => hk3 (hs "cwd" (by decide) hm)
      obtain ⟨h, hdec, e1⟩ := ih hall hnd2 cur
      refine ⟨h, ?_, ?_⟩
      · simp only [decodeCommandMembers]
        rw [show applyCommandMember cur (k, v, raw) = .ok cur from by
          simp [applyCommandMember, hn1, hn2, hn3]]
        exact hdec
      · rw [e1, lookupVal_cons_ne hk1] <;> rfl

theorem decodeHostMembers_char : ∀ (hms2 : List (String × Json × String)),
    hms2.all wtHostMember = true → nodupB (keysOf hms2) = true →
    ∀ cur : HostMeta, ∃ h, decodeHostMembers cur hms2 = .ok h ∧
      h.hostname = deStr (lookupVal hms2 "hostname") cur.hostname ∧
      h.pid = deInt (lookupVal hms2 "pid") cur.pid := by
  intro hms2
  induction hms2 with
  | nil =>
    intro _ _ cur
    exact ⟨cur, rfl, rfl, rfl⟩
  | cons kv rest ih =>
    intro hall hnd cur
    obtain ⟨k, v, raw⟩ := kv
    rw [List.all_cons, Bool.and_eq_true] at hall
    obtain ⟨hw, hall⟩ := hall
    unfold wtHostMember at hw
    rw [Bool.and_eq_true] at hw
    obtain ⟨hsafe, hw⟩ := hw
    have hs := of_decide_eq_true hsafe
    rw [keysOf_cons, nodupB, Bool.and_eq_true, Bool.not_eq_true'] at hnd
    have hnm : k ∉ keysOf rest := by simpa using hnd.1
    have hnd2 := hnd.2
    by_cases hk1 : k = "hostname"
    · subst hk1
      have hwf : wtStr v = true := by simpa using hw
      have hnone : lookupLast rest "hostname" = none := lookupLast_not_mem hnm
      obtain ⟨h, hdec, e1, e2⟩ := ih hall hnd2 { cur with hostname := deStr (some v) cur.hostname }
      refine ⟨h, ?_, ?_, ?_⟩
      · simp only [decodeHostMembers]
        rw [show applyHostMember cur ("hostname", v, raw) = .ok { cur with hostname := deStr (some v) cur.hostname } from by
          simp +decide [applyHostMember, decStr_wt cur.hostname hwf, Except.map]]
        exact hdec
      · rw [e1, lookupVal_cons_self hnone, lookupVal_of_none hnone] <;> rfl
      · rw [e2, lookupVal_cons_ne (by decide)] <;> rfl
    by_cases hk2 : k = "pid"
    · subst hk2
      have hwf : wtInt v = true := by simpa using hw
      have hnone : lookupLast rest "pid" = none := lookupLast_not_mem hnm
      obtain ⟨h, hdec, e1, e2⟩ := ih hall hnd2 { cur with pid := deInt (some v) cur.pid }
      refine ⟨h, ?_, ?_, ?_⟩
      · simp only [decodeHostMembers]
        rw [show applyHostMember cur ("pid", v, raw) = .ok { cur with pid := deInt (some v) cur.pid } from by
          simp +decide [applyHostMember, decInt_wt cur.pid hwf, Except.map]]
        exact hdec
      · rw [e1, lookupVal_cons_ne (by decide)] <;> rfl
      · rw [e2, lookupVal_cons_self hnone, lookupVal_of_none hnone] <;> rfl
    · have hn1 : ¬nameMatch k "hostname" := fun hm => hk1 (hs "hostname" (by decide) hm)
      have hn2 : ¬nameMatch k "pid" := fun hm => hk2 (hs "pid" (by decide) hm)
      obtain ⟨h, hdec, e1, e2⟩ := ih hall hnd2 cur
      refine ⟨h, ?_, ?_, ?_⟩
      · simp only [decodeHostMembers]
        rw [show applyHostMember cur (k, v, raw) = .ok cur from by
          simp [applyHostMember, hn1, hn2]]
        exact hdec
      · rw [e1, lookupVal_cons_ne hk1] <;> rfl
      · rw [e2, lookupVal_cons_ne hk2] <;> rfl

theorem decodeMembers_char : ∀ (hms2 : List (String × Json × String)),
    hms2.all wtTopMember = true → nodupB (keysOf hms2) = true →
    ∀ cur : Event, ∃ h, decodeMembers cur hms2 = .ok h ∧
      h.schemaVersion = deInt (lookupVal hms2 "schemaVersion") cur.schemaVersion ∧
      h.id = deStr (lookupVal hms2 "id") cur.id ∧
      h.timestamp = deStr (lookupVal hms2 "timestamp") cur.timestamp ∧
      h.sourceType = deStr (lookupVal hms2 "sourceType") cur.sourceType ∧
      h.projectRoot = deStr (lookupVal hms2 "projectRoot") cur.projectRoot ∧
      h.phpSapi = deStr (lookupVal hms2 "phpSapi") cur.phpSapi ∧
      h.payloadFormat = deStr (lookupVal hms2 "payloadFormat") cur.payloadFormat ∧
      h.payload = deRaw (lookupLast hms2 "payload") cur.payload ∧
      h.http = deHTTPF (lookupVal hms2 "http") cur.http ∧
      h.command = deCommandF (lookupVal hms2 "command") cur.command ∧
      h.host = deHostF (lookupVal hms2 "host") cur.host := by
  intro hms2
  induction hms2 with
  | nil =>
    intro _ _ cur
    exact ⟨cur, rfl, rfl, rfl, rfl, rfl, rfl, rfl, rfl, rfl, rfl, rfl, rfl⟩
  | cons kv rest ih =>
    intro hall hnd cur
    obtain ⟨k, v, raw⟩ := kv
    rw [List.all_cons, Bool.and_eq_true] at hall
    obtain ⟨hw, hall⟩ := hall
    unfold wtTopMember at hw
    rw [Bool.and_eq_true] at hw
    obtain ⟨hsafe, hw⟩ := hw
    have hs := of_decide_eq_true hsafe
    rw [keysOf_cons, nodupB, Bool.and_eq_true, Bool.not_eq_true'] at hnd
    have hnm : k ∉ keysOf rest := by simpa using hnd.1
    have hnd2 := hnd.2
    by_cases hk1 : k = "schemaVersion"
    · subst hk1
      have hwf : wtInt v = true := by simpa using hw
      have hnone : lookupLast rest "schemaVersion" = none := lookupLast_not_mem hnm
      obtain ⟨h, hdec, e1, e2, e3, e4, e5, e6, e7, e8, e9, e10, e11⟩ := ih hall hnd2 { cur with schemaVersion := deInt (some v) cur.schemaVersion }
      refine ⟨h, ?_, ?_, ?_, ?_, ?_, ?_, ?_, ?_, ?_, ?_, ?_, ?_⟩
      · simp only [decodeMembers]
        rw [show applyMember cur ("schemaVersion", v, raw) = .ok { cur with schemaVersion := deInt (some v) cur.schemaVersion } from by
          simp +decide [applyMember, decInt_wt cur.schemaVersion hwf, Except.map]]
        exact hdec
      · rw [e1, lookupVal_cons_self hnone, lookupVal_of_none hnone] <;> rfl
      · rw [e2, lookupVal_cons_ne (by decide)] <;> rfl
      · rw [e3, lookupVal_cons_ne (by decide)] <;> rfl
      · rw [e4, lookupVal_cons_ne (by decide)] <;> rfl
      · rw [e5, lookupVal_cons_ne (by decide)] <;> rfl
      · rw [e6, lookupVal_cons_ne (by decide)] <;> rfl
      · rw [e7, lookupVal_cons_ne (by decide)] <;> rfl
      · rw [e8, lookupLast_cons_ne (by decide)] <;> rfl
      · rw [e9, lookupVal_cons_ne (by decide)] <;> rfl
      · rw [e10, lookupVal_cons_ne (by decide)] <;> rfl
      · rw [e11, lookupVal_cons_ne (by decide)] <;> rfl
    by_cases hk2 : k = "id"
    · subst hk2
      have hwf : wtStr v = true := by simpa using hw
      have hnone : lookupLast rest "id" = none := lookupLast_not_mem hnm
      obtain ⟨h, hdec, e1, e2, e3, e4, e5, e6, e7, e8, e9, e10, e11⟩ := ih hall hnd2 { cur with id := deStr (some v) cur.id }
      refine ⟨h, ?_, ?_, ?_, ?_, ?_, ?_, ?_, ?_, ?_, ?_, ?_, ?_⟩
      · simp only [decodeMembers]
        rw [show applyMember cur ("id", v, raw) = .ok { cur with id := deStr (some v) cur.id } from by
          simp +decide [applyMember, decStr_wt cur.id hwf, Except.map]]
        exact hdec
      · rw [e1, lookupVal_cons_ne (by decide)] <;> rfl
      · rw [e2, lookupVal_cons_self hnone, lookupVal_of_none hnone] <;> rfl
      · rw [e3, lookupVal_cons_ne (by decide)] <;> rfl
      · rw [e4, lookupVal_cons_ne (by decide)] <;> rfl
      · rw [e5, lookupVal_cons_ne (by decide)] <;> rfl
      · rw [e6, lookupVal_cons_ne (by decide)] <;> rfl
      · rw [e7, lookupVal_cons_ne (by decide)] <;> rfl
      · rw [e8, lookupLast_cons_ne (by decide)] <;> rfl
      · rw [e9, lookupVal_cons_ne (by decide)] <;> rfl
      · rw [e10, lookupVal_cons_ne (by decide)] <;> rfl
      · rw [e11, lookupVal_cons_ne (by decide)] <;> rfl
    by_cases hk3 : k = "timestamp"
    · subst hk3
      have hwf : wtStr v = true := by simpa using hw
      have hnone : lookupLast rest "timestamp" = none := lookupLast_not_mem hnm
      obtain ⟨h, hdec, e1, e2, e3, e4, e5, e6, e7, e8, e9, e10, e11⟩ := ih hall hnd2 { cur with timestamp := deStr (some v) cur.timestamp }
      refine ⟨h, ?_, ?_, ?_, ?_, ?_, ?_, ?_, ?_, ?_, ?_, ?_, ?_⟩
      · simp only [decodeMembers]
        rw [show applyMember cur ("timestamp", v, raw) = .ok { cur with timestamp := deStr (some v) cur.timestamp } from by
          simp +decide [applyMember, decStr_wt cur.timestamp hwf, Except.map]]
        exact hdec
      · rw [e1, lookupVal_cons_ne (by decide)] <;> rfl
      · rw [e2, lookupVal_cons_ne (by decide)] <;> rfl
      · rw [e3, lookupVal_cons_self hnone, lookupVal_of_none hnone] <;> rfl
      · rw [e4, lookupVal_cons_ne (by decide)] <;> rfl
      · rw [e5, lookupVal_cons_ne (by decide)] <;> rfl
      · rw [e6, lookupVal_cons_ne (by decide)] <;> rfl
      · rw [e7, lookupVal_cons_ne (by decide)] <;> rfl
      · rw [e8, lookupLast_cons_ne (by decide)] <;> rfl
      · rw [e9, lookupVal_cons_ne (by decide)] <;> rfl
      · rw [e10, lookupVal_cons_ne (by decide)] <;> rfl
      · rw [e11, lookupVal_cons_ne (by decide)] <;> rfl
    by_cases hk4 : k = "sourceType"
    · subst hk4
      have hwf : wtStr v = true := by simpa using hw
      have hnone : lookupLast rest "sourceType" = none := lookupLast_not_mem hnm
      obtain ⟨h, hdec, e1, e2, e3, e4, e5, e6, e7, e8, e9, e10, e11⟩ := ih hall hnd2 { cur with sourceType := deStr (some v) cur.sourceType }
      refine ⟨h, ?_, ?_, ?_, ?_, ?_, ?_, ?_, ?_, ?_, ?_, ?_, ?_⟩
      · simp only [decodeMembers]
        rw [show applyMember cur ("sourceType", v, raw) = .ok { cur with sourceType := deStr (some v) cur.sourceType } from by
          simp +decide [applyMember, decStr_wt cur.sourceType hwf, Except.map]]
        exact hdec
      · rw [e1, lookupVal_cons_ne (by decide)] <;> rfl
      · rw [e2, lookupVal_cons_ne (by decide)] <;> rfl
      · rw [e3, lookupVal_cons_ne (by decide)] <;> rfl
      · rw [e4, lookupVal_cons_self hnone, lookupVal_of_none hnone] <;> rfl
      · rw [e5, lookupVal_cons_ne (by decide)] <;> rfl
      · rw [e6, lookupVal_cons_ne (by decide)] <;> rfl
      · rw [e7, lookupVal_cons_ne (by decide)] <;> rfl
      · rw [e8, lookupLast_cons_ne (by decide)] <;> rfl
      · rw [e9, lookupVal_cons_ne (by decide)] <;> rfl
      · rw [e10, lookupVal_cons_ne (by decide)] <;> rfl
      · rw [e11, lookupVal_cons_ne (by decide)] <;> rfl
    by_cases hk5 : k = "projectRoot"
    · subst hk5
      have hwf : wtStr v = true := by simpa using hw
      have hnone : lookupLast rest "projectRoot" = none := lookupLast_not_mem hnm
      obtain ⟨h, hdec, e1, e2, e3, e4, e5, e6, e7, e8, e9, e10, e11⟩ := ih hall hnd2 { cur with projectRoot := deStr (some v) cur.projectRoot }
      refine ⟨h, ?_, ?_, ?_, ?_, ?_, ?_, ?_, ?_, ?_, ?_, ?_, ?_⟩
      · simp only [decodeMembers]
        rw [show applyMember cur ("projectRoot", v, raw) = .ok { cur with projectRoot := deStr (some v) cur.projectRoot } from by
          simp +decide [applyMember, decStr_wt cur.projectRoot hwf, Except.map]]
        exact hdec
      · rw [e1, lookupVal_cons_ne (by decide)] <;> rfl
      · rw [e2, lookupVal_cons_ne (by decide)] <;> rfl
      · rw [e3, lookupVal_cons_ne (by decide)] <;> rfl
      · rw [e4, lookupVal_cons_ne (by decide)] <;> rfl
      · rw [e5, lookupVal_cons_self hnone, lookupVal_of_none hnone] <;> rfl
      · rw [e6, lookupVal_cons_ne (by decide)] <;> rfl
      · rw [e7, lookupVal_cons_ne (by decide)] <;> rfl
      · rw [e8, lookupLast_cons_ne (by decide)] <;> rfl
      · rw [e9, lookupVal_cons_ne (by decide)] <;> rfl
      · rw [e10, lookupVal_cons_ne (by decide)] <;> rfl
      · rw [e11, lookupVal_cons_ne (by decide)] <;> rfl
    by_cases hk6 : k = "phpSapi"
    · subst hk6
      have hwf : wtStr v = true := by simpa using hw
      have hnone : lookupLast rest "phpSapi" = none := lookupLast_not_mem hnm
      obtain ⟨h, hdec, e1, e2, e3, e4, e5, e6, e7, e8, e9, e10, e11⟩ := ih hall hnd2 { cur with phpSapi := deStr (some v) cur.phpSapi }
      refine ⟨h, ?_, ?_, ?_, ?_, ?_, ?_, ?_, ?_, ?_, ?_, ?_, ?_⟩
      · simp only [decodeMembers]
        rw [show applyMember cur ("phpSapi", v, raw) = .ok { cur with phpSapi := deStr (some v) cur.phpSapi } from by
          simp +decide [applyMember, decStr_wt cur.phpSapi hwf, Except.map]]
        exact hdec
      · rw [e1, lookupVal_cons_ne (by decide)] <;> rfl
      · rw [e2, lookupVal_cons_ne (by decide)] <;> rfl
      · rw [e3, lookupVal_cons_ne (by decide)] <;> rfl
      · rw [e4, lookupVal_cons_ne (by decide)] <;> rfl
      · rw [e5, lookupVal_cons_ne (by decide)] <;> rfl
      · rw [e6, lookupVal_cons_self hnone, lookupVal_of_none hnone] <;> rfl
      · rw [e7, lookupVal_cons_ne (by decide)] <;> rfl
      · rw [e8, lookupLast_cons_ne (by decide)] <;> rfl
      · rw [e9, lookupVal_cons_ne (by decide)] <;> rfl
      · rw [e10, lookupVal_cons_ne (by decide)] <;> rfl
      · rw [e11, lookupVal_cons_ne (by decide)] <;> rfl
    by_cases hk7 : k = "requestId"
    · subst hk7
      have hwf : wtStr v = true := by simpa using hw
      obtain ⟨o, ho⟩ := decOptStr_wtv hwf
      obtain ⟨h, hdec, e1, e2, e3, e4, e5, e6, e7, e8, e9, e10, e11⟩ := ih hall hnd2 { cur with requestId := o }
      refine ⟨h, ?_, ?_, ?_, ?_, ?_, ?_, ?_, ?_, ?_, ?_, ?_, ?_⟩
      · simp only [decodeMembers]
        rw [show applyMember cur ("requestId", v, raw) = .ok { cur with requestId := o } from by
          simp +decide [applyMember, ho, Except.map]]
        exact hdec
      · rw [e1, lookupVal_cons_ne (by decide)] <;> rfl
      · rw [e2, lookupVal_cons_ne (by decide)] <;> rfl
      · rw [e3, lookupVal_cons_ne (by decide)] <;> rfl
      · rw [e4, lookupVal_cons_ne (by decide)] <;> rfl
      · rw [e5, lookupVal_cons_ne (by decide)] <;> rfl
      · rw [e6, lookupVal_cons_ne (by decide)] <;> rfl
      · rw [e7, lookupVal_cons_ne (by decide)] <;> rfl
      · rw [e8, lookupLast_cons_ne (by decide)] <;> rfl
      · rw [e9, lookupVal_cons_ne (by decide)] <;> rfl
      · rw [e10, lookupVal_cons_ne (by decide)] <;> rfl
      · rw [e11, lookupVal_cons_ne (by decide)] <;> rfl
    by_cases hk8 : k = "http"
    · subst hk8
      have hwf : wtHTTPObj v = true := by simpa using hw
      have hnone : lookupLast rest "http" = none := lookupLast_not_mem hnm
      obtain ⟨h, hdec, e1, e2, e3, e4, e5, e6, e7, e8, e9, e10, e11⟩ := ih hall hnd2 { cur with http := deHTTPF (some v) cur.http }
      refine ⟨h, ?_, ?_, ?_, ?_, ?_, ?_, ?_, ?_, ?_, ?_, ?_, ?_⟩
      · simp only [decodeMembers]
        rw [show applyMember cur ("http", v, raw) = .ok { cur with http := deHTTPF (some v) cur.http } from by
          simp +decide [applyMember, decHTTP_wt cur.http hwf, Except.map]]
        exact hdec
      · rw [e1, lookupVal_cons_ne (by decide)] <;> rfl
      · rw [e2, lookupVal_cons_ne (by decide)] <;> rfl
      · rw [e3, lookupVal_cons_ne (by decide)] <;> rfl
      · rw [e4, lookupVal_cons_ne (by decide)] <;> rfl
      · rw [e5, lookupVal_cons_ne (by decide)] <;> rfl
      · rw [e6, lookupVal_cons_ne (by decide)] <;> rfl
      · rw [e7, lookupVal_cons_ne (by decide)] <;> rfl
      · rw [e8, lookupLast_cons_ne (by decide)] <;> rfl
      · rw [e9, lookupVal_cons_self hnone, lookupVal_of_none hnone] <;> rfl
      · rw [e10, lookupVal_cons_ne (by decide)] <;> rfl
      · rw [e11, lookupVal_cons_ne (by decide)] <;> rfl
    by_cases hk9 : k = "command"
    · subst hk9
      have hwf : wtCommandObj v = true := by simpa using hw
      have hnone : lookupLast rest "command" = none := lookupLast_not_mem hnm
      obtain ⟨h, hdec, e1, e2, e3, e4, e5, e6, e7, e8, e9, e10, e11⟩ := ih hall hnd2 { cur with command := deCommandF (some v) cur.command }
      refine ⟨h, ?_, ?_, ?_, ?_, ?_, ?_, ?_, ?_, ?_, ?_, ?_, ?_⟩
      · simp only [decodeMembers]
        rw [show applyMember cur ("command", v, raw) = .ok { cur with command := deCommandF (some v) cur.command } from by
          simp +decide [applyMember, decCommand_wt cur.command hwf, Except.map]]
        exact hdec
      · rw [e1, lookupVal_cons_ne (by decide)] <;> rfl
      · rw [e2, lookupVal_cons_ne (by decide)] <;> rfl
      · rw [e3, lookupVal_cons_ne (by decide)] <;> rfl
      · rw [e4, lookupVal_cons_ne (by decide)] <;> rfl
      · rw [e5, lookupVal_cons_ne (by decide)] <;> rfl
      · rw [e6, lookupVal_cons_ne (by decide)] <;> rfl
      · rw [e7, lookupVal_cons_ne (by decide)] <;> rfl
      · rw [e8, lookupLast_cons_ne (by decide)] <;> rfl
      · rw [e9, lookupVal_cons_ne (by decide)] <;> rfl
      · rw [e10, lookupVal_cons_self hnone, lookupVal_of_none hnone] <;> rfl
      · rw [e11, lookupVal_cons_ne (by decide)] <;> rfl
    by_cases hk10 : k = "isDd"
    · subst hk10
      have hwf : wtBool v = true := by simpa using hw
      obtain ⟨b, hb⟩ := decBool_wt cur.isDd hwf
      obtain ⟨h, hdec, e1, e2, e3, e4, e5, e6, e7, e8, e9, e10, e11⟩ := ih hall hnd2 { cur with isDd := b }
      refine ⟨h, ?_, ?_, ?_, ?_, ?_, ?_, ?_, ?_, ?_, ?_, ?_, ?_⟩
      · simp only [decodeMembers]
        rw [show applyMember cur ("isDd", v, raw) = .ok { cur with isDd := b } from by
          simp +decide [applyMember, hb, Except.map]]
        exact hdec
      · rw [e1, lookupVal_cons_ne (by decide)] <;> rfl
      · rw [e2, lookupVal_cons_ne (by decide)] <;> rfl
      · rw [e3, lookupVal_cons_ne (by decide)] <;> rfl
      · rw [e4, lookupVal_cons_ne (by decide)] <;> rfl
      · rw [e5, lookupVal_cons_ne (by decide)] <;> rfl
      · rw [e6, lookupVal_cons_ne (by decide)] <;> rfl
      · rw [e7, lookupVal_cons_ne (by decide)] <;> rfl
      · rw [e8, lookupLast_cons_ne (by decide)] <;> rfl
      · rw [e9, lookupVal_cons_ne (by decide)] <;> rfl
      · rw [e10, lookupVal_cons_ne (by decide)] <;> rfl
      · rw [e11, lookupVal_cons_ne (by decide)] <;> rfl
    by_cases hk11 : k = "payloadFormat"
    · subst hk11
      have hwf : wtStr v = true := by simpa using hw
      have hnone : lookupLast rest "payloadFormat" = none := lookupLast_not_mem hnm
      obtain ⟨h, hdec, e1, e2, e3, e4, e5, e6, e7, e8, e9, e10, e11⟩ := ih hall hnd2 { cur with payloadFormat := deStr (some v) cur.payloadFormat }
      refine ⟨h, ?_, ?_, ?_, ?_, ?_, ?_, ?_, ?_, ?_, ?_, ?_, ?_⟩
      · simp only [decodeMembers]
        rw [show applyMember cur ("payloadFormat", v, raw) = .ok { cur with payloadFormat := deStr (some v) cur.payloadFormat } from by
          simp +decide [applyMember, decStr_wt cur.payloadFormat hwf, Except.map]]
        exact hdec
      · rw [e1, lookupVal_cons_ne (by decide)] <;> rfl
      · rw [e2, lookupVal_cons_ne (by decide)] <;> rfl
      · rw [e3, lookupVal_cons_ne (by decide)] <;> rfl
      · rw [e4, lookupVal_cons_ne (by decide)] <;> rfl
      · rw [e5, lookupVal_cons_ne (by decide)] <;> rfl
      · rw [e6, lookupVal_cons_ne (by decide)] <;> rfl
      · rw [e7, lookupVal_cons_self hnone, lookupVal_of_none hnone] <;> rfl
      · rw [e8, lookupLast_cons_ne (by decide)] <;> rfl
      · rw [e9, lookupVal_cons_ne (by decide)] <;> rfl
      · rw [e10, lookupVal_cons_ne (by decide)] <;> rfl
      · rw [e11, lookupVal_cons_ne (by decide)] <;> rfl
    by_cases hk12 : k = "payload"
    · subst hk12
      have hnone : lookupLast rest "payload" = none := lookupLast_not_mem hnm
      obtain ⟨h, hdec, e1, e2, e3, e4, e5, e6, e7, e8, e9, e10, e11⟩ := ih hall hnd2 { cur with payload := raw }
      refine ⟨h, ?_, ?_, ?_, ?_, ?_, ?_, ?_, ?_, ?_, ?_, ?_, ?_⟩
      · simp only [decodeMembers]
        rw [show applyMember cur ("payload", v, raw) = .ok { cur with payload := raw } from by
          simp +decide [applyMember]]
        exact hdec
      · rw [e1, lookupVal_cons_ne (by decide)] <;> rfl
      · rw [e2, lookupVal_cons_ne (by decide)] <;> rfl
      · rw [e3, lookupVal_cons_ne (by decide)] <;> rfl
      · rw [e4, lookupVal_cons_ne (by decide)] <;> rfl
      · rw [e5, lookupVal_cons_ne (by decide)] <;> rfl
      · rw [e6, lookupVal_cons_ne (by decide)] <;> rfl
      · rw [e7, lookupVal_cons_ne (by decide)] <;> rfl
      · rw [e8, lookupLast_cons_self hnone, hnone] <;> rfl
      · rw [e9, lookupVal_cons_ne (by decide)] <;> rfl
      · rw [e10, lookupVal_cons_ne (by decide)] <;> rfl
      · rw [e11, lookupVal_cons_ne (by decide)] <;> rfl
    by_cases hk13 : k = "trace"
    · subst hk13
      have hwf : wtTrace v = true := by simpa using hw
      obtain ⟨t2, ht2⟩ := decTrace_wt hwf
      obtain ⟨h, hdec, e1, e2, e3, e4, e5, e6, e7, e8, e9, e10, e11⟩ := ih hall hnd2 { cur with trace := t2 }
      refine ⟨h, ?_, ?_, ?_, ?_, ?_, ?_, ?_, ?_, ?_, ?_, ?_, ?_⟩
      · simp only [decodeMembers]
        rw [show applyMember cur ("trace", v, raw) = .ok { cur with trace := t2 } from by
          simp +decide [applyMember, ht2, Except.map]]
        exact hdec
      · rw [e1, lookupVal_cons_ne (by decide)] <;> rfl
      · rw [e2, lookupVal_cons_ne (by decide)] <;> rfl
      · rw [e3, lookupVal_cons_ne (by decide)] <;> rfl
      · rw [e4, lookupVal_cons_ne (by decide)] <;> rfl
      · rw [e5, lookupVal_cons_ne (by decide)] <;> rfl
      · rw [e6, lookupVal_cons_ne (by decide)] <;> rfl
      · rw [e7, lookupVal_cons_ne (by decide)] <;> rfl
      · rw [e8, lookupLast_cons_ne (by decide)] <;> rfl
      · rw [e9, lookupVal_cons_ne (by decide)] <;> rfl
      · rw [e10, lookupVal_cons_ne (by decide)] <;> rfl
      · rw [e11, lookupVal_cons_ne (by decide)] <;> rfl
    by_cases hk14 : k = "host"
    · subst hk14
      have hwf : wtHostObj v = true := by simpa using hw
      have hnone : lookupLast rest "host" = none := lookupLast_not_mem hnm
      obtain ⟨h, hdec, e1, e2, e3, e4, e5, e6, e7, e8, e9, e10, e11⟩ := ih hall hnd2 { cur with host := deHostF (some v) cur.host }
      refine ⟨h, ?_, ?_, ?_, ?_, ?_, ?_, ?_, ?_, ?_, ?_, ?_, ?_⟩
      · simp only [decodeMembers]
        rw [show applyMember cur ("host", v, raw) = .ok { cur with host := deHostF (some v) cur.host } from by
          simp +decide [applyMember, decHost_wt cur.host hwf, Except.map]]
        exact hdec
      · rw [e1, lookupVal_cons_ne (by decide)] <;> rfl
      · rw [e2, lookupVal_cons_ne (by decide)] <;> rfl
      · rw [e3, lookupVal_cons_ne (by decide)] <;> rfl
      · rw [e4, lookupVal_cons_ne (by decide)] <;> rfl
      · rw [e5, lookupVal_cons_ne (by decide)] <;> rfl
      · rw [e6, lookupVal_cons_ne (by decide)] <;> rfl
      · rw [e7, lookupVal_cons_ne (by decide)] <;> rfl
      · rw [e8, lookupLast_cons_ne (by decide)] <;> rfl
      · rw [e9, lookupVal_cons_ne (by decide)] <;> rfl
      · rw [e10, lookupVal_cons_ne (by decide)] <;> rfl
      · rw [e11, lookupVal_cons_self hnone, lookupVal_of_none hnone] <;> rfl
    · have hn1 : ¬nameMatch k "schemaVersion" := fun hm => hk1 (hs "schemaVersion" (by decide) hm)
      have hn2 : ¬nameMatch k "id" := fun hm => hk2 (hs "id" (by decide) hm)
      have hn3 : ¬nameMatch k "timestamp" := fun hm => hk3 (hs "timestamp" (by decide) hm)
      have hn4 : ¬nameMatch k "sourceType" := fun hm => hk4 (hs "sourceType" (by decide) hm)
      have hn5 : ¬nameMatch k "projectRoot" := fun hm => hk5 (hs "projectRoot" (by decide) hm)
      have hn6 : ¬nameMatch k "phpSapi" := fun hm => hk6 (hs "phpSapi" (by decide) hm)
      have hn7 : ¬nameMatch k "requestId" := fun hm => hk7 (hs "requestId" (by decide) hm)
      have hn8 : ¬nameMatch k "http" := fun hm => hk8 (hs "http" (by decide) hm)
      have hn9 : ¬nameMatch k "command" := fun hm => hk9 (hs "command" (by decide) hm)
      have hn10 : ¬nameMatch k "isDd" := fun hm => hk10 (hs "isDd" (by decide) hm)
      have hn11 : ¬nameMatch k "payloadFormat" := fun hm => hk11 (hs "payloadFormat" (by decide) hm)
      have hn12 : ¬nameMatch k "payload" := fun hm => hk12 (hs "payload" (by decide) hm)
      have hn13 : ¬nameMatch k "trace" := fun hm => hk13 (hs "trace" (by decide) hm)
      have hn14 : ¬nameMatch k "host" := fun hm => hk14 (hs "host" (by decide) hm)
      obtain ⟨h, hdec, e1, e2, e3, e4, e5, e6, e7, e8, e9, e10, e11⟩ := ih hall hnd2 cur
      refine ⟨h, ?_, ?_, ?_, ?_, ?_, ?_, ?_, ?_, ?_, ?_, ?_, ?_⟩
      · simp only [decodeMembers]
        rw [show applyMember cur (k, v, raw) = .ok cur from by
          simp [applyMember, hn1, hn2, hn3, hn4, hn5, hn6, hn7, hn8, hn9, hn10, hn11, hn12, hn13, hn14]]
        exact hdec
      · rw [e1, lookupVal_cons_ne hk1] <;> rfl
      · rw [e2, lookupVal_cons_ne hk2] <;> rfl
      · rw [e3, lookupVal_cons_ne hk3] <;> rfl
      · rw [e4, lookupVal_cons_ne hk4] <;> rfl
      · rw [e5, lookupVal_cons_ne hk5] <;> rfl
      · rw [e6, lookupVal_cons_ne hk6] <;> rfl
      · rw [e7, lookupVal_cons_ne hk11] <;> rfl
      · rw [e8, lookupLast_cons_ne hk12] <;> rfl
      · rw [e9, lookupVal_cons_ne hk8] <;> rfl
      · rw [e10, lookupVal_cons_ne hk9] <;> rfl
      · rw [e11, lookupVal_cons_ne hk14] <;> rfl

/-! ## Eliminations of the §3 field-rule predicates -/

theorem fieldIsOne_elim {ms : List (String × Json × String)}
    (h : fieldIsOne ms = true) :
    ∃ tok raw, lookupLast ms "schemaVersion" = some (.num tok, raw) ∧
      parseIntLit tok = some 1 := by
  unfold fieldIsOne at h
  rcases hl : lookupVal ms "schemaVersion" with _ | v
  · rw [hl] at h
    simp at h
  rw [hl] at h
  cases v with
  | num tok =>
    obtain ⟨raw, hr⟩ := lookupVal_some hl
    simp at h
    exact ⟨tok, raw, hr, h⟩
  | null => simp at h
  | str s2 => simp at h
  | bool b => simp at h
  | arr es => simp at h
  | obj ms2 => simp at h

theorem fieldNonEmptyStr_elim {ms : List (String × Json × String)} {k : String}
    (h : fieldNonEmptyStr ms k = true) :
    ∃ s raw, lookupLast ms k = some (.str s, raw) ∧ ¬s = "" := by
  unfold fieldNonEmptyStr at h
  rcases hl : lookupVal ms k with _ | v
  · rw [hl] at h
    simp at h
  rw [hl] at h
  cases v with
  | str s2 =>
    obtain ⟨raw, hr⟩ := lookupVal_some hl
    simp at h
    exact ⟨s2, raw, hr, h⟩
  | null => simp at h
  | num t => simp at h
  | bool b => simp at h
  | arr es => simp at h
  | obj ms2 => simp at h

theorem fieldTsNormalized_elim {ms : List (String × Json × String)}
    (h : fieldTsNormalized ms = true) :
    ∃ s raw, lookupLast ms "timestamp" = some (.str s, raw) ∧ tsNormalized s = true := by
  unfold fieldTsNormalized at h
  rcases hl : lookupVal ms "timestamp" with _ | v
  · rw [hl] at h
    simp at h
  rw [hl] at h
  cases v with
  | str s2 =>
    obtain ⟨raw, hr⟩ := lookupVal_some hl
    simp at h
    exact ⟨s2, raw, hr, h⟩
  | null => simp at h
  | num t => simp at h
  | bool b => simp at h
  | arr es => simp at h
  | obj ms2 => simp at h

theorem fieldEqStr_elim {ms : List (String × Json × String)} {k x : String}
    (h : fieldEqStr ms k x = true) :
    ∃ raw, lookupLast ms k = some (.str x, raw) := by
  unfold fieldEqStr at h
  rcases hl : lookupVal ms k with _ | v
  · rw [hl] at h
    simp at h
  rw [hl] at h
  cases v with
  | str s2 =>
    simp at h
    subst h
    exact lookupVal_some hl
  | null => simp at h
  | num t => simp at h
  | bool b => simp at h
  | arr es => simp at h
  | obj ms2 => simp at h

theorem fieldReqId_elim {ms : List (String × Json × String)}
    (h : fieldReqId ms = true) :
    ∃ v raw, lookupLast ms "requestId" = some (v, raw) ∧
      (v = .null ∨ ∃ s, v = .str s) := by
  unfold fieldReqId at h
  rcases hl : lookupVal ms "requestId" with _ | v
  · rw [hl] at h
    simp at h
  obtain ⟨raw, hr⟩ := lookupVal_some hl
  rw [hl] at h
  cases v with
  | null => exact ⟨.null, raw, hr, Or.inl rfl⟩
  | str s2 => exact ⟨.str s2, raw, hr, Or.inr ⟨s2, rfl⟩⟩
  | num t => simp at h
  | bool b => simp at h
  | arr es => simp at h
  | obj ms2 => simp at h

theorem fieldIsDd_elim {ms : List (String × Json × String)}
    (h : fieldIsDd ms = true) :
    ∃ b raw, lookupLast ms "isDd" = some (.bool b, raw) := by
  unfold fieldIsDd at h
  rcases hl : lookupVal ms "isDd" with _ | v
  · rw [hl] at h
    simp at h
  rw [hl] at h
  cases v with
  | bool b =>
    obtain ⟨raw, hr⟩ := lookupVal_some hl
    exact ⟨b, raw, hr⟩
  | null => simp at h
  | num t => simp at h
  | str s2 => simp at h
  | arr es => simp at h
  | obj ms2 => simp at h

theorem fieldTrace_elim {ms : List (String × Json × String)}
    (h : fieldTrace ms = true) :
    ∃ es raw, lookupLast ms "trace" = some (.arr es, raw) := by
  unfold fieldTrace at h
  rcases hl : lookupVal ms "trace" with _ | v
  · rw [hl] at h
    simp at h
  rw [hl] at h
  cases v with
  | arr es =>
    obtain ⟨raw, hr⟩ := lookupVal_some hl
    exact ⟨es, raw, hr⟩
  | null => simp at h
  | num t => simp at h
  | str s2 => simp at h
  | bool b => simp at h
  | obj ms2 => simp at h

theorem fieldHost_elim {ms : List (String × Json × String)}
    (h : fieldHost ms = true) :
    ∃ v raw, lookupLast ms "host" = some (v, raw) ∧ hostStrict v = true := by
  unfold fieldHost at h
  rcases hl : lookupVal ms "host" with _ | v
  · rw [hl] at h
    simp at h
  obtain ⟨raw, hr⟩ := lookupVal_some hl
  rw [hl] at h
  simp at h
  exact ⟨v, raw, hr, h⟩

theorem fieldSource_elim {ms : List (String × Json × String)}
    (h : fieldSource ms = true) :
    ∃ s raw, lookupLast ms "sourceType" = some (.str s, raw) ∧
      ((s = "http" ∧ ∃ v, lookupVal ms "http" = some v ∧ httpStrict v = true) ∨
       ((s = "cli" ∨ s = "worker" ∨ s = "cron") ∧
         ∃ v, lookupVal ms "command" = some v ∧ commandStrict v = true)) := by
  unfold fieldSource at h
  rcases hl : lookupVal ms "sourceType" with _ | v
  · rw [hl] at h
    simp at h
  rw [hl] at h
  cases v with
  | str s2 =>
    obtain ⟨raw, hr⟩ := lookupVal_some hl
    refine ⟨s2, raw, hr, ?_⟩
    have h2 : (if s2 == "http" then
          (match lookupVal ms "http" with
           | some v => httpStrict v
           | none => false)
        else if s2 == "cli" || s2 == "worker" || s2 == "cron" then
          (match lookupVal ms "command" with
           | some v => commandStrict v
           | none => false)
        else false) = true := h
    by_cases hs : (s2 == "http") = true
    · rw [if_pos hs] at h2
      left
      refine ⟨by simpa using hs, ?_⟩
      rcases hh : lookupVal ms "http" with _ | vh
      · rw [hh] at h2
        simp at h2
      · rw [hh] at h2
        simp at h2
        exact ⟨vh, rfl, h2⟩
    · rw [if_neg hs] at h2
      by_cases hs2 : (s2 == "cli" || s2 == "worker" || s2 == "cron") = true
      · rw [if_pos hs2] at h2
        right
        refine ⟨by
          have h3 : (s2 = "cli" ∨ s2 = "worker") ∨ s2 = "cron" := by simpa using hs2
          tauto, ?_⟩
        rcases hc : lookupVal ms "command" with _ | vc
        · rw [hc] at h2
          simp at h2
        · rw [hc] at h2
          simp at h2
          exact ⟨vc, rfl, h2⟩
      · rw [if_neg hs2] at h2
        simp at h2
  | null => simp at h
  | num t => simp at h
  | bool b => simp at h
  | arr es => simp at h
  | obj ms2 => simp at h

theorem httpStrict_elim {v : Json} (h : httpStrict v = true) :
    ∃ hms2, v = .obj hms2 ∧ nodupB (keysOf hms2) = true ∧
      hms2.all wtHTTPMember = true ∧
      fieldNonEmptyStr hms2 "method" = true ∧ fieldNonEmptyStr hms2 "scheme" = true ∧
      fieldNonEmptyStr hms2 "host" = true ∧ fieldNonEmptyStr hms2 "path" = true := by
  cases v with
  | obj hms2 =>
    simp only [httpStrict, Bool.and_eq_true] at h
    exact ⟨hms2, rfl, h.1.1.1.1.1, h.1.1.1.1.2, h.1.1.1.2, h.1.1.2, h.1.2, h.2⟩
  | null => simp [httpStrict] at h
  | num t => simp [httpStrict] at h
  | str s2 => simp [httpStrict] at h
  | bool b => simp [httpStrict] at h
  | arr es => simp [httpStrict] at h

theorem commandStrict_elim {v : Json} (h : commandStrict v = true) :
    ∃ cms2, v = .obj cms2 ∧ nodupB (keysOf cms2) = true ∧
      cms2.all wtCommandMember = true ∧ fieldNonEmptyStr cms2 "name" = true := by
  cases v with
  | obj cms2 =>
    simp only [commandStrict, Bool.and_eq_true] at h
    exact ⟨cms2, rfl, h.1.1, h.1.2, h.2⟩
  | null => simp [commandStrict] at h
  | num t => simp [commandStrict] at h
  | str s2 => simp [commandStrict] at h
  | bool b => simp [commandStrict] at h
  | arr es => simp [commandStrict] at h

theorem hostStrict_elim {v : Json} (h : hostStrict v = true) :
    ∃ hms2, v = .obj hms2 ∧ nodupB (keysOf hms2) = true ∧
      hms2.all wtHostMember = true ∧ fieldNonEmptyStr hms2 "hostname" = true ∧
      ∃ tok raw n, lookupLast hms2 "pid" = some (.num tok, raw) ∧
        parseIntLit tok = some n ∧ 0 < n ∧ n ≤ int64Max := by
  cases v with
  | obj hms2 =>
    simp only [hostStrict, Bool.and_eq_true] at h
    obtain ⟨⟨⟨hnd, hall⟩, hhn⟩, hpid⟩ := h
    refine ⟨hms2, rfl, hnd, hall, hhn, ?_⟩
    rcases hp : lookupVal hms2 "pid" with _ | vp
    · rw [hp] at hpid
      simp at hpid
    rw [hp] at hpid
    cases vp with
    | num tok =>
      obtain ⟨raw, hr⟩ := lookupVal_some hp
      have hpid3 : (match parseIntLit tok with
          | some n => decide (0 < n ∧ n ≤ int64Max)
          | none => false) = true := hpid
      rcases hpi : parseIntLit tok with _ | n
      · rw [hpi] at hpid3
        simp at hpid3
      · rw [hpi] at hpid3
        simp at hpid3
        exact ⟨tok, raw, n, hr, hpi, hpid3.1, hpid3.2⟩
    | null => simp [posIntVal] at hpid
    | str s2 => simp [posIntVal] at hpid
    | bool b => simp [posIntVal] at hpid
    | arr es => simp [posIntVal] at hpid
    | obj ms3 => simp [posIntVal] at hpid
  | null => simp [hostStrict] at h
  | num t => simp [hostStrict] at h
  | str s2 => simp [hostStrict] at h
  | bool b => simp [hostStrict] at h
  | arr es => simp [hostStrict] at h

/-- C1: for every input line which, after trimming leading/trailing
whitespace, is a single JSON object satisfying every field rule of the §3
data model — schemaVersion equal to the supported constant 1; non-empty
`id`, `projectRoot`, `phpSapi`; a timestamp that re-renders byte-for-byte
under UTC RFC3339Nano formatting; `sourceType` one of http/cli/worker/cron
with the matching sub-object present and its required members non-empty;
`requestId` JSON null or a string; `isDd` a boolean; `payloadFormat`
"json"; `payload` present (and, being a parsed member, valid JSON);
`trace` a JSON array; `host` with non-empty hostname and pid > 0; and no
member whose key is a case-variant alias of a field name, since
`encoding/json`'s case-insensitive matching binds such a member to the
field (`ValidRawEvent` types every member the typed unmarshal would bind)
— `DecodeNDJSONLine` returns a non-null Event and a nil error. -/
theorem decode_valid_line_ok (line : String) (ms : List (String × Json × String))
    (hp : parseTop (trimSpace line) = some (.obj ms))
    (hv : ValidRawEvent ms = true) :
    ∃ ev, DecodeNDJSONLine line = .ok (some ev) := by
  unfold ValidRawEvent at hv
  simp only [Bool.and_eq_true] at hv
  obtain ⟨⟨⟨⟨⟨⟨⟨⟨⟨⟨⟨⟨⟨hnd, hwt⟩, hone⟩, hid⟩, hts⟩, hsrc⟩, hpr⟩, hps⟩, hrid⟩, hdd⟩,
    hpfm⟩, hpl⟩, htrc⟩, hho⟩ := hv
  have hexact := member_exact hp
  have hjvm := member_raw_valid hp
  obtain ⟨tokSV, rawSV, hlSV, hpiSV⟩ := fieldIsOne_elim hone
  obtain ⟨sId, rawId, hlId, hneId⟩ := fieldNonEmptyStr_elim hid
  obtain ⟨sTs, rawTs, hlTs, htsn⟩ := fieldTsNormalized_elim hts
  obtain ⟨sSt, rawSt, hlSt, hbr⟩ := fieldSource_elim hsrc
  obtain ⟨sPr, rawPr, hlPr, hnePr⟩ := fieldNonEmptyStr_elim hpr
  obtain ⟨sPs, rawPs, hlPs, hnePs⟩ := fieldNonEmptyStr_elim hps
  obtain ⟨vRid, rawRid, hlRid, hshRid⟩ := fieldReqId_elim hrid
  obtain ⟨bDd, rawDd, hlDd⟩ := fieldIsDd_elim hdd
  obtain ⟨rawPf, hlPf⟩ := fieldEqStr_elim hpfm
  obtain ⟨esTr, rawTr, hlTr⟩ := fieldTrace_elim htrc
  obtain ⟨vHo, rawHo, hlHo, hstHo⟩ := fieldHost_elim hho
  obtain ⟨⟨vPl, rawPl⟩, hlPl⟩ := lookupLast_of_hasKey hpl
  obtain ⟨ev, hdec, e1, e2, e3, e4, e5, e6, e7, e8, e9, e10, e11⟩ :=
    decodeMembers_char ms hwt hnd zeroEvent
  have hun : unmarshalEvent (.obj ms) = .ok ev := hdec
  have hvlSV : lookupVal ms "schemaVersion" = some (.num tokSV) := by
    unfold lookupVal
    rw [hlSV] <;> rfl
  have hvlId : lookupVal ms "id" = some (.str sId) := by
    unfold lookupVal
    rw [hlId] <;> rfl
  have hvlTs : lookupVal ms "timestamp" = some (.str sTs) := by
    unfold lookupVal
    rw [hlTs] <;> rfl
  have hvlSt : lookupVal ms "sourceType" = some (.str sSt) := by
    unfold lookupVal
    rw [hlSt] <;> rfl
  have hvlPr : lookupVal ms "projectRoot" = some (.str sPr) := by
    unfold lookupVal
    rw [hlPr] <;> rfl
  have hvlPs : lookupVal ms "phpSapi" = some (.str sPs) := by
    unfold lookupVal
    rw [hlPs] <;> rfl
  have hvlPf : lookupVal ms "payloadFormat" = some (.str "json") := by
    unfold lookupVal
    rw [hlPf] <;> rfl
  have hevSv : ev.schemaVersion = 1 := by
    rw [e1, hvlSV]
    simp [deInt, hpiSV]
  have hevId : ev.id = sId := by rw [e2, hvlId] <;> rfl
  have hevTs : ev.timestamp = sTs := by rw [e3, hvlTs] <;> rfl
  have hevSt : ev.sourceType = sSt := by rw [e4, hvlSt] <;> rfl
  have hevPr : ev.projectRoot = sPr := by rw [e5, hvlPr] <;> rfl
  have hevPs : ev.phpSapi = sPs := by rw [e6, hvlPs] <;> rfl
  have hevPf : ev.payloadFormat = "json" := by rw [e7, hvlPf] <;> rfl
  have hevPl : ev.payload = rawPl := by rw [e8, hlPl] <;> rfl
  have hmemPl : ("payload", vPl, rawPl) ∈ ms := lookupLast_mem hlPl
  have hjv : jsonValid rawPl = true := hjvm _ hmemPl
  have hplne : ¬rawPl.length = 0 := by
    intro hc
    obtain ⟨g, hg⟩ := hexact _ hmemPl
    have hg2 : parseVal g rawPl.data = some (vPl, rawPl.data, []) := hg
    have hdata : rawPl.data = [] := List.length_eq_zero.mp hc
    rw [hdata] at hg2
    rw [parseVal_nil] at hg2
    exact Option.noConfusion hg2
  obtain ⟨hmsHo, rfl, hndHo, hallHo, hhnB, tokP, rawP, nP, hlP, hpiP, hposP, hmaxP⟩ :=
    hostStrict_elim hstHo
  obtain ⟨sHn, rawHn, hlHn, hneHn⟩ := fieldNonEmptyStr_elim hhnB
  obtain ⟨hHo, hdecHo, eH1, eH2⟩ := decodeHostMembers_char hmsHo hallHo hndHo zeroEvent.host
  have hvlHo : lookupVal ms "host" = some (.obj hmsHo) := by
    unfold lookupVal
    rw [hlHo] <;> rfl
  have hevHo : ev.host = hHo := by
    rw [e11, hvlHo]
    simp only [deHostF]
    rw [hdecHo]
    rfl
  have hHoHn : hHo.hostname = sHn := by
    rw [eH1]
    unfold lookupVal
    rw [hlHn] <;> rfl
  have hHoPid : hHo.pid = nP := by
    rw [eH2]
    unfold lookupVal
    rw [hlP]
    simp [deInt, hpiP]
  have hkeys : validateRequiredKeys ms = .ok () := by
    have hfm : firstMissing requiredEventKeys ms = none := by
      simp [requiredEventKeys, firstMissing, hasKey_of_lookupLast hlSV,
        hasKey_of_lookupLast hlId, hasKey_of_lookupLast hlTs, hasKey_of_lookupLast hlSt,
        hasKey_of_lookupLast hlPr, hasKey_of_lookupLast hlPs, hasKey_of_lookupLast hlRid,
        hasKey_of_lookupLast hlDd, hasKey_of_lookupLast hlPf, hpl,
        hasKey_of_lookupLast hlTr, hasKey_of_lookupLast hlHo]
    have hgrR : getRaw ms "requestId" = (vRid, rawRid) := by
      unfold getRaw
      rw [hlRid] <;> rfl
    have hgrD : getRaw ms "isDd" = (.bool bDd, rawDd) := by
      unfold getRaw
      rw [hlDd] <;> rfl
    have hgrT : getRaw ms "trace" = (.arr esTr, rawTr) := by
      unfold getRaw
      rw [hlTr] <;> rfl
    have hcr : checkRequestId (vRid, rawRid) = .ok () := by
      rcases hshRid with rfl | ⟨s2, rfl⟩
      · obtain ⟨g, hg⟩ := hexact _ (lookupLast_mem hlRid)
        have hg2 : parseVal g rawRid.data = some (.null, rawRid.data, []) := hg
        have hshape := parseVal_null_shape hg2
        have hrn : rawRid = "null" := by
          obtain ⟨d⟩ := rawRid
          have hd : d = ['n', 'u', 'l', 'l'] := hshape
          rw [hd]
        simp [checkRequestId, hrn]
      · by_cases hn : rawRid = "null"
        · simp [checkRequestId, hn]
        · simp [checkRequestId, hn]
    have hTrNN : ¬rawTr = "null" := by
      intro hc
      obtain ⟨g, hg⟩ := hexact _ (lookupLast_mem hlTr)
      have hg2 : parseVal g rawTr.data = some (.arr esTr, rawTr.data, []) := hg
      rw [hc] at hg2
      cases g with
      | zero => exact Option.noConfusion hg2
      | succ f =>
        rw [show ("null" : String).data = ['n', 'u', 'l', 'l'] from rfl] at hg2
        rw [parseVal_null_run] at hg2
        simp at hg2
    have hcd : checkIsDd ((Json.bool bDd, rawDd) : Json × String).1 = .ok () := by
      simp [checkIsDd]
    have hct : checkTrace ((Json.arr esTr, rawTr) : Json × String) = .ok () := by
      simp [checkTrace, hTrNN]
    unfold validateRequiredKeys
    rw [hfm, hgrR, hgrD, hgrT, hcr, hcd, hct]
  have hval : validateEvent ev = .ok () := by
    rcases hbr with ⟨hA, vH, hvlH, hstH⟩ | ⟨henum3, vC, hvlC, hstC⟩
    · subst hA
      obtain ⟨hmsT, rfl, hndT, hallT, hmB, hsB, hhB, hpB⟩ := httpStrict_elim hstH
      obtain ⟨sM, rawM, hlM, hneM⟩ := fieldNonEmptyStr_elim hmB
      obtain ⟨sS2, rawS2, hlS2, hneS2⟩ := fieldNonEmptyStr_elim hsB
      obtain ⟨sH2, rawH2, hlH2, hneH2⟩ := fieldNonEmptyStr_elim hhB
      obtain ⟨sP2, rawP2, hlP2, hneP2⟩ := fieldNonEmptyStr_elim hpB
      obtain ⟨hT, hdecT, f1, f2, f3, f4⟩ := decodeHTTPMembers_char hmsT hallT hndT zeroHTTP
      have hevHt : ev.http = some hT := by
        rw [e9, hvlH]
        simp only [deHTTPF]
        rw [hdecT]
        rfl
      have hTm : hT.method = sM := by
        rw [f1]
        unfold lookupVal
        rw [hlM] <;> rfl
      have hTsc : hT.scheme = sS2 := by
        rw [f2]
        unfold lookupVal
        rw [hlS2] <;> rfl
      have hTh : hT.host = sH2 := by
        rw [f3]
        unfold lookupVal
        rw [hlH2] <;> rfl
      have hTp : hT.path = sP2 := by
        rw [f4]
        unfold lookupVal
        rw [hlP2] <;> rfl
      have hts2 := htsn
      unfold tsNormalized at hts2
      rcases ht : timeParseRFC3339Nano sTs with _ | t
      · rw [ht] at hts2
        simp at hts2
      · rw [ht] at hts2
        simp at hts2
        have hpidpos : ¬nP ≤ 0 := by omega
        unfold validateEvent
        rw [hevSv, hevId, hevTs, hevSt, hevPr, hevPs, hevPf, hevPl, hevHo, hevHt]
        rw [ht]
        simp [SchemaVersion, hneId, tsNormalized_ne_empty htsn, hnePr, hnePs, hplne,
          hts2, hHoHn, hHoPid, hneHn, hpidpos, hTm, hTsc, hTh, hTp, hneM, hneS2,
          hneH2, hneP2, hjv]
    · obtain ⟨cmsC, rfl, hndC, hallC, hnB⟩ := commandStrict_elim hstC
      obtain ⟨sN, rawN, hlN, hneN⟩ := fieldNonEmptyStr_elim hnB
      obtain ⟨cT, hdecC, g1⟩ := decodeCommandMembers_char cmsC hallC hndC zeroCommand
      have hevCo : ev.command = some cT := by
        rw [e10, hvlC]
        simp only [deCommandF]
        rw [hdecC]
        rfl
      have hCn : cT.name = sN := by
        rw [g1]
        unfold lookupVal
        rw [hlN] <;> rfl
      have hts2 := htsn
      unfold tsNormalized at hts2
      rcases ht : timeParseRFC3339Nano sTs with _ | t
      · rw [ht] at hts2
        simp at hts2
      · rw [ht] at hts2
        simp at hts2
        have hpidpos : ¬nP ≤ 0 := by omega
        rcases henum3 with rfl | rfl | rfl <;>
          (unfold validateEvent
           rw [hevSv, hevId, hevTs, hevSt, hevPr, hevPs, hevPf, hevPl, hevHo, hevCo]
           rw [ht]
           simp [SchemaVersion, hneId, tsNormalized_ne_empty htsn, hnePr, hnePs, hplne,
             hts2, hHoHn, hHoPid, hneHn, hpidpos, hCn, hneN, hjv])
  exact ⟨ev, decode_eq_ok hp rfl hkeys hun hval⟩

theorem decode_valid_line_ok_witness :
    (parseTop (trimSpace lineHTTP) = some (.obj (msOf lineHTTP)) ∧
      ValidRawEvent (msOf lineHTTP) = true) ∧
      ∃ ev, DecodeNDJSONLine lineHTTP = .ok (some ev) :=
  ⟨⟨rfl, by decide⟩, decode_valid_line_ok lineHTTP (msOf lineHTTP) rfl (by decide)⟩

end Phant
